import Mathlib

/-!
# ElectraBase inventory: persistence and domain model

A shallow embedding of `src/database/DatabaseManager.cpp` and of the model classes under
`src/models/`, followed by theorems about the embedded operations.

Modelling conventions.

* A `QString` is a Lean `String`; `QString::number(int)` and `QString::toInt()` are
  modelled in the namespace `QString` on the list of characters of the string.
* A C++ `int` is an `Int`; where the range of `int` matters (the text of a pin count parsed
  back by `toInt`) the bounds `INT_MIN` and `INT_MAX` appear explicitly.
* A finite `double` is modelled by the rational number it denotes (`Double`). Binding a
  finite double to a `REAL` column and reading it back with `toDouble()` carries it
  unchanged; not-a-number and the infinities are outside the model.
* Arithmetic on doubles is that of IEEE 754 binary64: a floating-point literal denotes the
  double nearest to the decimal number it spells (`Double.ofLiteral`), and a product or a
  quotient is the exact result rounded to the nearest double, ties to even (`Double.mul`,
  `Double.div`). Comparisons of doubles are comparisons of the rationals they denote.
  A value that is only stored and read back is written as the decimal number of the source;
  a value that is computed with is the double of its literal.
* `QString::number(double, 'g', p)` is modelled on these rationals by `QString.numberG`:
  the value rounded to `p` significant digits, trailing zeros dropped, in scientific form
  when the decimal exponent is below -4 or at least `p`.
* The SQLite database is a pair of row lists (in rowid order) together with the two
  `AUTOINCREMENT` counters. Every statement the code runs is executed on these lists.
* `QSqlQuery::exec` can fail for reasons the tables do not decide (closed connection,
  I/O error, a null string bound to a `NOT NULL` column). Each operation therefore takes a
  schedule `ok : Nat → Bool`; `ok k` tells whether the `k`-th statement the operation
  issues executes without such an error. A failed statement leaves the tables unchanged.
* An operation returns an `Outcome`: the database after the call, the C++ return value and
  the Qt signals emitted, in order.
-/

namespace ElectraBase

/-- Finite values of the C++ type `double`, as the rationals they denote. -/
abbrev Double := Rat

/-- Least value of the C++ type `int`. -/
def INT_MIN : Int := -2147483648

/-- Greatest value of the C++ type `int`. -/
def INT_MAX : Int := 2147483647

/-! ## Arithmetic on `double` -/

namespace Double

/-- Rounding of a rational number to the nearest integer, a tie going to the even one. -/
def roundHalfEven (x : Rat) : Int :=
  if 2 * (x - ⌊x⌋) < 1 then ⌊x⌋
  else if 1 < 2 * (x - ⌊x⌋) then ⌊x⌋ + 1
  else if ⌊x⌋ % 2 = 0 then ⌊x⌋ else ⌊x⌋ + 1

/-- The binary exponent of the binade of `q` in the format binary64: the `e` with
`2 ^ e ≤ |q| < 2 ^ (e + 1)`, and -1022 for the subnormal numbers and 0. -/
def exponent (q : Rat) : Int := max (Int.log 2 |q|) (-1022)

/-- The double nearest to the real number `q` (round to nearest, ties to even, 53 bits of
significand), as every operation of IEEE 754 arithmetic delivers it. A result beyond the
largest finite double, which the machine turns into an infinity, is outside the model. -/
def nearest (q : Rat) : Double :=
  roundHalfEven (q / 2 ^ (exponent q - 52)) * 2 ^ (exponent q - 52)

/-- The double that a floating-point literal of the source denotes; `q` is the decimal
number the literal spells. -/
def ofLiteral (q : Rat) : Double := nearest q

/-- The operator `*` of C++ on two doubles. -/
def mul (a b : Double) : Double := nearest (a * b)

/-- The operator `/` of C++ on two doubles, the divisor not 0. -/
def div (a b : Double) : Double := nearest (a / b)

end Double

/-! ## The part of `QString` used by the models -/

namespace QString

/-- Character of the decimal digit `d` (for `d < 10`). -/
def digitChar (d : Nat) : Char := Char.ofNat (48 + d)

/-- Decimal digits of `n`, least significant first; `fuel` bounds the number of digits. -/
def digitsRev : Nat → Nat → List Char
  | 0, _ => []
  | fuel + 1, n =>
    if n < 10 then [digitChar n] else digitChar (n % 10) :: digitsRev fuel (n / 10)

/-- Decimal text of a natural number, most significant digit first, `0` as the text 0. -/
def decimal (n : Nat) : List Char := (digitsRev (n + 1) n).reverse

/-- The function `QString::number(int)` in base 10: an optional minus sign and the digits. -/
def number (n : Int) : String :=
  if n < 0 then String.mk ('-' :: decimal n.natAbs) else String.mk (decimal n.natAbs)

/-- The predicate `QChar::isSpace`: tab to carriage return, space, next line, no-break space
and the Unicode separators. -/
def isSpace (c : Char) : Bool :=
  let u := c.toNat
  u == 0x20 || (0x09 ≤ u && u ≤ 0x0D) || u == 0x85 || u == 0xA0 || u == 0x1680 ||
    (0x2000 ≤ u && u ≤ 0x200A) || u == 0x2028 || u == 0x2029 || u == 0x202F ||
    u == 0x205F || u == 0x3000

/-- The function `QString::trimmed` on the characters of a string. -/
def trimmed (l : List Char) : List Char :=
  ((l.dropWhile isSpace).reverse.dropWhile isSpace).reverse

/-- Value of an ASCII decimal digit, `none` for every other character. -/
def digitValue (c : Char) : Option Nat :=
  if 48 ≤ c.toNat ∧ c.toNat ≤ 57 then some (c.toNat - 48) else none

/-- Reads a run of decimal digits onto the accumulator; `none` at the first character that
is not a digit. -/
def parseDigits : List Char → Nat → Option Nat
  | [], acc => some acc
  | c :: cs, acc =>
    match digitValue c with
    | some d => parseDigits cs (acc * 10 + d)
    | none => none

/-- Reads a non-empty run of decimal digits. -/
def parseNat (l : List Char) : Option Nat :=
  if l = [] then none else parseDigits l 0

/-- Integer denoted by a text in the C locale, base 10: surrounding white space is dropped,
one sign is allowed, then at least one digit and nothing else. -/
def parseInteger (l : List Char) : Option Int :=
  match trimmed l with
  | [] => none
  | c :: ds =>
    if c = '-' then Option.map (fun (n : Nat) => -(n : Int)) (parseNat ds)
    else if c = '+' then Option.map (fun (n : Nat) => (n : Int)) (parseNat ds)
    else Option.map (fun (n : Nat) => (n : Int)) (parseNat (c :: ds))

/-- The function `QString::toInt()`: the integer denoted by the text when there is one and
it fits an `int`, and 0 when the conversion fails. -/
def toInt (s : String) : Int :=
  match parseInteger s.toList with
  | some v => if INT_MIN ≤ v ∧ v ≤ INT_MAX then v else 0
  | none => 0

end QString

/-! ## Model classes -/

/-- The class `CategoryInfo` (`models/CategoryInfo.h`). -/
structure CategoryInfo where
  id : Int
  name : String
  isPassive : Bool
  isActive : Bool
  defaultUnit : String
  deriving DecidableEq, Repr

namespace CategoryInfo

/-- The default constructor `CategoryInfo()`: id -1, both flags false, empty strings. -/
def empty : CategoryInfo := ⟨-1, "", false, false, ""⟩

/-- The method `CategoryInfo::isValid`. -/
def isValid (c : CategoryInfo) : Bool := decide (c.id ≥ 0) && !c.name.isEmpty

end CategoryInfo

/-- The class `PassiveComponent`, fields in the order of its constructor. -/
structure PassiveComponent where
  id : Int
  name : String
  manufacturer : String
  quantity : Int
  category : String
  value : Double
  unit : String
  package : String
  deriving DecidableEq, Repr

/-- The class `ActiveComponent`, fields in the order of its constructor. -/
structure ActiveComponent where
  id : Int
  name : String
  manufacturer : String
  quantity : Int
  category : String
  operatingVoltage : Double
  pinCount : Int
  datasheetLink : String
  deriving DecidableEq, Repr

/-- The abstract class `Component` with its two concrete subclasses. -/
inductive Component where
  | passive (p : PassiveComponent)
  | active (a : ActiveComponent)
  deriving DecidableEq, Repr

namespace Component

/-- The getter `Component::getId`. -/
def getId : Component → Int
  | passive p => p.id
  | active a => a.id

/-- The getter `Component::getName`. -/
def getName : Component → String
  | passive p => p.name
  | active a => a.name

/-- The getter `Component::getManufacturer`. -/
def getManufacturer : Component → String
  | passive p => p.manufacturer
  | active a => a.manufacturer

/-- The getter `Component::getQuantity`. -/
def getQuantity : Component → Int
  | passive p => p.quantity
  | active a => a.quantity

/-- The getter `Component::getCategory`. -/
def getCategory : Component → String
  | passive p => p.category
  | active a => a.category

/-- The virtual `getType`: both subclasses return `m_category`. -/
def getType : Component → String
  | passive p => p.category
  | active a => a.category

/-- The virtual `getParam1`: the value of a passive part, the operating voltage of an
active part. -/
def getParam1 : Component → Double
  | passive p => p.value
  | active a => a.operatingVoltage

/-- The virtual `getParam2`: the package of a passive part, `QString::number(m_pinCount)`
for an active part. -/
def getParam2 : Component → String
  | passive p => p.package
  | active a => QString.number a.pinCount

end Component

/-! ## The database -/

/-- A row of the table `categories`. The three flag columns are `INTEGER`. -/
structure CategoryRow where
  id : Int
  name : String
  is_passive : Int
  is_active : Int
  default_unit : String
  is_system : Int
  deriving DecidableEq, Repr

/-- A row of the table `inventory`. -/
structure InventoryRow where
  id : Int
  name : String
  manufacturer : String
  type : String
  quantity : Int
  param_1 : Double
  param_2 : String
  extra_data : String
  deriving DecidableEq, Repr

/-- The two tables, rows in rowid order, and the `sqlite_sequence` entry of each table (the
largest rowid ever handed out, which `AUTOINCREMENT` never reuses). -/
structure Database where
  categories : List CategoryRow
  inventory : List InventoryRow
  categoriesSeq : Int
  inventorySeq : Int
  deriving DecidableEq, Repr

/-- Signals of `DatabaseManager`. The text of `errorOccurred` is the fixed part of the
message; the engine's own error text that the code appends is not modelled. -/
inductive Signal where
  | dataChanged
  | categoriesChanged
  | errorOccurred (message : String)
  deriving DecidableEq, Repr

/-- What a call leaves behind: the database, the return value and the signals emitted. -/
structure Outcome (α : Type) where
  db : Database
  ret : α
  signals : List Signal

/-- The database right after both `CREATE TABLE` statements: no row, no rowid handed out. -/
def Database.empty : Database := ⟨[], [], 0, 0⟩

/-- Largest of a list of rowids, 0 for the empty list. -/
def maxId : List Int → Int
  | [] => 0
  | i :: is => max i (maxId is)

/-- The rowid an `AUTOINCREMENT` table gives to a new row: one more than the largest rowid
that ever existed in the table. -/
def nextRowId (seq : Int) (ids : List Int) : Int := max seq (maxId ids) + 1

/-- The conversion `QVariant::toBool` of an `INTEGER` column: true unless the value is 0. -/
def toBool (v : Int) : Bool := v != 0

/-- The `CategoryInfo` the fetch functions build from a row of `categories`. -/
def CategoryRow.toInfo (r : CategoryRow) : CategoryInfo :=
  ⟨r.id, r.name, toBool r.is_passive, toBool r.is_active, r.default_unit⟩

/-! ## `DatabaseManager`: categories -/

namespace DatabaseManager

/-- The method `fetchCategory`: the first row of `SELECT * FROM categories WHERE id = :id`;
the default `CategoryInfo` when the statement fails or selects nothing. -/
def fetchCategory (db : Database) (id : Int) (ok : Bool) : CategoryInfo :=
  if ok then
    match db.categories.find? (fun r => r.id = id) with
    | some r => r.toInfo
    | none => CategoryInfo.empty
  else CategoryInfo.empty

/-- The method `fetchCategoryByName`: the first row of
`SELECT * FROM categories WHERE name = :name`; the default `CategoryInfo` when the statement
fails or selects nothing. -/
def fetchCategoryByName (db : Database) (name : String) (ok : Bool) : CategoryInfo :=
  if ok then
    match db.categories.find? (fun r => r.name = name) with
    | some r => r.toInfo
    | none => CategoryInfo.empty
  else CategoryInfo.empty

/-- The method `fetchAllCategories`: `SELECT * FROM categories ORDER BY id`, the empty vector
when the statement fails. -/
def fetchAllCategories (db : Database) (ok : Bool) : List CategoryInfo :=
  if ok then
    (db.categories.insertionSort (fun a b => a.id ≤ b.id)).map CategoryRow.toInfo
  else []

/-- The statement `INSERT INTO categories (name, is_passive, is_active, default_unit,
is_system) VALUES (...)`, issued by `populateDefaultCategories` and by `addCategory`. It fails
when it cannot be executed or when the `UNIQUE` constraint on `name` (binary comparison, as
the column declares no collation) is violated; otherwise the row is appended under a fresh
rowid, which is returned as `lastInsertId`. -/
def insertCategory (db : Database) (name : String) (is_passive is_active : Int)
    (default_unit : String) (is_system : Int) (ok : Bool) : Option (Database × Int) :=
  if ok && !db.categories.any (fun r => r.name = name) then
    let newId := nextRowId db.categoriesSeq (db.categories.map (fun r => r.id))
    some ({ db with
              categories := db.categories ++
                [⟨newId, name, is_passive, is_active, default_unit, is_system⟩]
              categoriesSeq := newId }, newId)
  else none

/-- The local struct `DefaultCategory` of `populateDefaultCategories`. -/
structure DefaultCategory where
  name : String
  isPassive : Bool
  isActive : Bool
  defaultUnit : String
  isSystem : Bool
  deriving DecidableEq, Repr

/-- The vector `defaults` of `populateDefaultCategories`. -/
def defaults : List DefaultCategory :=
  [⟨"Resistor", true, false, "Ω", true⟩,
   ⟨"Capacitor", true, false, "F", true⟩,
   ⟨"Inductor", true, false, "H", true⟩,
   ⟨"IC", false, true, "", true⟩,
   ⟨"Transistor", false, true, "", true⟩,
   ⟨"Diode", false, true, "", true⟩,
   ⟨"Connector", false, false, "", true⟩,
   ⟨"Other", false, false, "", true⟩]

/-- The loop of `populateDefaultCategories`: the `k`-th statement inserts the next default;
a failed insert is only logged and the loop goes on. -/
def populateLoop (ok : Nat → Bool) : Nat → List DefaultCategory → Database → Database
  | _, [], db => db
  | k, cat :: rest, db =>
    match insertCategory db cat.name (if cat.isPassive then 1 else 0)
        (if cat.isActive then 1 else 0) cat.defaultUnit (if cat.isSystem then 1 else 0)
        (ok k) with
    | some (db1, _) => populateLoop ok (k + 1) rest db1
    | none => populateLoop ok (k + 1) rest db

/-- The method `populateDefaultCategories`; it returns true whatever the inserts did. -/
def populateDefaultCategories (db : Database) (ok : Nat → Bool) : Outcome Bool :=
  { db := populateLoop ok 0 defaults db, ret := true, signals := [] }

/-- The method `addCategory`: one `INSERT` with `is_system` fixed to 0; -1 when the
statement fails, else the new rowid. -/
def addCategory (db : Database) (category : CategoryInfo) (ok : Bool) : Outcome Int :=
  match insertCategory db category.name (if category.isPassive then 1 else 0)
      (if category.isActive then 1 else 0) category.defaultUnit 0 ok with
  | none =>
    { db := db, ret := -1, signals := [Signal.errorOccurred "Failed to add category: "] }
  | some (db1, newId) =>
    { db := db1, ret := newId, signals := [Signal.categoriesChanged] }

/-- The method `canDeleteCategory`: `SELECT is_system FROM categories WHERE id = :id`; false
when the statement fails or selects nothing, else whether `is_system` is 0. -/
def canDeleteCategory (db : Database) (id : Int) (ok : Bool) : Bool :=
  if ok then
    match db.categories.find? (fun r => r.id = id) with
    | some r => r.is_system == 0
    | none => false
  else false

/-- The statement `UPDATE inventory SET type = 'Other' WHERE type = :type`. -/
def reassignToOther (inventory : List InventoryRow) (type : String) : List InventoryRow :=
  inventory.map (fun r => if r.type = type then { r with type := "Other" } else r)

/-- The number of rows the reassignment statement affects (`numRowsAffected`). -/
def movedCount (inventory : List InventoryRow) (type : String) : Nat :=
  (inventory.filter (fun r => r.type = type)).length

/-- The method `deleteCategory`. Statement 0 is the query of `canDeleteCategory`,
statement 1 the query of `fetchCategory`, statement 2 the reassignment `UPDATE` and
statement 3 the `DELETE FROM categories WHERE id = :id`. No transaction is opened. -/
def deleteCategory (db : Database) (id : Int) (ok : Nat → Bool) : Outcome Bool :=
  if !canDeleteCategory db id (ok 0) then
    { db := db, ret := false,
      signals := [Signal.errorOccurred "Cannot delete system categories"] }
  else
    let cat := fetchCategory db id (ok 1)
    if !cat.isValid then
      { db := db, ret := false, signals := [] }
    else if !ok 2 then
      { db := db, ret := false,
        signals := [Signal.errorOccurred "Failed to reassign components: "] }
    else
      let moved := movedCount db.inventory cat.name
      let db1 : Database := { db with inventory := reassignToOther db.inventory cat.name }
      if !ok 3 then
        { db := db1, ret := false,
          signals := [Signal.errorOccurred "Failed to delete category: "] }
      else
        { db := { db1 with categories := db1.categories.filter (fun r => r.id ≠ id) }
          ret := true
          signals := Signal.categoriesChanged ::
            (if moved > 0 then [Signal.dataChanged] else []) }

/-! ## `DatabaseManager`: components -/

/-- The value bound to `:extra_data` by `addComponent` and `updateComponent`: the unit of a
passive part, the datasheet link of an active part. -/
def extraData : Component → String
  | Component.passive p => p.unit
  | Component.active a => a.datasheetLink

/-- The method `addComponent`: -1 for a null pointer; else one `INSERT` of the seven bound
values, returning the new rowid, or -1 when the statement fails. -/
def addComponent (db : Database) (component : Option Component) (ok : Bool) : Outcome Int :=
  match component with
  | none => { db := db, ret := -1, signals := [] }
  | some c =>
    if ok then
      let newId := nextRowId db.inventorySeq (db.inventory.map (fun r => r.id))
      { db := { db with
                  inventory := db.inventory ++
                    [⟨newId, c.getName, c.getManufacturer, c.getType, c.getQuantity,
                      c.getParam1, c.getParam2, extraData c⟩]
                  inventorySeq := newId }
        ret := newId
        signals := [Signal.dataChanged] }
    else
      { db := db, ret := -1, signals := [Signal.errorOccurred "Failed to add component: "] }

/-- The method `updateComponent`: false for a null pointer or a negative id; else one
`UPDATE ... WHERE id = :id` of the seven bound values. -/
def updateComponent (db : Database) (component : Option Component) (ok : Bool) :
    Outcome Bool :=
  match component with
  | none => { db := db, ret := false, signals := [] }
  | some c =>
    if c.getId < 0 then { db := db, ret := false, signals := [] }
    else if ok then
      { db := { db with
                  inventory := db.inventory.map (fun r =>
                    if r.id = c.getId then
                      ⟨r.id, c.getName, c.getManufacturer, c.getType, c.getQuantity,
                        c.getParam1, c.getParam2, extraData c⟩
                    else r) }
        ret := true
        signals := [Signal.dataChanged] }
    else
      { db := db, ret := false,
        signals := [Signal.errorOccurred "Failed to update component: "] }

/-- The method `hydrateComponent` on the row the query stands on; `ok` is the outcome of the
category lookup it issues. The result is a `unique_ptr`, `none` being the null pointer. -/
def hydrateComponent (db : Database) (row : InventoryRow) (ok : Bool) : Option Component :=
  let catInfo := fetchCategoryByName db row.type ok
  if catInfo.isPassive then
    some (Component.passive
      ⟨row.id, row.name, row.manufacturer, row.quantity, row.type,
        row.param_1, row.extra_data, row.param_2⟩)
  else if catInfo.isActive then
    some (Component.active
      ⟨row.id, row.name, row.manufacturer, row.quantity, row.type,
        row.param_1, QString.toInt row.param_2, row.extra_data⟩)
  else
    some (Component.passive
      ⟨row.id, row.name, row.manufacturer, row.quantity, row.type,
        row.param_1, row.extra_data, row.param_2⟩)

/-- The method `fetchComponent`: statement 0 is `SELECT * FROM inventory WHERE id = :id`,
statement 1 the category lookup of the hydration; null when statement 0 fails or selects
nothing. -/
def fetchComponent (db : Database) (id : Int) (ok : Nat → Bool) : Option Component :=
  if ok 0 then
    match db.inventory.find? (fun r => r.id = id) with
    | some row => hydrateComponent db row (ok 1)
    | none => none
  else none

/-- The loop `while (query.next())` of the list queries: the `k`-th lookup of the call
hydrates the next row, and only non-null results are kept. -/
def hydrateRows (db : Database) (ok : Nat → Bool) : Nat → List InventoryRow → List Component
  | _, [] => []
  | k, row :: rows =>
    match hydrateComponent db row (ok k) with
    | some c => c :: hydrateRows db ok (k + 1) rows
    | none => hydrateRows db ok (k + 1) rows

/-- The method `fetchByCategory`: statement 0 is
`SELECT * FROM inventory WHERE type = :type ORDER BY name`, statements 1, 2, ... are the
lookups of the hydration; the empty vector when statement 0 fails. Names are ordered as
the `BINARY` collation orders them, character by character (the order of `String`, taken on
the character lists so that it evaluates); rows of equal name keep their rowid order. -/
def fetchByCategory (db : Database) (categoryName : String) (ok : Nat → Bool) :
    List Component :=
  if ok 0 then
    hydrateRows db ok 1
      ((db.inventory.filter (fun r => r.type = categoryName)).insertionSort
        (fun a b => a.name.toList ≤ b.name.toList))
  else []

end DatabaseManager

/-! ## The serialization and schema rules the specification states -/

/-- The seven values of a row of `inventory` other than its id, in column order: name,
manufacturer, type, quantity, param_1, param_2, extra_data. -/
def InventoryRow.columns (r : InventoryRow) :
    String × String × String × Int × Double × String × String :=
  (r.name, r.manufacturer, r.type, r.quantity, r.param_1, r.param_2, r.extra_data)

/-- The serialization of a component in the words of the specification: a passive part writes
(value, package, unit) and an active part (operatingVoltage, pinCount as a string,
datasheetLink) into (param_1, param_2, extra_data); name, manufacturer, category and
quantity are written as they are. -/
def specSerialize : Component → String × String × String × Int × Double × String × String
  | Component.passive p =>
    (p.name, p.manufacturer, p.category, p.quantity, p.value, p.package, p.unit)
  | Component.active a =>
    (a.name, a.manufacturer, a.category, a.quantity, a.operatingVoltage,
      QString.number a.pinCount, a.datasheetLink)

/-- The row of `inventory` with the given id and the given seven column values. -/
def InventoryRow.ofColumns (id : Int)
    (v : String × String × String × Int × Double × String × String) : InventoryRow :=
  ⟨id, v.1, v.2.1, v.2.2.1, v.2.2.2.1, v.2.2.2.2.1, v.2.2.2.2.2.1, v.2.2.2.2.2.2⟩

/-- The key constraints of the schema: `id` is the primary key of `categories` and `name` is
declared `UNIQUE`. -/
def Database.KeysUnique (db : Database) : Prop :=
  (db.categories.map (fun r => r.id)).Nodup ∧ (db.categories.map (fun r => r.name)).Nodup

instance (db : Database) : Decidable db.KeysUnique := by
  unfold Database.KeysUnique
  exact inferInstance

/-- The database of a first run: the empty tables seeded with the eight default categories,
every insert executing. -/
def seeded : Database :=
  (DatabaseManager.populateDefaultCategories Database.empty (fun _ => true)).db

/-- The passive sample `RES-4K7-0805` of `populateSampleData`. -/
def sampleResistor : PassiveComponent :=
  ⟨-1, "RES-4K7-0805", "Panasonic", 75, "Resistor", 4700, "Ω", "0805"⟩

/-- The active sample `STM32F103C8T6` of `populateSampleData`. -/
def sampleIC : ActiveComponent :=
  ⟨-1, "STM32F103C8T6", "STMicroelectronics", 15, "IC", 3.3, 48,
    "https://www.st.com/resource/en/datasheet/stm32f103c8.pdf"⟩

/-- The seeded database after `addComponent` of the two samples. -/
def stocked : Database :=
  (DatabaseManager.addComponent
    (DatabaseManager.addComponent seeded (some (Component.passive sampleResistor)) true).db
    (some (Component.active sampleIC)) true).db

/-- A user category `Relay` flagged active, as `CategoryDialog::getCategory` hands it to
`addCategory` (id -1). -/
def relayCategory : CategoryInfo := ⟨-1, "Relay", false, true, ""⟩

/-- The stocked database after `addCategory` of `Relay` (which gets id 9) and `addComponent`
of two relays and of one part of category `Other`. -/
def relayDb : Database :=
  let db1 := (DatabaseManager.addCategory stocked relayCategory true).db
  let db2 := (DatabaseManager.addComponent db1
    (some (Component.active ⟨-1, "G5LE-1", "Omron", 20, "Relay", 5, 5, ""⟩)) true).db
  let db3 := (DatabaseManager.addComponent db2
    (some (Component.active ⟨-1, "G2R-2", "Omron", 4, "Relay", 12, 8, ""⟩)) true).db
  (DatabaseManager.addComponent db3
    (some (Component.passive ⟨-1, "FUSE-1A", "Littelfuse", 30, "Other", 1, "A", "5x20"⟩))
    true).db

/-! ## `DatabaseManager`: further operations -/

namespace DatabaseManager

/-- The method `updateCategory`: false for a negative id; else one
`UPDATE categories SET name, is_passive, is_active, default_unit WHERE id = :id`. The
statement fails when it cannot be executed or when it would give the row of that id (`id` is
the primary key) the name of a row of another id, against the `UNIQUE` constraint on `name`.
A statement that matches no row succeeds. The column `is_system` is not assigned. -/
def updateCategory (db : Database) (category : CategoryInfo) (ok : Bool) : Outcome Bool :=
  if category.id < 0 then { db := db, ret := false, signals := [] }
  else if ok && !(db.categories.any (fun r => r.id = category.id) &&
      db.categories.any (fun r => r.id ≠ category.id ∧ r.name = category.name)) then
    { db := { db with
                categories := db.categories.map (fun r =>
                  if r.id = category.id then
                    { r with name := category.name,
                             is_passive := if category.isPassive then 1 else 0,
                             is_active := if category.isActive then 1 else 0,
                             default_unit := category.defaultUnit }
                  else r) }
      ret := true
      signals := [Signal.categoriesChanged] }
  else
    { db := db, ret := false,
      signals := [Signal.errorOccurred "Failed to update category: "] }

/-- The method `deleteComponent`: one `DELETE FROM inventory WHERE id = :id`. -/
def deleteComponent (db : Database) (id : Int) (ok : Bool) : Outcome Bool :=
  if ok then
    { db := { db with inventory := db.inventory.filter (fun r => r.id ≠ id) }
      ret := true
      signals := [Signal.dataChanged] }
  else
    { db := db, ret := false,
      signals := [Signal.errorOccurred "Failed to delete component: "] }

/-- The method `fetchLowStock`: statement 0 is
`SELECT * FROM inventory WHERE quantity < :threshold ORDER BY quantity ASC`, statements
1, 2, ... are the lookups of the hydration; the empty vector when statement 0 fails. Rows of
equal quantity keep their rowid order. -/
def fetchLowStock (db : Database) (threshold : Int) (ok : Nat → Bool) : List Component :=
  if ok 0 then
    hydrateRows db ok 1
      ((db.inventory.filter (fun r => r.quantity < threshold)).insertionSort
        (fun a b => a.quantity ≤ b.quantity))
  else []

/-- The operator `LIKE` of SQLite without `ESCAPE`, pattern first: `%` matches any run of
characters, `_` matches any one character, and any other character matches itself, the
letters A to Z and a to z without regard to case. -/
def like : List Char → List Char → Bool
  | [], text => text.isEmpty
  | p :: ps, text =>
    if p = '%' then text.tails.any (fun rest => like ps rest)
    else
      match text with
      | [] => false
      | c :: cs => (p = '_' || p.toLower = c.toLower) && like ps cs

/-- The method `searchByName`: statement 0 is
`SELECT * FROM inventory WHERE name LIKE :term ORDER BY name` with the search term between
two `%` bound to `:term`, statements 1, 2, ... are the lookups of the hydration; the empty
vector when statement 0 fails. -/
def searchByName (db : Database) (searchTerm : String) (ok : Nat → Bool) : List Component :=
  if ok 0 then
    hydrateRows db ok 1
      ((db.inventory.filter
          (fun r => like (("%" ++ searchTerm ++ "%").toList) r.name.toList)).insertionSort
        (fun a b => a.name.toList ≤ b.name.toList))
  else []

end DatabaseManager

/-! ## Reachable states of the store -/

/-- One call of a mutating operation of the store, with any argument and any outcome of its
statements. -/
inductive Step : Database → Database → Prop where
  | addCategory (db : Database) (category : CategoryInfo) (ok : Bool) :
    Step db (DatabaseManager.addCategory db category ok).db
  | updateCategory (db : Database) (category : CategoryInfo) (ok : Bool) :
    Step db (DatabaseManager.updateCategory db category ok).db
  | deleteCategory (db : Database) (id : Int) (ok : Nat → Bool) :
    Step db (DatabaseManager.deleteCategory db id ok).db
  | addComponent (db : Database) (component : Option Component) (ok : Bool) :
    Step db (DatabaseManager.addComponent db component ok).db
  | updateComponent (db : Database) (component : Option Component) (ok : Bool) :
    Step db (DatabaseManager.updateComponent db component ok).db
  | deleteComponent (db : Database) (id : Int) (ok : Bool) :
    Step db (DatabaseManager.deleteComponent db id ok).db

/-- The states the store can be brought to from `db0` by calls of its mutating operations. -/
def Reachable (db0 db : Database) : Prop := Relation.ReflTransGen Step db0 db

/-- The ids of the system rows of `categories` (`is_system` not 0), in rowid order. -/
def Database.systemIds (db : Database) : List Int :=
  (db.categories.filter (fun r => r.is_system ≠ 0)).map (fun r => r.id)

/-- Every row of `inventory` has as type the name of a row of `categories`. -/
def Database.TypesResolve (db : Database) : Prop :=
  ∀ r ∈ db.inventory, ∃ c ∈ db.categories, c.name = r.type

/-- One call of a mutating operation of the store, with any argument and any outcome of its
statements, except that `updateCategory` is not applied to the id of a system category. -/
inductive StepGuarded : Database → Database → Prop where
  | addCategory (db : Database) (category : CategoryInfo) (ok : Bool) :
    StepGuarded db (DatabaseManager.addCategory db category ok).db
  | updateCategory (db : Database) (category : CategoryInfo) (ok : Bool)
      (h : ∀ r ∈ db.categories, r.id = category.id → r.is_system = 0) :
    StepGuarded db (DatabaseManager.updateCategory db category ok).db
  | deleteCategory (db : Database) (id : Int) (ok : Nat → Bool) :
    StepGuarded db (DatabaseManager.deleteCategory db id ok).db
  | addComponent (db : Database) (component : Option Component) (ok : Bool) :
    StepGuarded db (DatabaseManager.addComponent db component ok).db
  | updateComponent (db : Database) (component : Option Component) (ok : Bool) :
    StepGuarded db (DatabaseManager.updateComponent db component ok).db
  | deleteComponent (db : Database) (id : Int) (ok : Bool) :
    StepGuarded db (DatabaseManager.deleteComponent db id ok).db

/-- The states the store can be brought to from `db0` without an `updateCategory` of a
system category. -/
def ReachableGuarded (db0 db : Database) : Prop := Relation.ReflTransGen StepGuarded db0 db

/-- The row that the seeding gives the category `Other`. -/
def otherRow : CategoryRow := ⟨8, "Other", 0, 0, "", 1⟩

/-! ## The category dialog and the formatted value -/

/-- The method `QString::trimmed` on a string. -/
def QString.trimmedText (s : String) : String := String.mk (QString.trimmed s.toList)

/-- The state of a `CategoryDialog` that its validation and `getCategory` read: the text of
the two line edits, the two check boxes and `m_categoryId` (-1 in a dialog that creates a
category). -/
structure CategoryDialog where
  nameEdit : String
  passiveCheck : Bool
  activeCheck : Bool
  unitEdit : String
  categoryId : Int
  deriving DecidableEq, Repr

namespace CategoryDialog

/-- The list `reserved` of `validateInputs`. -/
def reserved : List String :=
  ["Resistor", "Capacitor", "Inductor", "IC", "Transistor", "Diode", "Connector", "Other"]

/-- The method `validateInputs`, without its message boxes: false for a name that is empty
once trimmed, and, in a dialog that creates a category, for a name that equals a reserved
name up to the case of its letters (case folding is taken on the letters A to Z). -/
def validateInputs (d : CategoryDialog) : Bool :=
  if (QString.trimmedText d.nameEdit).isEmpty then false
  else if d.categoryId < 0 then
    if reserved.any (fun r =>
        r.toList.map Char.toLower = (QString.trimmedText d.nameEdit).toList.map Char.toLower)
    then false
    else true
  else true

/-- The method `getCategory`. -/
def getCategory (d : CategoryDialog) : CategoryInfo :=
  ⟨d.categoryId, QString.trimmedText d.nameEdit, d.passiveCheck, d.activeCheck,
    QString.trimmedText d.unitEdit⟩

end CategoryDialog

/-- The slot `MainWindow::onAddCategory`: a new dialog (`m_categoryId` -1) is shown; it is
accepted only by its OK button after `validateInputs` has returned true, and only then is
`addCategory` called, with `getCategory()`. The arguments are what the user has entered
when the dialog closes and whether it was closed by OK. The result is the id `addCategory`
returned, `none` when it was not called. -/
def MainWindow.onAddCategory (db : Database) (nameText : String) (passive active : Bool)
    (unitText : String) (okPressed : Bool) (ok : Bool) : Outcome (Option Int) :=
  let dialog : CategoryDialog := ⟨nameText, passive, active, unitText, -1⟩
  if okPressed && dialog.validateInputs then
    let r := DatabaseManager.addCategory db dialog.getCategory ok
    { db := r.db, ret := some r.ret, signals := r.signals }
  else { db := db, ret := none, signals := [] }

/-- The method `PassiveComponent::getFormattedValue`. The bounds are the doubles that the
literals of the source denote, the comparisons are those of doubles, and the value is scaled
by the division and the multiplication of doubles. The argument `number` stands for
`QString::number(x, 'g', 3)` of Qt. The suffix of the sixth branch is the two characters
U+00CE U+00BC that the source file holds. -/
def PassiveComponent.getFormattedValue (number : Double → String) (p : PassiveComponent) :
    String :=
  if p.value ≥ Double.ofLiteral 1e9 then
    number (Double.div p.value (Double.ofLiteral 1e9)) ++ "G"
  else if p.value ≥ Double.ofLiteral 1e6 then
    number (Double.div p.value (Double.ofLiteral 1e6)) ++ "M"
  else if p.value ≥ Double.ofLiteral 1e3 then
    number (Double.div p.value (Double.ofLiteral 1e3)) ++ "k"
  else if p.value ≥ Double.ofLiteral 1 then number p.value
  else if p.value ≥ Double.ofLiteral 1e-3 then
    number (Double.mul p.value (Double.ofLiteral 1e3)) ++ "m"
  else if p.value ≥ Double.ofLiteral 1e-6 then
    number (Double.mul p.value (Double.ofLiteral 1e6)) ++ "Î¼"
  else if p.value ≥ Double.ofLiteral 1e-9 then
    number (Double.mul p.value (Double.ofLiteral 1e9)) ++ "n"
  else if p.value ≥ Double.ofLiteral 1e-12 then
    number (Double.mul p.value (Double.ofLiteral 1e12)) ++ "p"
  else number p.value

/-- The magnitude that the specification has formatted for a passive value: the bounds are
tried from the top and the first that holds decides. The value and the bounds are doubles,
and the quotient and the product are those of doubles. -/
def specMagnitude (v : Double) : Double :=
  if v ≥ Double.ofLiteral 1e9 then Double.div v (Double.ofLiteral 1e9)
  else if v ≥ Double.ofLiteral 1e6 then Double.div v (Double.ofLiteral 1e6)
  else if v ≥ Double.ofLiteral 1e3 then Double.div v (Double.ofLiteral 1e3)
  else if v ≥ Double.ofLiteral 1 then v
  else if v ≥ Double.ofLiteral 1e-3 then Double.mul v (Double.ofLiteral 1e3)
  else if v ≥ Double.ofLiteral 1e-6 then Double.mul v (Double.ofLiteral 1e6)
  else if v ≥ Double.ofLiteral 1e-9 then Double.mul v (Double.ofLiteral 1e9)
  else if v ≥ Double.ofLiteral 1e-12 then Double.mul v (Double.ofLiteral 1e12)
  else v

/-- The magnitude of the specification as a real number, before any rounding of the
quotient or the product: the row of the table is chosen as in `specMagnitude`, the scaling
is exact. -/
def specScaled (v : Double) : Rat :=
  if v ≥ Double.ofLiteral 1e9 then v / 1e9
  else if v ≥ Double.ofLiteral 1e6 then v / 1e6
  else if v ≥ Double.ofLiteral 1e3 then v / 1e3
  else if v ≥ Double.ofLiteral 1 then v
  else if v ≥ Double.ofLiteral 1e-3 then v * 1e3
  else if v ≥ Double.ofLiteral 1e-6 then v * 1e6
  else if v ≥ Double.ofLiteral 1e-9 then v * 1e9
  else if v ≥ Double.ofLiteral 1e-12 then v * 1e12
  else v

/-- Containment as the operator `LIKE` compares: `s` occurs in `name` as a run of
consecutive characters, the letters A to Z compared without regard to case and every other
character as it is. -/
def containsIgnoreCase (s name : String) : Prop :=
  s.toList.map Char.toLower <:+: name.toList.map Char.toLower

instance (s name : String) : Decidable (containsIgnoreCase s name) := by
  unfold containsIgnoreCase
  exact inferInstance

/-- The system rows are the eight seeded ones: the rows with `is_system` not 0 have the ids
1 to 8, and `is_system` is 0 or 1 in every row. -/
def Database.SystemSeeded (db : Database) : Prop :=
  db.systemIds = [1, 2, 3, 4, 5, 6, 7, 8] ∧
    ∀ r ∈ db.categories, r.is_system = 0 ∨ r.is_system = 1

instance (db : Database) : Decidable db.SystemSeeded := by
  unfold Database.SystemSeeded
  exact inferInstance

instance (db : Database) : Decidable db.TypesResolve := by
  unfold Database.TypesResolve
  exact inferInstance

/-- The fields every component has: id, name, manufacturer, quantity and category. -/
def Component.common (c : Component) : Int × String × String × Int × String :=
  (c.getId, c.getName, c.getManufacturer, c.getQuantity, c.getCategory)

/-- The columns of a row that become the common fields of its component. -/
def InventoryRow.common (r : InventoryRow) : Int × String × String × Int × String :=
  (r.id, r.name, r.manufacturer, r.quantity, r.type)

/-- The seeded database after `addComponent` of the samples `RES-10R-0805` and
`CAP-100nF-0805` of `populateSampleData`. -/
def searchDb : Database :=
  (DatabaseManager.addComponent
    (DatabaseManager.addComponent seeded
      (some (Component.passive ⟨-1, "RES-10R-0805", "Yageo", 100, "Resistor", 10, "Ω", "0805"⟩))
      true).db
    (some (Component.passive
      ⟨-1, "CAP-100nF-0805", "Murata", 300, "Capacitor", 100e-9, "F", "0805"⟩)) true).db

/-- Case folding of the letters of Basic Latin and of the Latin-1 Supplement: A to Z and
U+00C0 to U+00DE (the multiplication sign U+00D7 apart) go to their lower case, 32 places
further; every other character stays. -/
def foldLatin1 (c : Char) : Char :=
  if (65 ≤ c.toNat ∧ c.toNat ≤ 90) ∨ (192 ≤ c.toNat ∧ c.toNat ≤ 222 ∧ c.toNat ≠ 215) then
    Char.ofNat (c.toNat + 32)
  else c

/-- The containment of the specification for the search, case-insensitive also on accented
Latin letters: `s` occurs in `name` as a run of consecutive characters up to `foldLatin1`. -/
def containsCaseInsensitive (s name : String) : Prop :=
  s.toList.map foldLatin1 <:+: name.toList.map foldLatin1

instance (s name : String) : Decidable (containsCaseInsensitive s name) := by
  unfold containsCaseInsensitive
  exact inferInstance

/-- The seeded database after `addComponent` of a resistor named with an accented letter. -/
def accentDb : Database :=
  (DatabaseManager.addComponent seeded
    (some (Component.passive ⟨-1, "RÉS-10K", "Vishay", 40, "Resistor", 10000, "Ω", "0805"⟩))
    true).db

/-! ## `QString::number(double, 'g', precision)` -/

namespace QString

/-- The least `k`, counted up from the given one, with `d ≤ n * 10 ^ k`; `fuel` bounds the
search. -/
def negExponent : Nat → Nat → Nat → Nat → Nat
  | 0, _, _, k => k
  | fuel + 1, n, d, k => if d ≤ n * 10 ^ k then k else negExponent fuel n d (k + 1)

/-- The decimal exponent of the positive fraction `n / d`: the `e` with
`10 ^ e ≤ n / d < 10 ^ (e + 1)`. -/
def exponentOf (n d : Nat) : Int :=
  if d ≤ n then ((decimal (n / d)).length : Int) - 1
  else -((negExponent d n d 1 : Nat) : Int)

/-- The fraction `n / d` times `10 ^ s`, rounded to the nearest natural number, a half
rounded up. -/
def roundScaled (n d : Nat) (s : Int) : Nat :=
  if 0 ≤ s then (2 * (n * 10 ^ s.toNat) + d) / (2 * d)
  else (2 * n + d * 10 ^ (-s).toNat) / (2 * (d * 10 ^ (-s).toNat))

/-- A list of digits without its trailing zeros. -/
def stripZeros (l : List Char) : List Char :=
  (l.reverse.dropWhile (fun c => c = '0')).reverse

/-- The digits after the decimal point, with the point, or nothing when they are all 0. -/
def fraction (l : List Char) : List Char :=
  if stripZeros l = [] then [] else '.' :: stripZeros l

/-- The exponent part of the scientific form: `e`, a sign and at least two digits. -/
def exponentText (e : Int) : List Char :=
  'e' :: (if e < 0 then '-' else '+') ::
    (if e.natAbs < 10 then '0' :: decimal e.natAbs else decimal e.natAbs)

/-- The text of the positive fraction `n / d` in the format `g`: `prec` significant digits,
trailing zeros dropped, in scientific form when the decimal exponent is below -4 or not
below `prec`. -/
def formatG (n d prec : Nat) : List Char :=
  let e0 := exponentOf n d
  let m0 := roundScaled n d ((prec : Int) - 1 - e0)
  let e := if 10 ^ prec ≤ m0 then e0 + 1 else e0
  let m := if 10 ^ prec ≤ m0 then m0 / 10 else m0
  let digits := decimal m
  if e < -4 ∨ (prec : Int) ≤ e then
    digits.take 1 ++ fraction (digits.drop 1) ++ exponentText e
  else if 0 ≤ e then
    digits.take (e.toNat + 1) ++ fraction (digits.drop (e.toNat + 1))
  else
    '0' :: '.' :: (List.replicate ((-e).toNat - 1) '0' ++ stripZeros digits)

/-- The function `QString::number(double n, char format = 'g', int precision)` of Qt for the
format `g`, on a finite value: 0 is the text 0, a negative value gets a minus sign, and a
precision of 0 counts as 1. -/
def numberG (x : Double) (precision : Nat) : String :=
  if x.num = 0 then "0"
  else if x.num < 0 then
    String.mk ('-' :: formatG x.num.natAbs x.den (max 1 precision))
  else String.mk (formatG x.num.natAbs x.den (max 1 precision))

end QString

/-! ## `DatabaseManager`: seeding, counting and the low-stock default -/

namespace DatabaseManager

/-- The method `createCategoriesTable`. Statement 0 is the `CREATE TABLE IF NOT EXISTS`
(the tables of the model exist already, so it changes nothing), statement 1 is
`SELECT COUNT(*) FROM categories`, whose `exec` result the code does not test: when it fails
`next()` is false and nothing is seeded; statements 2 to 9 are the inserts of
`populateDefaultCategories`, called when the count is 0. -/
def createCategoriesTable (db : Database) (ok : Nat → Bool) : Outcome Bool :=
  if !ok 0 then
    { db := db, ret := false,
      signals := [Signal.errorOccurred "Failed to create categories table: "] }
  else if ok 1 && db.categories.length == 0 then
    populateDefaultCategories db (fun k => ok (k + 2))
  else { db := db, ret := true, signals := [] }

/-- The method `getComponentCountForCategory(const QString &)`:
`SELECT COUNT(*) FROM inventory WHERE type = :type`, 0 when the statement fails. -/
def getComponentCountForCategory (db : Database) (categoryName : String) (ok : Bool) : Int :=
  if ok then ((db.inventory.filter (fun r => r.type = categoryName)).length : Int) else 0

/-- The method `getComponentCountForCategory(int)`: statement 0 is the query of
`fetchCategory`, statement 1 the count by the name found; 0 when the category is not
valid. -/
def getComponentCountForCategoryId (db : Database) (categoryId : Int) (ok : Nat → Bool) :
    Int :=
  let cat := fetchCategory db categoryId (ok 0)
  if !cat.isValid then 0 else getComponentCountForCategory db cat.name (ok 1)

/-- The vector `samples` of `populateSampleData`, in the order of the `push_back` calls. -/
def samples : List Component :=
  [Component.passive ⟨-1, "RES-10R-0805", "Yageo", 100, "Resistor", 10.0, "Ω", "0805"⟩,
   Component.passive ⟨-1, "RES-100R-0805", "Yageo", 150, "Resistor", 100.0, "Ω", "0805"⟩,
   Component.passive ⟨-1, "RES-1K-0603", "Vishay", 200, "Resistor", 1000.0, "Ω", "0603"⟩,
   Component.passive ⟨-1, "RES-4K7-0805", "Panasonic", 75, "Resistor", 4700.0, "Ω", "0805"⟩,
   Component.passive ⟨-1, "RES-10K-0805", "Yageo", 8, "Resistor", 10000.0, "Ω", "0805"⟩,
   Component.passive ⟨-1, "RES-100K-1206", "Vishay", 50, "Resistor", 100000.0, "Ω", "1206"⟩,
   Component.passive ⟨-1, "CAP-100nF-0805", "Murata", 300, "Capacitor", 100e-9, "F", "0805"⟩,
   Component.passive ⟨-1, "CAP-1uF-0805", "Samsung", 5, "Capacitor", 1e-6, "F", "0805"⟩,
   Component.passive ⟨-1, "CAP-10uF-1206", "Murata", 120, "Capacitor", 10e-6, "F", "1206"⟩,
   Component.passive ⟨-1, "CAP-100pF-0603", "TDK", 180, "Capacitor", 100e-12, "F", "0603"⟩,
   Component.passive ⟨-1, "IND-10uH-1210", "Wurth", 45, "Inductor", 10e-6, "H", "1210"⟩,
   Component.passive ⟨-1, "IND-100uH-THT", "Bourns", 3, "Inductor", 100e-6, "H", "Radial"⟩,
   Component.active ⟨-1, "ATmega328P", "Microchip", 25, "IC", 5.0, 28,
     "https://ww1.microchip.com/downloads/en/DeviceDoc/ATmega328P.pdf"⟩,
   Component.active ⟨-1, "STM32F103C8T6", "STMicroelectronics", 15, "IC", 3.3, 48,
     "https://www.st.com/resource/en/datasheet/stm32f103c8.pdf"⟩,
   Component.active ⟨-1, "NE555", "Texas Instruments", 50, "IC", 15.0, 8,
     "https://www.ti.com/lit/ds/symlink/ne555.pdf"⟩,
   Component.active ⟨-1, "LM7805", "ON Semiconductor", 7, "IC", 35.0, 3, ""⟩,
   Component.active ⟨-1, "ESP32-WROOM-32", "Espressif", 12, "IC", 3.3, 38,
     "https://www.espressif.com/sites/default/files/documentation/esp32-wroom-32_datasheet_en.pdf"⟩,
   Component.active ⟨-1, "2N2222A", "ON Semiconductor", 200, "Transistor", 40.0, 3, ""⟩,
   Component.active ⟨-1, "BC547B", "Fairchild", 150, "Transistor", 45.0, 3, ""⟩,
   Component.active ⟨-1, "IRF540N", "Infineon", 6, "Transistor", 100.0, 3, ""⟩,
   Component.active ⟨-1, "1N4148", "Vishay", 500, "Diode", 100.0, 2, ""⟩,
   Component.active ⟨-1, "1N4007", "ON Semiconductor", 300, "Diode", 1000.0, 2, ""⟩,
   Component.active ⟨-1, "LED-RED-5mm", "Kingbright", 9, "Diode", 2.0, 2, ""⟩]

/-- The loop of `populateSampleData`: the `k`-th statement inserts the next sample, and the
first `addComponent` that returns a negative id ends the call with false. The signals of the
calls are collected. -/
def addSamples (ok : Nat → Bool) :
    Nat → List Component → Database → List Signal → Outcome Bool
  | _, [], db, sigs => { db := db, ret := true, signals := sigs }
  | k, c :: cs, db, sigs =>
    if (addComponent db (some c) (ok k)).ret < 0 then
      { db := (addComponent db (some c) (ok k)).db, ret := false,
        signals := sigs ++ (addComponent db (some c) (ok k)).signals }
    else
      addSamples ok (k + 1) cs (addComponent db (some c) (ok k)).db
        (sigs ++ (addComponent db (some c) (ok k)).signals)

/-- The method `populateSampleData`. Statement 0 is `SELECT COUNT(*) FROM inventory`; the
call returns true at once when it executes and counts at least one row (when it fails the
code goes on to insert). Statements 1 to 23 are the inserts of the samples. -/
def populateSampleData (db : Database) (ok : Nat → Bool) : Outcome Bool :=
  if ok 0 && decide (db.inventory.length > 0) then { db := db, ret := true, signals := [] }
  else addSamples ok 1 samples db []

/-- The call `fetchLowStock()` with the default argument `threshold = 10` of the header, as
`MainWindow::refreshData` and `MainWindow::onShowLowStock` make it. -/
def fetchLowStockDefault (db : Database) (ok : Nat → Bool) : List Component :=
  fetchLowStock db 10 ok

end DatabaseManager

/-- The method `Component::isLowStock`; the argument is the value of
`AppConfig::instance().lowStockThreshold()`, the configured threshold. -/
def Component.isLowStock (lowStockThreshold : Int) (c : Component) : Bool :=
  c.getQuantity < lowStockThreshold

/-- The stocked database after `addCategory` of a category with the empty name (id 9) and
`addComponent` of one component of that category. -/
def emptyNameDb : Database :=
  (DatabaseManager.addComponent
    (DatabaseManager.addCategory stocked ⟨-1, "", false, true, ""⟩ true).db
    (some (Component.active ⟨-1, "X-1", "Acme", 5, "", 5, 8, ""⟩)) true).db

/-- The suffix the table of the specification assigns to a passive value, the micro sign
U+00B5 for values from 1e-6 up to 1e-3; the bounds are the doubles that their decimal texts
denote. -/
def specSuffix (v : Double) : String :=
  if v ≥ Double.ofLiteral 1e9 then "G"
  else if v ≥ Double.ofLiteral 1e6 then "M"
  else if v ≥ Double.ofLiteral 1e3 then "k"
  else if v ≥ Double.ofLiteral 1 then ""
  else if v ≥ Double.ofLiteral 1e-3 then "m"
  else if v ≥ Double.ofLiteral 1e-6 then "µ"
  else if v ≥ Double.ofLiteral 1e-9 then "n"
  else if v ≥ Double.ofLiteral 1e-12 then "p"
  else ""

/-- A passive component of the given value, the other fields those of a resistor that is
not stored yet. -/
def passiveOfValue (v : Double) : PassiveComponent :=
  ⟨-1, "RES", "Yageo", 1, "Resistor", v, "Ω", "0805"⟩

end ElectraBase

/-! # Theorems -/

namespace ElectraBase

open QString DatabaseManager

set_option maxRecDepth 100000

/-! ## `QString::number` and `QString::toInt` -/

theorem digitValue_digitChar : ∀ d, d < 10 → digitValue (digitChar d) = some d := by decide

theorem isSpace_digitChar : ∀ d, d < 10 → isSpace (digitChar d) = false := by decide

theorem digitChar_ne_sign : ∀ d, d < 10 → digitChar d ≠ '-' ∧ digitChar d ≠ '+' := by decide

theorem parseDigits_append (xs : List Char) (c : Char) (acc : Nat) :
    parseDigits (xs ++ [c]) acc =
      (parseDigits xs acc).bind (fun v => (digitValue c).map (fun d => v * 10 + d)) := by
  induction xs generalizing acc with
  | nil =>
    simp only [List.nil_append, parseDigits, Option.some_bind]
    cases digitValue c <;> rfl
  | cons x xs ih =>
    simp only [List.cons_append, parseDigits]
    cases digitValue x with
    | none => rfl
    | some d => exact ih _

/-- Reading the digits written for `n` gives `n` back, once the fuel exceeds `n`. -/
theorem parseDigits_digitsRev (fuel : Nat) :
    ∀ n, n < fuel → parseDigits (digitsRev fuel n).reverse 0 = some n := by
  induction fuel with
  | zero => intro n h; omega
  | succ fuel ih =>
    intro n h
    by_cases h10 : n < 10
    · simp [digitsRev, h10, parseDigits, digitValue_digitChar n h10]
    · have hq : n / 10 < fuel := by omega
      have hm : n % 10 < 10 := by omega
      simp only [digitsRev, h10, if_false, List.reverse_cons, parseDigits_append, ih _ hq,
        Option.some_bind, digitValue_digitChar _ hm, Option.map_some']
      congr 1
      omega

theorem digitsRev_ne_nil (fuel n : Nat) : digitsRev (fuel + 1) n ≠ [] := by
  unfold digitsRev
  split <;> simp

theorem digitsRev_digits (fuel : Nat) :
    ∀ n, ∀ c ∈ digitsRev fuel n, ∃ d, d < 10 ∧ c = digitChar d := by
  induction fuel with
  | zero => intro n c hc; simp [digitsRev] at hc
  | succ fuel ih =>
    intro n c hc
    unfold digitsRev at hc
    split at hc
    · rename_i h10
      simp only [List.mem_singleton] at hc
      exact ⟨n, h10, hc⟩
    · rcases List.mem_cons.mp hc with h | h
      · exact ⟨n % 10, by omega, h⟩
      · exact ih _ c h

theorem decimal_digits (n : Nat) : ∀ c ∈ decimal n, ∃ d, d < 10 ∧ c = digitChar d := by
  intro c hc
  exact digitsRev_digits (n + 1) n c (List.mem_reverse.mp hc)

theorem decimal_ne_nil (n : Nat) : decimal n ≠ [] := by
  intro h
  exact digitsRev_ne_nil n n (List.reverse_eq_nil_iff.mp h)

/-- The decimal text of a natural number parses to that number. -/
theorem parseNat_decimal (n : Nat) : parseNat (decimal n) = some n := by
  unfold parseNat
  rw [if_neg (decimal_ne_nil n)]
  exact parseDigits_digitsRev (n + 1) n (Nat.lt_succ_self n)

theorem dropWhile_eq_self_of_head {p : Char → Bool} :
    ∀ l : List Char, (∀ c ∈ l.head?, p c = false) → l.dropWhile p = l
  | [], _ => rfl
  | c :: cs, h => by
    have hc : p c = false := h c (by simp)
    simp [List.dropWhile, hc]

/-- Trimming a text without white space changes nothing. -/
theorem trimmed_eq_self (l : List Char) (h : ∀ c ∈ l, isSpace c = false) : trimmed l = l := by
  unfold trimmed
  rw [dropWhile_eq_self_of_head l (fun c hc => h c (List.mem_of_mem_head? hc))]
  rw [dropWhile_eq_self_of_head l.reverse
    (fun c hc => h c (List.mem_reverse.mp (List.mem_of_mem_head? hc)))]
  exact List.reverse_reverse l

theorem decimal_noSpace (n : Nat) : ∀ c ∈ decimal n, isSpace c = false := by
  intro c hc
  obtain ⟨d, hd, rfl⟩ := decimal_digits n c hc
  exact isSpace_digitChar d hd

theorem parseInteger_number (n : Int) : parseInteger (number n).toList = some n := by
  unfold number
  by_cases hn : n < 0
  · rw [if_pos hn]
    have ht : trimmed ('-' :: decimal n.natAbs) = '-' :: decimal n.natAbs := by
      apply trimmed_eq_self
      intro c hc
      rcases List.mem_cons.mp hc with h | h
      · subst h; decide
      · exact decimal_noSpace _ c h
    have hv : -((n.natAbs : Nat) : Int) = n := by omega
    show parseInteger ('-' :: decimal n.natAbs) = some n
    unfold parseInteger
    rw [ht]
    simp only [if_true, parseNat_decimal, Option.map_some', hv]
  · rw [if_neg hn]
    have ht : trimmed (decimal n.natAbs) = decimal n.natAbs :=
      trimmed_eq_self _ (decimal_noSpace _)
    have hv : ((n.natAbs : Nat) : Int) = n := by omega
    have hp := parseNat_decimal n.natAbs
    show parseInteger (decimal n.natAbs) = some n
    unfold parseInteger
    rw [ht]
    cases hd : decimal n.natAbs with
    | nil => exact absurd hd (decimal_ne_nil _)
    | cons c ds =>
      obtain ⟨d, hd10, hcd⟩ := decimal_digits n.natAbs c (by rw [hd]; simp)
      have hs := digitChar_ne_sign d hd10
      rw [← hcd] at hs
      rw [hd] at hp
      simp only [hs.1, hs.2, if_false, hp, Option.map_some', hv]

/-- For every value of `int`, `QString::number(n).toInt()` is `n`. -/
theorem toInt_number (n : Int) (hlo : INT_MIN ≤ n) (hhi : n ≤ INT_MAX) :
    toInt (number n) = n := by
  unfold toInt
  rw [parseInteger_number]
  simp [hlo, hhi]

/-! ### Lookups by key -/

theorem le_maxId : ∀ (ids : List Int) (i : Int), i ∈ ids → i ≤ maxId ids
  | [], _, h => by simp at h
  | j :: js, i, h => by
    rcases List.mem_cons.mp h with h | h
    · subst h; exact le_max_left _ _
    · exact le_trans (le_maxId js i h) (le_max_right _ _)

/-- The rowid of a new row is larger than every rowid in the table. -/
theorem lt_nextRowId (seq : Int) (ids : List Int) (i : Int) (h : i ∈ ids) :
    i < nextRowId seq ids := by
  have h1 := le_maxId ids i h
  have h2 : maxId ids ≤ max seq (maxId ids) := le_max_right _ _
  unfold nextRowId
  omega

theorem maxId_nonneg : ∀ ids : List Int, 0 ≤ maxId ids
  | [] => le_refl _
  | _ :: js => le_trans (maxId_nonneg js) (le_max_right _ _)

theorem nextRowId_pos (seq : Int) (ids : List Int) : 0 < nextRowId seq ids := by
  have h1 := maxId_nonneg ids
  have h2 : maxId ids ≤ max seq (maxId ids) := le_max_right _ _
  unfold nextRowId
  omega

theorem find?_append_fresh {α : Type} (p : α → Bool) (l : List α) (x : α)
    (hl : ∀ y ∈ l, p y = false) (hx : p x = true) : (l ++ [x]).find? p = some x := by
  induction l with
  | nil => simp [List.find?, hx]
  | cons y ys ih =>
    have hy : p y = false := hl y (List.mem_cons_self _ _)
    simp only [List.cons_append, List.find?, hy]
    exact ih (fun z hz => hl z (List.mem_cons_of_mem _ hz))

/-- In a list without repeated keys, the lookup by the key of a member finds that member. -/
theorem find?_key {α β : Type} [DecidableEq β] (f : α → β) :
    ∀ (l : List α) (x : α), (l.map f).Nodup → x ∈ l →
      l.find? (fun r => decide (f r = f x)) = some x
  | [], _, _, h => by simp at h
  | y :: ys, x, hnd, h => by
    rw [List.map_cons, List.nodup_cons] at hnd
    by_cases hyx : f y = f x
    · rcases List.mem_cons.mp h with h | h
      · subst h; simp [List.find?]
      · exact absurd (hyx ▸ List.mem_map_of_mem f h) hnd.1
    · rcases List.mem_cons.mp h with h | h
      · exact absurd (h ▸ rfl) hyx
      · simp only [List.find?, hyx, decide_False]
        exact find?_key f ys x hnd.2 h

theorem find?_byName (db : Database) (cat : CategoryRow) (name : String)
    (hU : db.KeysUnique) (hmem : cat ∈ db.categories) (hname : cat.name = name) :
    db.categories.find? (fun r => decide (r.name = name)) = some cat := by
  subst hname
  exact find?_key (fun r : CategoryRow => r.name) db.categories cat hU.2 hmem

theorem find?_byId (db : Database) (cat : CategoryRow)
    (hU : db.KeysUnique) (hmem : cat ∈ db.categories) :
    db.categories.find? (fun r => decide (r.id = cat.id)) = some cat :=
  find?_key (fun r : CategoryRow => r.id) db.categories cat hU.1 hmem

/-- Under the key constraints, the lookup by name returns the category row of that name. -/
theorem fetchCategoryByName_of_mem (db : Database) (cat : CategoryRow) (name : String)
    (hU : db.KeysUnique) (hmem : cat ∈ db.categories) (hname : cat.name = name) :
    fetchCategoryByName db name true = cat.toInfo := by
  simp [fetchCategoryByName, find?_byName db cat name hU hmem hname]

theorem fetchCategoryByName_of_absent (db : Database) (name : String) (ok : Bool)
    (h : ∀ c ∈ db.categories, c.name ≠ name) :
    fetchCategoryByName db name ok = CategoryInfo.empty := by
  unfold fetchCategoryByName
  cases ok with
  | false => rfl
  | true =>
    have : db.categories.find? (fun r => decide (r.name = name)) = none := by
      rw [List.find?_eq_none]
      intro x hx
      simpa using h x hx
    simp [this]

theorem toBool_eq_true (v : Int) : toBool v = true ↔ v ≠ 0 := by
  simp [toBool]

theorem toBool_eq_false (v : Int) : toBool v = false ↔ v = 0 := by
  simp [toBool]

/-! ### Hydration -/

/-- The result is passive as soon as the looked-up category is flagged passive or is not
flagged active. -/
theorem hydrateComponent_passive_of_flag (db : Database) (row : InventoryRow) (ok : Bool)
    (h : (fetchCategoryByName db row.type ok).isPassive = true ∨
      (fetchCategoryByName db row.type ok).isActive = false) :
    hydrateComponent db row ok = some (Component.passive
      ⟨row.id, row.name, row.manufacturer, row.quantity, row.type,
        row.param_1, row.extra_data, row.param_2⟩) := by
  unfold hydrateComponent
  rcases h with h | h
  · simp [h]
  · cases hp : (fetchCategoryByName db row.type ok).isPassive <;> simp [h]

theorem fetchCategoryByName_failed (db : Database) (name : String) :
    fetchCategoryByName db name false = CategoryInfo.empty := rfl

theorem hydrate_passive_of_mem (db : Database) (row : InventoryRow) (cat : CategoryRow)
    (ok : Bool) (hU : db.KeysUnique) (hmem : cat ∈ db.categories)
    (hname : cat.name = row.type) (hflag : cat.is_passive ≠ 0) :
    hydrateComponent db row ok = some (Component.passive
      ⟨row.id, row.name, row.manufacturer, row.quantity, row.type,
        row.param_1, row.extra_data, row.param_2⟩) := by
  apply hydrateComponent_passive_of_flag
  cases ok with
  | false => right; rfl
  | true =>
    left
    rw [fetchCategoryByName_of_mem db cat row.type hU hmem hname]
    exact (toBool_eq_true _).mpr hflag

theorem hydrate_active_of_mem (db : Database) (row : InventoryRow) (cat : CategoryRow)
    (hU : db.KeysUnique) (hmem : cat ∈ db.categories) (hname : cat.name = row.type)
    (hpassive : cat.is_passive = 0) (hactive : cat.is_active ≠ 0) :
    hydrateComponent db row true = some (Component.active
      ⟨row.id, row.name, row.manufacturer, row.quantity, row.type,
        row.param_1, QString.toInt row.param_2, row.extra_data⟩) := by
  unfold hydrateComponent
  rw [fetchCategoryByName_of_mem db cat row.type hU hmem hname]
  have h1 : cat.toInfo.isPassive = false := (toBool_eq_false _).mpr hpassive
  have h2 : cat.toInfo.isActive = true := (toBool_eq_true _).mpr hactive
  simp [h1, h2]

theorem hydrate_isSome (db : Database) (row : InventoryRow) (ok : Bool) :
    ∃ c, hydrateComponent db row ok = some c := by
  unfold hydrateComponent
  dsimp only
  split
  · exact ⟨_, rfl⟩
  · split <;> exact ⟨_, rfl⟩

/-! ### Storing and reading back a component -/

theorem addComponent_ok_of_ret (db : Database) (c : Component) (ok : Bool)
    (h : (addComponent db (some c) ok).ret ≠ -1) : ok = true := by
  cases ok with
  | true => rfl
  | false => exact absurd rfl h

/-- Reading back the id `addComponent` returned hydrates the row that was just inserted. -/
theorem fetchComponent_added (db : Database) (c : Component) (ok : Nat → Bool)
    (hsel : ok 0 = true) :
    fetchComponent (addComponent db (some c) true).db (addComponent db (some c) true).ret ok =
      hydrateComponent (addComponent db (some c) true).db
        ⟨(addComponent db (some c) true).ret, c.getName, c.getManufacturer, c.getType,
          c.getQuantity, c.getParam1, c.getParam2, extraData c⟩ (ok 1) := by
  unfold fetchComponent
  rw [hsel, if_pos rfl]
  have hfind : (addComponent db (some c) true).db.inventory.find?
      (fun r => decide (r.id = (addComponent db (some c) true).ret)) =
      some ⟨(addComponent db (some c) true).ret, c.getName, c.getManufacturer, c.getType,
          c.getQuantity, c.getParam1, c.getParam2, extraData c⟩ := by
    show (db.inventory ++ [_]).find? _ = _
    apply find?_append_fresh
    · intro y hy
      have hlt := lt_nextRowId db.inventorySeq (db.inventory.map (fun r => r.id)) y.id
        (List.mem_map_of_mem _ hy)
      have hne : y.id ≠ nextRowId db.inventorySeq (db.inventory.map (fun r => r.id)) := by
        omega
      simpa [addComponent] using hne
    · simp [addComponent]
  rw [hfind]

/-! ### Deleting a category -/

theorem canDeleteCategory_of_mem (db : Database) (X : CategoryRow) (hU : db.KeysUnique)
    (hmem : X ∈ db.categories) :
    canDeleteCategory db X.id true = (X.is_system == 0) := by
  simp [canDeleteCategory, find?_byId db X hU hmem]

theorem fetchCategory_of_mem (db : Database) (X : CategoryRow) (hU : db.KeysUnique)
    (hmem : X ∈ db.categories) : fetchCategory db X.id true = X.toInfo := by
  simp [fetchCategory, find?_byId db X hU hmem]

theorem canDeleteCategory_failed (db : Database) (id : Int) :
    canDeleteCategory db id false = false := rfl

theorem fetchCategory_failed_isValid (db : Database) (id : Int) :
    (fetchCategory db id false).isValid = false := rfl

/-- What a call of `deleteCategory` that returns true has done. -/
theorem deleteCategory_true (db : Database) (X : CategoryRow) (ok : Nat → Bool)
    (hU : db.KeysUnique) (hmem : X ∈ db.categories)
    (hdel : (deleteCategory db X.id ok).ret = true) :
    (deleteCategory db X.id ok).db =
      { db with inventory := reassignToOther db.inventory X.name,
                categories := db.categories.filter (fun r => r.id ≠ X.id) } := by
  have hc : canDeleteCategory db X.id (ok 0) = true := by
    by_contra h
    simp [deleteCategory, h] at hdel
  have hv : (fetchCategory db X.id (ok 1)).isValid = true := by
    by_contra h
    simp [deleteCategory, hc, h] at hdel
  have h2 : ok 2 = true := by
    by_contra h
    simp [deleteCategory, hc, hv, h] at hdel
  have h3 : ok 3 = true := by
    by_contra h
    simp [deleteCategory, hc, hv, h2, h] at hdel
  have h1 : ok 1 = true := by
    cases h : ok 1 with
    | true => rfl
    | false =>
      rw [h, fetchCategory_failed_isValid] at hv
      exact absurd hv (by decide)
  have hname : (fetchCategory db X.id (ok 1)).name = X.name := by
    rw [h1, fetchCategory_of_mem db X hU hmem]
    rfl
  simp [deleteCategory, hc, hv, h2, h3, hname]

theorem length_hydrateRows (db : Database) (ok : Nat → Bool) :
    ∀ (rows : List InventoryRow) (k : Nat), (hydrateRows db ok k rows).length = rows.length
  | [], _ => rfl
  | row :: rows, k => by
    obtain ⟨c, hc⟩ := hydrate_isSome db row (ok k)
    simp only [hydrateRows, hc, List.length_cons, length_hydrateRows db ok rows (k + 1)]

/-- When its query executes, `fetchByCategory` returns one component per row of that type. -/
theorem length_fetchByCategory (db : Database) (name : String) (ok : Nat → Bool)
    (hsel : ok 0 = true) :
    (fetchByCategory db name ok).length = movedCount db.inventory name := by
  unfold fetchByCategory movedCount
  rw [hsel, if_pos rfl, length_hydrateRows, List.length_insertionSort]

theorem movedCount_reassign_self (name : String) (hne : name ≠ "Other") :
    ∀ inv : List InventoryRow, movedCount (reassignToOther inv name) name = 0
  | [] => rfl
  | r :: rs => by
    have ih := movedCount_reassign_self name hne rs
    unfold movedCount reassignToOther at ih ⊢
    by_cases h : r.type = name
    · have h' : ¬ "Other" = name := fun e => hne e.symm
      simpa [List.filter, h, h'] using ih
    · simpa [List.filter, h] using ih

/-- After the reassignment, `Other` holds its former rows and the rows that were moved. -/
theorem movedCount_reassign_other (name : String) (hne : name ≠ "Other") :
    ∀ inv : List InventoryRow,
      movedCount (reassignToOther inv name) "Other" =
        movedCount inv "Other" + movedCount inv name
  | [] => rfl
  | r :: rs => by
    have ih := movedCount_reassign_other name hne rs
    unfold movedCount reassignToOther at ih ⊢
    by_cases h : r.type = name
    · have h' : ¬ r.type = "Other" := fun e => hne (h ▸ e)
      rw [List.map_cons, if_pos h, List.filter_cons, List.filter_cons, List.filter_cons]
      simp only [decide_True, if_true, h', decide_False, h, hne, Bool.false_eq_true, if_false, List.length_cons]
      omega
    · by_cases ho : r.type = "Other"
      · have h'' : ¬ "Other" = name := fun e => h (ho.trans e)
        rw [List.map_cons, if_neg h, List.filter_cons, List.filter_cons, List.filter_cons]
        simp only [ho, decide_True, if_true, h'', decide_False, Bool.false_eq_true, if_false, List.length_cons]
        omega
      · rw [List.map_cons, if_neg h, List.filter_cons, List.filter_cons, List.filter_cons]
        simp only [ho, decide_False, h]
        exact ih

theorem filter_id_eq_filter_ne (db : Database) (X : CategoryRow) (hU : db.KeysUnique)
    (hmem : X ∈ db.categories) :
    db.categories.filter (fun r => decide (r.id ≠ X.id)) =
      db.categories.filter (fun r => decide (r ≠ X)) := by
  apply List.filter_congr
  intro r hr
  by_cases h : r.id = X.id
  · have hfind := find?_byId db r hU hr
    rw [h, find?_byId db X hU hmem] at hfind
    have hrX : r = X := (Option.some.inj hfind).symm
    simp [h, hrX]
  · have hne : r ≠ X := fun e => h (e ▸ rfl)
    simp [h, hne]

theorem addCategory_of_insert_none (db : Database) (c : CategoryInfo) (ok : Bool)
    (h : insertCategory db c.name (if c.isPassive then 1 else 0)
      (if c.isActive then 1 else 0) c.defaultUnit 0 ok = none) :
    addCategory db c ok =
      { db := db, ret := -1, signals := [Signal.errorOccurred "Failed to add category: "] } := by
  unfold addCategory
  rw [h]

/-! ## The claims -/

/-- Claim C1. A passive component whose category names an existing category with the
`is_passive` flag set, once stored by `addComponent` (returning an id, not -1), is returned
by `fetchComponent` of that id as a passive component with the same value, unit, package,
name, manufacturer, quantity and category, and with the returned id as its id. -/
theorem addComponent_fetchComponent_passive (db : Database) (p : PassiveComponent)
    (cat : CategoryRow) (okAdd : Bool) (okFetch : Nat → Bool)
    (hU : db.KeysUnique) (hmem : cat ∈ db.categories) (hname : cat.name = p.category)
    (hflag : cat.is_passive ≠ 0)
    (hadd : (addComponent db (some (Component.passive p)) okAdd).ret ≠ -1)
    (hsel : okFetch 0 = true) :
    fetchComponent (addComponent db (some (Component.passive p)) okAdd).db
        (addComponent db (some (Component.passive p)) okAdd).ret okFetch =
      some (Component.passive
        { p with id := (addComponent db (some (Component.passive p)) okAdd).ret }) := by
  have hok := addComponent_ok_of_ret db _ okAdd hadd
  subst hok
  rw [fetchComponent_added db _ okFetch hsel]
  exact hydrate_passive_of_mem _ _ cat (okFetch 1) hU hmem hname hflag

/-- Witness of claim C1: the sample resistor (value 4700, unit Ω, package 0805) stored in the
seeded database under `Resistor` gets id 1 and is read back unchanged. -/
theorem addComponent_fetchComponent_passive_witness :
    fetchComponent (addComponent seeded (some (Component.passive sampleResistor)) true).db 1
        (fun _ => true) =
      some (Component.passive { sampleResistor with id := 1 }) :=
  addComponent_fetchComponent_passive seeded sampleResistor ⟨1, "Resistor", 1, 0, "Ω", 1⟩
    true (fun _ => true) (by decide) (by decide) (by decide) (by decide) (by decide) rfl

/-- Claim C2. An active component (any `int` pin count, any voltage and datasheet link)
whose category names an existing category with `is_passive` 0 and `is_active` set, once
stored by `addComponent`, is returned by `fetchComponent` of the new id as an active
component with the same operatingVoltage, pinCount and datasheetLink: the decimal text of
the pin count parses back to the pin count. -/
theorem addComponent_fetchComponent_active (db : Database) (a : ActiveComponent)
    (cat : CategoryRow) (okAdd : Bool) (okFetch : Nat → Bool)
    (hlo : INT_MIN ≤ a.pinCount) (hhi : a.pinCount ≤ INT_MAX)
    (hU : db.KeysUnique) (hmem : cat ∈ db.categories) (hname : cat.name = a.category)
    (hpassive : cat.is_passive = 0) (hactive : cat.is_active ≠ 0)
    (hadd : (addComponent db (some (Component.active a)) okAdd).ret ≠ -1)
    (hsel : okFetch 0 = true) (hlookup : okFetch 1 = true) :
    fetchComponent (addComponent db (some (Component.active a)) okAdd).db
        (addComponent db (some (Component.active a)) okAdd).ret okFetch =
      some (Component.active
        { a with id := (addComponent db (some (Component.active a)) okAdd).ret }) := by
  have hok := addComponent_ok_of_ret db _ okAdd hadd
  subst hok
  rw [fetchComponent_added db _ okFetch hsel, hlookup]
  have h := hydrate_active_of_mem (addComponent db (some (Component.active a)) true).db
    ⟨(addComponent db (some (Component.active a)) true).ret, a.name, a.manufacturer,
      a.category, a.quantity, a.operatingVoltage, QString.number a.pinCount,
      a.datasheetLink⟩ cat hU hmem hname hpassive hactive
  rw [toInt_number a.pinCount hlo hhi] at h
  exact h

/-- Witness of claim C2: the sample IC (voltage 3.3, 48 pins) stored in the seeded database
under `IC` gets id 1 and is read back unchanged. -/
theorem addComponent_fetchComponent_active_witness :
    fetchComponent (addComponent seeded (some (Component.active sampleIC)) true).db 1
        (fun _ => true) =
      some (Component.active { sampleIC with id := 1 }) :=
  addComponent_fetchComponent_active seeded sampleIC ⟨4, "IC", 0, 1, "", 1⟩
    true (fun _ => true) (by decide) (by decide) (by decide) (by decide) (by decide)
    (by decide) (by decide) (by decide) rfl rfl

/-- Claim C3. When the type of a stored row names a category whose `is_passive` flag is set
(whatever its `is_active` flag), `hydrateComponent` returns a passive component with
value = param_1, unit = extra_data and package = param_2, carrying the id, name,
manufacturer, quantity and type of the row; this holds whether or not the lookup query
executes. -/
theorem hydrateComponent_passive (db : Database) (row : InventoryRow) (cat : CategoryRow)
    (ok : Bool) (hU : db.KeysUnique) (hmem : cat ∈ db.categories)
    (hname : cat.name = row.type) (hflag : cat.is_passive ≠ 0) :
    hydrateComponent db row ok = some (Component.passive
      { id := row.id, name := row.name, manufacturer := row.manufacturer,
        quantity := row.quantity, category := row.type,
        value := row.param_1, unit := row.extra_data, package := row.param_2 }) :=
  hydrate_passive_of_mem db row cat ok hU hmem hname hflag

/-- Witness of claim C3: a row of type `Resistor` hydrates to a passive component. -/
theorem hydrateComponent_passive_witness :
    hydrateComponent seeded
        ⟨1, "RES-4K7-0805", "Panasonic", "Resistor", 75, 4700, "0805", "Ω"⟩ true =
      some (Component.passive
        ⟨1, "RES-4K7-0805", "Panasonic", 75, "Resistor", 4700, "Ω", "0805"⟩) :=
  hydrateComponent_passive seeded
    ⟨1, "RES-4K7-0805", "Panasonic", "Resistor", 75, 4700, "0805", "Ω"⟩
    ⟨1, "Resistor", 1, 0, "Ω", 1⟩ true (by decide) (by decide) (by decide) (by decide)

/-- Claim C4. When the type of a stored row names a category with `is_passive` 0 and
`is_active` set, and the lookup query executes, `hydrateComponent` returns an active
component with operatingVoltage = param_1, datasheetLink = extra_data and
pinCount = `toInt` of param_2, which is 0 when param_2 is not the text of an integer. -/
theorem hydrateComponent_active (db : Database) (row : InventoryRow) (cat : CategoryRow)
    (hU : db.KeysUnique) (hmem : cat ∈ db.categories) (hname : cat.name = row.type)
    (hpassive : cat.is_passive = 0) (hactive : cat.is_active ≠ 0) :
    hydrateComponent db row true = some (Component.active
      { id := row.id, name := row.name, manufacturer := row.manufacturer,
        quantity := row.quantity, category := row.type,
        operatingVoltage := row.param_1, pinCount := QString.toInt row.param_2,
        datasheetLink := row.extra_data }) ∧
    (QString.parseInteger row.param_2.toList = none → QString.toInt row.param_2 = 0) := by
  constructor
  · exact hydrate_active_of_mem db row cat hU hmem hname hpassive hactive
  · intro h
    unfold QString.toInt
    rw [h]

/-- Witness of claim C4: a row of type `IC` with param_2 the text 48 hydrates to an active
component with 48 pins, and for a row whose param_2 is the text TO-220 the parse gives 0. -/
theorem hydrateComponent_active_witness :
    hydrateComponent seeded ⟨2, "NE555", "Texas Instruments", "IC", 50, 15, "48", ""⟩ true =
      some (Component.active ⟨2, "NE555", "Texas Instruments", 50, "IC", 15, 48, ""⟩) ∧
    QString.toInt "TO-220" = 0 :=
  ⟨(hydrateComponent_active seeded ⟨2, "NE555", "Texas Instruments", "IC", 50, 15, "48", ""⟩
      ⟨4, "IC", 0, 1, "", 1⟩ (by decide) (by decide) (by decide) (by decide) (by decide)).1,
    (hydrateComponent_active seeded
      ⟨3, "LM7805", "ON Semiconductor", "IC", 7, 35, "TO-220", ""⟩
      ⟨4, "IC", 0, 1, "", 1⟩ (by decide) (by decide) (by decide) (by decide) (by decide)).2
      (by decide)⟩

/-- Claim C5. When the type of a stored row names no category, or names a category with both
flags 0, `hydrateComponent` returns a passive component with value = param_1,
unit = extra_data and package = param_2; and for every row, every database and every
outcome of the lookup query the result is a component, never the null pointer. -/
theorem hydrateComponent_fallback (db : Database) (row : InventoryRow) (ok : Bool) :
    (∃ c, hydrateComponent db row ok = some c) ∧
    (((∀ c ∈ db.categories, c.name ≠ row.type) ∨
        (db.KeysUnique ∧ ∃ c ∈ db.categories,
          c.name = row.type ∧ c.is_passive = 0 ∧ c.is_active = 0)) →
      hydrateComponent db row ok = some (Component.passive
        { id := row.id, name := row.name, manufacturer := row.manufacturer,
          quantity := row.quantity, category := row.type,
          value := row.param_1, unit := row.extra_data, package := row.param_2 })) := by
  constructor
  · exact hydrate_isSome db row ok
  · intro h
    apply hydrateComponent_passive_of_flag
    right
    rcases h with h | ⟨hU, c, hmem, hname, _, hact⟩
    · rw [fetchCategoryByName_of_absent db row.type ok h]; rfl
    · cases ok with
      | false => rfl
      | true =>
        rw [fetchCategoryByName_of_mem db c row.type hU hmem hname]
        exact (toBool_eq_false _).mpr hact

/-- Witness of claim C5: a row whose type `Relay` names no seeded category and a row of the
flagless category `Connector` both hydrate to passive components. -/
theorem hydrateComponent_fallback_witness :
    hydrateComponent seeded ⟨3, "G5LE-1", "Omron", "Relay", 20, 5, "5", ""⟩ true =
      some (Component.passive ⟨3, "G5LE-1", "Omron", 20, "Relay", 5, "", "5"⟩) ∧
    hydrateComponent seeded ⟨4, "HDR-2x5", "Molex", "Connector", 40, 0, "THT", ""⟩ true =
      some (Component.passive ⟨4, "HDR-2x5", "Molex", 40, "Connector", 0, "", "THT"⟩) :=
  ⟨(hydrateComponent_fallback seeded ⟨3, "G5LE-1", "Omron", "Relay", 20, 5, "5", ""⟩ true).2
      (Or.inl (by decide)),
    (hydrateComponent_fallback seeded
      ⟨4, "HDR-2x5", "Molex", "Connector", 40, 0, "THT", ""⟩ true).2
      (Or.inr ⟨by decide, ⟨7, "Connector", 0, 0, "", 1⟩, by decide, by decide, by decide,
        by decide⟩)⟩

/-- Claim C6. `addComponent` and `updateComponent` write the serialization the specification
describes: (value, package, unit) for a passive part and (operatingVoltage, decimal text of
pinCount, datasheetLink) for an active part go to (param_1, param_2, extra_data), and name,
manufacturer, category (as type) and quantity are written as they are; the insert appends
one row holding these seven values under the new id, and the update puts the same seven
values into the row of the component's id and leaves every other row alone. -/
theorem addComponent_updateComponent_serialize (db : Database) (c : Component) :
    (addComponent db (some c) true).db.inventory =
        db.inventory ++
          [InventoryRow.ofColumns (addComponent db (some c) true).ret (specSerialize c)] ∧
    (0 ≤ c.getId →
      (updateComponent db (some c) true).db.inventory =
        db.inventory.map (fun r =>
          if r.id = c.getId then InventoryRow.ofColumns r.id (specSerialize c) else r)) := by
  constructor
  · cases c <;> rfl
  · intro hid
    have hneg : ¬ c.getId < 0 := by omega
    cases c <;> simp only [updateComponent, hneg, if_false, if_true] <;> rfl

/-- Witness of claim C6: updating the stored sample resistor (id 1) to quantity 70 rewrites
row 1 with the serialization of the component and leaves row 2 alone. -/
theorem addComponent_updateComponent_serialize_witness :
    (updateComponent stocked
        (some (Component.passive { sampleResistor with id := 1, quantity := 70 })) true).db.inventory =
      stocked.inventory.map (fun r =>
        if r.id = 1 then
          InventoryRow.ofColumns r.id
            ("RES-4K7-0805", "Panasonic", "Resistor", 70, 4700, "0805", "Ω")
        else r) :=
  (addComponent_updateComponent_serialize stocked
    (Component.passive { sampleResistor with id := 1, quantity := 70 })).2 (by decide)

/-- Claim C7. When `deleteCategory` returns true on the id of a category X whose name is not
`Other`, then `fetchByCategory` of `Other` has exactly as many more members as X had
components, `fetchByCategory` of the name of X is empty, no category of
`fetchAllCategories` has the id of X, the categories table is the old one without the row
X, and the inventory is the old one with the type of the components of X set to `Other`
(every other column and every other row as before). -/
theorem deleteCategory_reassigns (db : Database) (X : CategoryRow)
    (ok okBefore okAfter : Nat → Bool)
    (hU : db.KeysUnique) (hmem : X ∈ db.categories) (hother : X.name ≠ "Other")
    (hdel : (deleteCategory db X.id ok).ret = true)
    (hb : okBefore 0 = true) (ha : okAfter 0 = true) :
    (fetchByCategory (deleteCategory db X.id ok).db "Other" okAfter).length =
        (fetchByCategory db "Other" okBefore).length +
          (fetchByCategory db X.name okBefore).length ∧
    (∀ okAny, fetchByCategory (deleteCategory db X.id ok).db X.name okAny = []) ∧
    (∀ okAll, ∀ c ∈ fetchAllCategories (deleteCategory db X.id ok).db okAll, c.id ≠ X.id) ∧
    (deleteCategory db X.id ok).db.categories = db.categories.filter (fun r => r ≠ X) ∧
    (deleteCategory db X.id ok).db.inventory =
      db.inventory.map (fun r => if r.type = X.name then { r with type := "Other" } else r) := by
  have hdb := deleteCategory_true db X ok hU hmem hdel
  refine ⟨?_, ?_, ?_, ?_, ?_⟩
  · rw [length_fetchByCategory _ _ okAfter ha, length_fetchByCategory _ _ okBefore hb,
      length_fetchByCategory _ _ okBefore hb, hdb]
    exact movedCount_reassign_other X.name hother db.inventory
  · intro okAny
    cases h0 : okAny 0 with
    | false => simp [fetchByCategory, h0]
    | true =>
      apply List.eq_nil_of_length_eq_zero
      rw [length_fetchByCategory _ _ okAny h0, hdb]
      exact movedCount_reassign_self X.name hother db.inventory
  · intro okAll c hc
    cases okAll with
    | false => simp [fetchAllCategories] at hc
    | true =>
      rw [hdb] at hc
      simp only [fetchAllCategories, if_true, List.mem_map] at hc
      obtain ⟨r, hr, rfl⟩ := hc
      have hr' := (List.perm_insertionSort _ _).mem_iff.mp hr
      have := (List.mem_filter.mp hr').2
      simpa [CategoryRow.toInfo] using this
  · rw [hdb]
    exact filter_id_eq_filter_ne db X hU hmem
  · rw [hdb]
    rfl

/-- Witness of claim C7: deleting the user category `Relay` (id 9, two components) makes
`Other` gain its two components and leaves no component of category `Relay`. -/
theorem deleteCategory_reassigns_witness :
    (fetchByCategory (deleteCategory relayDb 9 (fun _ => true)).db "Other"
        (fun _ => true)).length =
      (fetchByCategory relayDb "Other" (fun _ => true)).length +
        (fetchByCategory relayDb "Relay" (fun _ => true)).length ∧
    fetchByCategory (deleteCategory relayDb 9 (fun _ => true)).db "Relay" (fun _ => true) =
      [] :=
  have h := deleteCategory_reassigns relayDb ⟨9, "Relay", 0, 1, "", 0⟩ (fun _ => true)
    (fun _ => true) (fun _ => true) (by decide) (by decide) (by decide) (by decide) rfl rfl
  ⟨h.1, h.2.1 (fun _ => true)⟩

/-- Claim C8. For every system category C (`is_system` not 0), `deleteCategory` of its id
returns false and leaves the database, hence the inventory table and the result of
`fetchAllCategories`, as they were; this holds for every outcome of the statements. -/
theorem deleteCategory_system (db : Database) (C : CategoryRow) (ok : Nat → Bool)
    (hU : db.KeysUnique) (hmem : C ∈ db.categories) (hsys : C.is_system ≠ 0) :
    (deleteCategory db C.id ok).ret = false ∧
    (deleteCategory db C.id ok).db = db ∧
    (∀ okAll, fetchAllCategories (deleteCategory db C.id ok).db okAll =
      fetchAllCategories db okAll) := by
  have hc : canDeleteCategory db C.id (ok 0) = false := by
    cases h0 : ok 0 with
    | false => rfl
    | true =>
      rw [canDeleteCategory_of_mem db C hU hmem]
      simpa using hsys
  have hdb : (deleteCategory db C.id ok).db = db := by simp [deleteCategory, hc]
  refine ⟨by simp [deleteCategory, hc], hdb, ?_⟩
  intro okAll
  rw [hdb]

/-- Witness of claim C8: `deleteCategory` of the system category `Other` (id 8) fails and
changes nothing. -/
theorem deleteCategory_system_witness :
    (deleteCategory relayDb 8 (fun _ => true)).ret = false ∧
    (deleteCategory relayDb 8 (fun _ => true)).db = relayDb :=
  have h := deleteCategory_system relayDb ⟨8, "Other", 0, 0, "", 1⟩ (fun _ => true)
    (by decide) (by decide) (by decide)
  ⟨h.1, h.2.1⟩

/-- Claim C9 fails as stated: when the reassignment executes and the `DELETE` then fails,
`deleteCategory` returns false although the two relays have been moved to `Other`. -/
theorem deleteCategory_not_atomic :
    (deleteCategory relayDb 9 (fun k => k != 3)).ret = false ∧
    (deleteCategory relayDb 9 (fun k => k != 3)).db.inventory ≠ relayDb.inventory :=
  ⟨by decide, fun h =>
    absurd (congrArg (List.map (fun r : InventoryRow => r.type)) h) (by decide)⟩

/-- Claim C9, as the code behaves. Whenever `deleteCategory` returns false the categories
table is as before the call; the inventory table is as before the call unless the
reassignment `UPDATE` (statement 2) has executed and the `DELETE` (statement 3) has failed,
in which case the inventory keeps the reassignment to `Other`: nothing rolls it back. -/
theorem deleteCategory_false (db : Database) (id : Int) (ok : Nat → Bool)
    (hret : (deleteCategory db id ok).ret = false) :
    (deleteCategory db id ok).db.categories = db.categories ∧
    ((deleteCategory db id ok).db.inventory = db.inventory ∨
      (ok 2 = true ∧ ok 3 = false ∧
        (deleteCategory db id ok).db.inventory =
          reassignToOther db.inventory (fetchCategory db id (ok 1)).name)) := by
  by_cases hc : canDeleteCategory db id (ok 0) = true
  swap
  · simp [deleteCategory, hc]
  by_cases hv : (fetchCategory db id (ok 1)).isValid = true
  swap
  · simp [deleteCategory, hc, hv]
  by_cases h2 : ok 2 = true
  swap
  · simp [deleteCategory, hc, hv, h2]
  by_cases h3 : ok 3 = true
  · simp [deleteCategory, hc, hv, h2, h3] at hret
  · simp [deleteCategory, hc, hv, h2, h3]

/-- Witness of the amended claim C9 at the execution in which the `DELETE` fails. -/
theorem deleteCategory_false_witness :
    (deleteCategory relayDb 9 (fun k => k != 3)).db.categories = relayDb.categories :=
  (deleteCategory_false relayDb 9 (fun k => k != 3) (by decide)).1

/-- Claim C10 fails as stated: after `addCategory` of `Relay` has succeeded, `addCategory`
of the case variant `RELAY` succeeds too (it returns id 10) and adds a row. -/
theorem addCategory_case_variant_accepted :
    (addCategory seeded relayCategory true).ret ≠ -1 ∧
    "RELAY".toList.map Char.toLower = relayCategory.name.toList.map Char.toLower ∧
    (addCategory (addCategory seeded relayCategory true).db
      ⟨-1, "RELAY", false, true, ""⟩ true).ret = 10 ∧
    (addCategory (addCategory seeded relayCategory true).db
      ⟨-1, "RELAY", false, true, ""⟩ true).db.categories ≠
      (addCategory seeded relayCategory true).db.categories :=
  ⟨by decide, by decide, by decide, by decide⟩

/-- Claim C10, as the code behaves. After `addCategory` with name N has succeeded,
`addCategory` with the same name N, character for character, returns -1 and leaves the
categories table unchanged, whatever the flags and the unit of the second category. -/
theorem addCategory_same_name_rejected (db : Database) (c1 c2 : CategoryInfo)
    (ok1 ok2 : Bool) (hfirst : (addCategory db c1 ok1).ret ≠ -1)
    (hname : c2.name = c1.name) :
    (addCategory (addCategory db c1 ok1).db c2 ok2).ret = -1 ∧
    (addCategory (addCategory db c1 ok1).db c2 ok2).db.categories =
      (addCategory db c1 ok1).db.categories := by
  have hcond : (ok1 && !db.categories.any (fun r => decide (r.name = c1.name))) = true := by
    by_contra h
    simp [addCategory, insertCategory, h] at hfirst
  have hcats : ∃ r, (addCategory db c1 ok1).db.categories = db.categories ++ [r] ∧
      r.name = c1.name := by
    simp only [addCategory, insertCategory, hcond, if_true]
    exact ⟨_, rfl, rfl⟩
  obtain ⟨r, hcats, hr⟩ := hcats
  have hany : (addCategory db c1 ok1).db.categories.any
      (fun r => decide (r.name = c2.name)) = true := by
    rw [hcats, List.any_append]
    simp [hr, hname]
  have hnone : insertCategory (addCategory db c1 ok1).db c2.name
      (if c2.isPassive then 1 else 0) (if c2.isActive then 1 else 0) c2.defaultUnit 0 ok2 =
      none := by
    unfold insertCategory
    rw [hany]
    simp
  rw [addCategory_of_insert_none _ c2 ok2 hnone]
  exact ⟨rfl, rfl⟩

/-- Witness of the amended claim C10: `Relay` twice. -/
theorem addCategory_same_name_rejected_witness :
    (addCategory (addCategory seeded relayCategory true).db relayCategory true).ret = -1 ∧
    (addCategory (addCategory seeded relayCategory true).db relayCategory true).db.categories =
      (addCategory seeded relayCategory true).db.categories :=
  addCategory_same_name_rejected seeded relayCategory relayCategory true true (by decide) rfl

/-! ### How the operations change the tables -/

/-- The row `addCategory` inserts for a category. -/
theorem addCategory_db_cases (db : Database) (c : CategoryInfo) (ok : Bool) :
    ((addCategory db c ok).db = db ∧ (addCategory db c ok).ret = -1) ∨
    ((∀ r ∈ db.categories, r.name ≠ c.name) ∧ ok = true ∧
      (addCategory db c ok).ret = nextRowId db.categoriesSeq (db.categories.map (fun r => r.id)) ∧
      (addCategory db c ok).db =
        { db with
            categories := db.categories ++
              [⟨nextRowId db.categoriesSeq (db.categories.map (fun r => r.id)), c.name,
                if c.isPassive then 1 else 0, if c.isActive then 1 else 0, c.defaultUnit, 0⟩]
            categoriesSeq := nextRowId db.categoriesSeq (db.categories.map (fun r => r.id)) }) := by
  by_cases hcond : (ok && !db.categories.any (fun r => decide (r.name = c.name))) = true
  · right
    have hok : ok = true := by
      cases ok with
      | true => rfl
      | false => simp at hcond
    have hnone : ∀ r ∈ db.categories, r.name ≠ c.name := by
      intro r hr
      have : db.categories.any (fun r => decide (r.name = c.name)) = false := by
        cases h : db.categories.any (fun r => decide (r.name = c.name)) with
        | false => rfl
        | true => simp [h] at hcond
      rw [List.any_eq_false] at this
      simpa using this r hr
    refine ⟨hnone, hok, ?_, ?_⟩ <;> simp [addCategory, insertCategory, hcond]
  · left
    simp [addCategory, insertCategory, hcond]

theorem updateCategory_db_cases (db : Database) (c : CategoryInfo) (ok : Bool) :
    ((updateCategory db c ok).db = db ∧ (updateCategory db c ok).ret = false) ∨
    ((updateCategory db c ok).ret = true ∧ 0 ≤ c.id ∧ ok = true ∧
      ((∃ t ∈ db.categories, t.id = c.id) →
        ∀ r ∈ db.categories, r.id ≠ c.id → r.name ≠ c.name) ∧
      (updateCategory db c ok).db =
        { db with
            categories := db.categories.map (fun r =>
              if r.id = c.id then
                { r with name := c.name,
                         is_passive := if c.isPassive then 1 else 0,
                         is_active := if c.isActive then 1 else 0,
                         default_unit := c.defaultUnit }
              else r) }) := by
  by_cases hid : c.id < 0
  · left
    simp [updateCategory, hid]
  · by_cases hcond : (ok && !(db.categories.any (fun r => decide (r.id = c.id)) &&
        db.categories.any (fun r => decide (r.id ≠ c.id ∧ r.name = c.name)))) = true
    · right
      have hok : ok = true := by
        cases ok with
        | true => rfl
        | false => simp at hcond
      refine ⟨?_, by omega, hok, ?_, ?_⟩
      · simp only [updateCategory, hid, if_false, hcond, if_true]
      · rintro ⟨t, ht, hti⟩ r hr hri hrn
        have h1 : db.categories.any (fun r => decide (r.id = c.id)) = true :=
          List.any_eq_true.mpr ⟨t, ht, by simpa using hti⟩
        have h2 : db.categories.any (fun r => decide (r.id ≠ c.id ∧ r.name = c.name)) = true :=
          List.any_eq_true.mpr ⟨r, hr, by simpa using ⟨hri, hrn⟩⟩
        rw [hok, h1, h2] at hcond
        exact absurd hcond (by decide)
      · simp only [updateCategory, hid, if_false, hcond, if_true]
    · left
      simp only [updateCategory, hid, if_false, hcond]
      exact ⟨rfl, rfl⟩

theorem deleteCategory_db_cases (db : Database) (id : Int) (ok : Nat → Bool) :
    (deleteCategory db id ok).db = db ∨
    ((deleteCategory db id ok).ret = false ∧
      (deleteCategory db id ok).db =
        { db with inventory := reassignToOther db.inventory (fetchCategory db id (ok 1)).name }) ∨
    ((deleteCategory db id ok).ret = true ∧ canDeleteCategory db id (ok 0) = true ∧
      (fetchCategory db id (ok 1)).isValid = true ∧
      (deleteCategory db id ok).db =
        { db with inventory := reassignToOther db.inventory (fetchCategory db id (ok 1)).name,
                  categories := db.categories.filter (fun r => r.id ≠ id) }) := by
  by_cases hc : canDeleteCategory db id (ok 0) = true
  swap
  · left; simp [deleteCategory, hc]
  by_cases hv : (fetchCategory db id (ok 1)).isValid = true
  swap
  · left; simp [deleteCategory, hc, hv]
  by_cases h2 : ok 2 = true
  swap
  · left; simp [deleteCategory, hc, hv, h2]
  by_cases h3 : ok 3 = true
  · right; right
    simp [deleteCategory, hc, hv, h2, h3]
  · right; left
    simp [deleteCategory, hc, hv, h2, h3]

theorem addComponent_categories (db : Database) (c : Option Component) (ok : Bool) :
    (addComponent db c ok).db.categories = db.categories := by
  cases c with
  | none => rfl
  | some c => cases ok <;> rfl

theorem updateComponent_categories (db : Database) (c : Option Component) (ok : Bool) :
    (updateComponent db c ok).db.categories = db.categories := by
  cases c with
  | none => rfl
  | some c =>
    unfold updateComponent
    dsimp only
    split
    · rfl
    · cases ok <;> rfl

theorem deleteComponent_categories (db : Database) (id : Int) (ok : Bool) :
    (deleteComponent db id ok).db.categories = db.categories := by
  cases ok <;> rfl

/-! ### The key constraints hold in every reachable state -/

theorem nodup_map_append_fresh {α β : Type} (f : α → β) (l : List α) (x : α)
    (hnd : (l.map f).Nodup) (hx : ∀ y ∈ l, f y ≠ f x) : ((l ++ [x]).map f).Nodup := by
  rw [List.map_append, List.nodup_append]
  refine ⟨hnd, by simp, ?_⟩
  intro b hb hb'
  simp only [List.map_cons, List.map_nil, List.mem_singleton] at hb'
  obtain ⟨y, hy, rfl⟩ := List.mem_map.mp hb
  exact hx y hy hb'

theorem keysUnique_of_categories_eq (db db1 : Database)
    (h : db1.categories = db.categories) (hU : db.KeysUnique) : db1.KeysUnique := by
  unfold Database.KeysUnique at hU ⊢
  rw [h]
  exact hU

theorem addCategory_keysUnique (db : Database) (c : CategoryInfo) (ok : Bool)
    (hU : db.KeysUnique) : (addCategory db c ok).db.KeysUnique := by
  rcases addCategory_db_cases db c ok with ⟨h, _⟩ | ⟨hname, _, _, h⟩
  · rw [h]; exact hU
  · rw [h]
    constructor
    · apply nodup_map_append_fresh (fun r : CategoryRow => r.id) _ _ hU.1
      intro y hy
      have := lt_nextRowId db.categoriesSeq (db.categories.map (fun r => r.id)) y.id
        (List.mem_map_of_mem _ hy)
      show y.id ≠ nextRowId db.categoriesSeq (db.categories.map (fun r => r.id))
      omega
    · exact nodup_map_append_fresh (fun r : CategoryRow => r.name) _ _ hU.2 hname

theorem updateCategory_keysUnique (db : Database) (c : CategoryInfo) (ok : Bool)
    (hU : db.KeysUnique) : (updateCategory db c ok).db.KeysUnique := by
  rcases updateCategory_db_cases db c ok with ⟨h, _⟩ | ⟨_, _, _, hname, h⟩
  · rw [h]; exact hU
  · rw [h]
    constructor
    · show (List.map (fun r : CategoryRow => r.id) (List.map _ db.categories)).Nodup
      rw [List.map_map]
      have : ((fun r : CategoryRow => r.id) ∘ fun r : CategoryRow =>
          if r.id = c.id then
            { r with name := c.name,
                     is_passive := if c.isPassive then 1 else 0,
                     is_active := if c.isActive then 1 else 0,
                     default_unit := c.defaultUnit }
          else r) = fun r => r.id := by
        funext r
        simp only [Function.comp]
        split <;> rfl
      rw [this]
      exact hU.1
    · show (List.map (fun r : CategoryRow => r.name) (List.map _ db.categories)).Nodup
      rw [List.map_map, List.Nodup, List.pairwise_map]
      have hboth : db.categories.Pairwise (fun a b => a.id ≠ b.id ∧ a.name ≠ b.name) := by
        have h1 := List.pairwise_map.mp hU.1
        have h2 := List.pairwise_map.mp hU.2
        exact h1.and h2
      refine hboth.imp_of_mem ?_
      intro a b ha hb hab
      simp only [Function.comp]
      by_cases haid : a.id = c.id
      · have hbid : b.id ≠ c.id := fun e => hab.1 (haid.trans e.symm)
        rw [if_pos haid, if_neg hbid]
        exact fun e => hname ⟨a, ha, haid⟩ b hb hbid e.symm
      · rw [if_neg haid]
        by_cases hbid : b.id = c.id
        · rw [if_pos hbid]
          exact hname ⟨b, hb, hbid⟩ a ha haid
        · rw [if_neg hbid]
          exact hab.2

theorem deleteCategory_keysUnique (db : Database) (id : Int) (ok : Nat → Bool)
    (hU : db.KeysUnique) : (deleteCategory db id ok).db.KeysUnique := by
  rcases deleteCategory_db_cases db id ok with h | ⟨_, h⟩ | ⟨_, _, _, h⟩
  · rw [h]; exact hU
  · rw [h]; exact hU
  · rw [h]
    exact ⟨hU.1.sublist ((List.filter_sublist _).map _),
      hU.2.sublist ((List.filter_sublist _).map _)⟩

theorem step_keysUnique (db db1 : Database) (h : Step db db1) (hU : db.KeysUnique) :
    db1.KeysUnique := by
  cases h with
  | addCategory c ok => exact addCategory_keysUnique db c ok hU
  | updateCategory c ok => exact updateCategory_keysUnique db c ok hU
  | deleteCategory id ok => exact deleteCategory_keysUnique db id ok hU
  | addComponent c ok =>
    exact keysUnique_of_categories_eq db _ (addComponent_categories db c ok) hU
  | updateComponent c ok =>
    exact keysUnique_of_categories_eq db _ (updateComponent_categories db c ok) hU
  | deleteComponent id ok =>
    exact keysUnique_of_categories_eq db _ (deleteComponent_categories db id ok) hU

theorem reachable_keysUnique (db0 db : Database) (hr : Reachable db0 db)
    (hU : db0.KeysUnique) : db.KeysUnique := by
  induction hr with
  | refl => exact hU
  | tail _ hstep ih => exact step_keysUnique _ _ hstep ih

/-! ### The system rows stay the seeded ones -/

theorem systemSeeded_of_categories_eq (db db1 : Database)
    (h : db1.categories = db.categories) (hS : db.SystemSeeded) : db1.SystemSeeded := by
  unfold Database.SystemSeeded Database.systemIds at hS ⊢
  rw [h]
  exact hS

theorem addCategory_systemSeeded (db : Database) (c : CategoryInfo) (ok : Bool)
    (hS : db.SystemSeeded) : (addCategory db c ok).db.SystemSeeded := by
  rcases addCategory_db_cases db c ok with ⟨h, _⟩ | ⟨_, _, _, h⟩
  · rw [h]; exact hS
  · rw [h]
    unfold Database.SystemSeeded Database.systemIds at hS ⊢
    constructor
    · simpa [List.filter_append, List.filter_cons] using hS.1
    · intro r hr
      rcases List.mem_append.mp hr with hr | hr
      · exact hS.2 r hr
      · simp only [List.mem_singleton] at hr
        left
        rw [hr]

theorem filter_map_keep {α β : Type} (p : α → Bool) (g : α → β) (f : α → α)
    (hp : ∀ x, p (f x) = p x) (hg : ∀ x, g (f x) = g x) :
    ∀ l : List α, ((l.map f).filter p).map g = (l.filter p).map g
  | [] => rfl
  | x :: xs => by
    have ih := filter_map_keep p g f hp hg xs
    simp only [List.map_cons, List.filter_cons, hp x]
    split
    · simp only [List.map_cons, hg x, ih]
    · exact ih

theorem updateCategory_systemSeeded (db : Database) (c : CategoryInfo) (ok : Bool)
    (hS : db.SystemSeeded) : (updateCategory db c ok).db.SystemSeeded := by
  rcases updateCategory_db_cases db c ok with ⟨h, _⟩ | ⟨_, _, _, _, h⟩
  · rw [h]; exact hS
  · rw [h]
    unfold Database.SystemSeeded Database.systemIds at hS ⊢
    constructor
    · rw [← hS.1]
      apply filter_map_keep
      · intro x
        dsimp only
        split <;> rfl
      · intro x
        dsimp only
        split <;> rfl
    · intro r hr
      obtain ⟨x, hx, rfl⟩ := List.mem_map.mp hr
      have := hS.2 x hx
      split
      · exact this
      · exact this

theorem canDeleteCategory_true (db : Database) (id : Int) (ok : Bool)
    (h : canDeleteCategory db id ok = true) :
    ∃ r, db.categories.find? (fun r => decide (r.id = id)) = some r ∧ r.is_system = 0 := by
  unfold canDeleteCategory at h
  cases ok with
  | false => simp at h
  | true =>
    cases hf : db.categories.find? (fun r => decide (r.id = id)) with
    | none => simp [hf] at h
    | some r =>
      refine ⟨r, rfl, ?_⟩
      simpa [hf] using h

theorem deleteCategory_systemSeeded (db : Database) (id : Int) (ok : Nat → Bool)
    (hU : db.KeysUnique) (hS : db.SystemSeeded) :
    (deleteCategory db id ok).db.SystemSeeded := by
  rcases deleteCategory_db_cases db id ok with h | ⟨_, h⟩ | ⟨_, hc, _, h⟩
  · rw [h]; exact hS
  · rw [h]; exact hS
  · rw [h]
    obtain ⟨r, hfind, hsys⟩ := canDeleteCategory_true db id (ok 0) hc
    have hkeep : ∀ s ∈ db.categories, s.is_system ≠ 0 → s.id ≠ id := by
      intro s hs hne hid
      have hfs := find?_byId db s hU hs
      rw [hid, hfind] at hfs
      have : r = s := Option.some.inj hfs
      exact hne (this ▸ hsys)
    unfold Database.SystemSeeded Database.systemIds at hS ⊢
    constructor
    · rw [← hS.1]
      show List.map _ (List.filter _ (List.filter _ db.categories)) = _
      rw [List.filter_filter]
      congr 1
      apply List.filter_congr
      intro s hs
      by_cases hne : s.is_system = 0
      · simp [hne]
      · simp [hne, hkeep s hs hne]
    · intro s hs
      exact hS.2 s (List.mem_of_mem_filter hs)

theorem step_systemSeeded (db db1 : Database) (h : Step db db1) (hU : db.KeysUnique)
    (hS : db.SystemSeeded) : db1.SystemSeeded := by
  cases h with
  | addCategory c ok => exact addCategory_systemSeeded db c ok hS
  | updateCategory c ok => exact updateCategory_systemSeeded db c ok hS
  | deleteCategory id ok => exact deleteCategory_systemSeeded db id ok hU hS
  | addComponent c ok =>
    exact systemSeeded_of_categories_eq db _ (addComponent_categories db c ok) hS
  | updateComponent c ok =>
    exact systemSeeded_of_categories_eq db _ (updateComponent_categories db c ok) hS
  | deleteComponent id ok =>
    exact systemSeeded_of_categories_eq db _ (deleteComponent_categories db id ok) hS

theorem reachable_systemSeeded (db0 db : Database) (hr : Reachable db0 db)
    (hU : db0.KeysUnique) (hS : db0.SystemSeeded) : db.KeysUnique ∧ db.SystemSeeded := by
  induction hr with
  | refl => exact ⟨hU, hS⟩
  | tail _ hstep ih => exact ⟨step_keysUnique _ _ hstep ih.1, step_systemSeeded _ _ hstep ih.1 ih.2⟩

/-! ### Concrete reachable states -/

theorem reachable_stocked : Reachable seeded stocked :=
  (Relation.ReflTransGen.single
    (Step.addComponent seeded (some (Component.passive sampleResistor)) true)).tail
    (Step.addComponent _ (some (Component.active sampleIC)) true)

theorem reachable_relayDb : Reachable seeded relayDb :=
  (((reachable_stocked.tail (Step.addCategory stocked relayCategory true)).tail
    (Step.addComponent _
      (some (Component.active ⟨-1, "G5LE-1", "Omron", 20, "Relay", 5, 5, ""⟩)) true)).tail
    (Step.addComponent _
      (some (Component.active ⟨-1, "G2R-2", "Omron", 4, "Relay", 12, 8, ""⟩)) true)).tail
    (Step.addComponent _
      (some (Component.passive ⟨-1, "FUSE-1A", "Littelfuse", 30, "Other", 1, "A", "5x20"⟩))
      true)

theorem seeded_keysUnique : seeded.KeysUnique := by decide

theorem seeded_systemSeeded : seeded.SystemSeeded := by decide

/-! ### Claims C11 to C17 -/

/-- Claim C11 fails as stated: `addCategory` called with the empty name on the seeded
database inserts a row with the empty name and returns its id 9. -/
theorem addCategory_empty_name_accepted :
    (addCategory seeded ⟨-1, "", false, false, ""⟩ true).ret = 9 ∧
    (⟨9, "", 0, 0, "", 0⟩ : CategoryRow) ∈
      (addCategory seeded ⟨-1, "", false, false, ""⟩ true).db.categories :=
  ⟨by decide, by decide⟩

theorem validateInputs_name_ne (d : CategoryDialog) (h : d.validateInputs = true) :
    QString.trimmedText d.nameEdit ≠ "" := by
  intro he
  unfold CategoryDialog.validateInputs at h
  rw [he] at h
  simp [String.isEmpty_iff] at h

/-- Claim C11, as the code behaves. The empty name is rejected in front of the store:
`MainWindow::onAddCategory` calls `addCategory` only after `validateInputs` has accepted the
entered name, and a name that is empty once trimmed is refused there, so that the database
stays as it is and `addCategory` is not called; and when no stored category has an empty
name, none has after `onAddCategory`. -/
theorem onAddCategory_name_nonempty (db : Database) (nameText : String)
    (passive active : Bool) (unitText : String) (okPressed ok : Bool) :
    (QString.trimmedText nameText = "" →
      (MainWindow.onAddCategory db nameText passive active unitText okPressed ok).db = db ∧
      (MainWindow.onAddCategory db nameText passive active unitText okPressed ok).ret = none) ∧
    ((∀ r ∈ db.categories, r.name ≠ "") →
      ∀ r ∈ (MainWindow.onAddCategory db nameText passive active unitText okPressed
        ok).db.categories, r.name ≠ "") := by
  constructor
  · intro he
    have hv : CategoryDialog.validateInputs ⟨nameText, passive, active, unitText, -1⟩ = false := by
      unfold CategoryDialog.validateInputs
      rw [he]
      rfl
    simp [MainWindow.onAddCategory, hv]
  · intro hall r hr
    unfold MainWindow.onAddCategory at hr
    dsimp only at hr
    split at hr
    · rename_i hcond
      have hv : CategoryDialog.validateInputs ⟨nameText, passive, active, unitText, -1⟩ = true := by
        cases okPressed <;> simp_all
      have hne := validateInputs_name_ne _ hv
      rcases addCategory_db_cases db
        (CategoryDialog.getCategory ⟨nameText, passive, active, unitText, -1⟩) ok with
        ⟨h, _⟩ | ⟨_, _, _, h⟩
      · rw [h] at hr
        exact hall r hr
      · rw [h] at hr
        rcases List.mem_append.mp hr with hr | hr
        · exact hall r hr
        · simp only [List.mem_singleton] at hr
          rw [hr]
          exact hne
    · exact hall r hr

/-- Witness of the amended claim C11: a name of two blanks entered in the dialog leaves the
seeded database as it is, and no seeded category has an empty name. -/
theorem onAddCategory_name_nonempty_witness :
    (MainWindow.onAddCategory seeded "  " false true "" true true).db = seeded ∧
    ∀ r ∈ (MainWindow.onAddCategory seeded " Relay " false true "" true true).db.categories,
      r.name ≠ "" :=
  ⟨((onAddCategory_name_nonempty seeded "  " false true "" true true).1 (by decide)).1,
    (onAddCategory_name_nonempty seeded " Relay " false true "" true true).2 (by decide)⟩

/-- Claim C12 fails as stated: `updateCategory` with the id 77, which no seeded category
has, returns true. -/
theorem updateCategory_unknown_id_accepted :
    (∀ r ∈ seeded.categories, r.id ≠ 77) ∧
    (updateCategory seeded ⟨77, "Relay", false, true, ""⟩ true).ret = true :=
  ⟨by decide, by decide⟩

theorem map_id_of_forall {α : Type} (f : α → α) :
    ∀ l : List α, (∀ x ∈ l, f x = x) → l.map f = l
  | [], _ => rfl
  | x :: xs, h => by
    rw [List.map_cons, h x (List.mem_cons_self _ _),
      map_id_of_forall f xs (fun y hy => h y (List.mem_cons_of_mem _ hy))]

/-- Claim C12, as the code behaves. `updateCategory` with an id that no category has leaves
the database unchanged; it returns true when the id is not negative and the statement
executes (the `UPDATE` matches no row and succeeds), and false otherwise. -/
theorem updateCategory_unknown_id (db : Database) (c : CategoryInfo) (ok : Bool)
    (hnone : ∀ r ∈ db.categories, r.id ≠ c.id) :
    (updateCategory db c ok).db = db ∧
    ((updateCategory db c ok).ret = true ↔ (0 ≤ c.id ∧ ok = true)) := by
  have hany : db.categories.any (fun r => decide (r.id = c.id)) = false := by
    rw [List.any_eq_false]
    intro r hr
    simpa using hnone r hr
  have hmap : db.categories.map (fun r =>
      if r.id = c.id then
        { r with name := c.name,
                 is_passive := if c.isPassive then 1 else 0,
                 is_active := if c.isActive then 1 else 0,
                 default_unit := c.defaultUnit }
      else r) = db.categories := by
    apply map_id_of_forall
    intro r hr
    rw [if_neg (hnone r hr)]
  by_cases hid : c.id < 0
  · have : ¬ 0 ≤ c.id := by omega
    simp [updateCategory, hid, this]
  · have h0 : 0 ≤ c.id := by omega
    cases ok with
    | false => simp [updateCategory, hid]
    | true =>
      simp only [updateCategory, hid, if_false, hany, Bool.false_and, Bool.not_false,
        Bool.and_self, if_true, hmap, h0, and_self, iff_true]

/-- Witness of the amended claim C12 on the seeded database. -/
theorem updateCategory_unknown_id_witness :
    (updateCategory seeded ⟨77, "Relay", false, true, ""⟩ true).db = seeded :=
  (updateCategory_unknown_id seeded ⟨77, "Relay", false, true, ""⟩ true (by decide)).1

/-- Claim C13 is not met by the code: on the seeded database `updateCategory` with the id 1
of the system category `Resistor` and the name `Res` returns true, and row 1, still a
system row, is named `Res` afterwards. -/
theorem updateCategory_renames_system :
    (⟨1, "Resistor", 1, 0, "Ω", 1⟩ : CategoryRow) ∈ seeded.categories ∧
    (updateCategory seeded ⟨1, "Res", true, false, "Ω"⟩ true).ret = true ∧
    (⟨1, "Res", 1, 0, "Ω", 1⟩ : CategoryRow) ∈
      (updateCategory seeded ⟨1, "Res", true, false, "Ω"⟩ true).db.categories :=
  ⟨by decide, by decide, by decide⟩

theorem addCategory_new_row (db : Database) (c : CategoryInfo) (ok : Bool) :
    ∀ r ∈ (addCategory db c ok).db.categories, r ∈ db.categories ∨ r.is_system = 0 := by
  intro r hr
  rcases addCategory_db_cases db c ok with ⟨h, _⟩ | ⟨_, _, _, h⟩
  · rw [h] at hr
    exact Or.inl hr
  · rw [h] at hr
    rcases List.mem_append.mp hr with hr | hr
    · exact Or.inl hr
    · simp only [List.mem_singleton] at hr
      right
      rw [hr]

theorem updateCategory_keeps_flags (db : Database) (c : CategoryInfo) (ok : Bool) :
    (updateCategory db c ok).db.categories.map (fun r => (r.id, r.is_system)) =
      db.categories.map (fun r => (r.id, r.is_system)) := by
  rcases updateCategory_db_cases db c ok with ⟨h, _⟩ | ⟨_, _, _, _, h⟩
  · rw [h]
  · rw [h]
    show List.map (fun r : CategoryRow => (r.id, r.is_system)) (List.map _ db.categories) = _
    rw [List.map_map]
    apply List.map_congr_left
    intro r _
    simp only [Function.comp]
    split <;> rfl

theorem deleteCategory_keeps_system_rows (db : Database) (id : Int) (ok : Nat → Bool)
    (hU : db.KeysUnique) :
    ∀ r ∈ db.categories, r.is_system ≠ 0 → r ∈ (deleteCategory db id ok).db.categories := by
  intro r hr hsys
  rcases deleteCategory_db_cases db id ok with h | ⟨_, h⟩ | ⟨_, hc, _, h⟩
  · rw [h]; exact hr
  · rw [h]; exact hr
  · rw [h]
    obtain ⟨x, hfind, hx⟩ := canDeleteCategory_true db id (ok 0) hc
    refine List.mem_filter.mpr ⟨hr, ?_⟩
    have hne : r.id ≠ id := by
      intro hid
      have hfr := find?_byId db r hU hr
      rw [hid, hfind] at hfr
      exact hsys ((Option.some.inj hfr) ▸ hx)
    simpa using hne

/-- Claim C14. In every state reachable from the seeded database by calls of the store (the
three category operations, and the component operations as well), the rows with `is_system`
not 0 are those of the ids 1 to 8, in this order, and `is_system` is 0 or 1 in every row.
In such a state `addCategory` adds at most a row with `is_system` 0, `updateCategory` leaves
the id and `is_system` of every row as they are, and `deleteCategory` removes no system
row. -/
theorem system_rows_invariant (db : Database) (hr : Reachable seeded db) :
    (db.systemIds = [1, 2, 3, 4, 5, 6, 7, 8] ∧
      ∀ r ∈ db.categories, r.is_system = 0 ∨ r.is_system = 1) ∧
    (∀ c ok, ∀ r ∈ (addCategory db c ok).db.categories,
      r ∈ db.categories ∨ r.is_system = 0) ∧
    (∀ c ok, (updateCategory db c ok).db.categories.map (fun r => (r.id, r.is_system)) =
      db.categories.map (fun r => (r.id, r.is_system))) ∧
    (∀ id ok, ∀ r ∈ db.categories, r.is_system ≠ 0 →
      r ∈ (deleteCategory db id ok).db.categories) :=
  have h := reachable_systemSeeded seeded db hr seeded_keysUnique seeded_systemSeeded
  ⟨h.2, addCategory_new_row db, updateCategory_keeps_flags db,
    fun id ok => deleteCategory_keeps_system_rows db id ok h.1⟩

/-- Witness of claim C14: the state after `Relay` has been added and deleted again. -/
theorem system_rows_invariant_witness :
    (deleteCategory relayDb 9 (fun _ => true)).db.systemIds = [1, 2, 3, 4, 5, 6, 7, 8] :=
  (system_rows_invariant (deleteCategory relayDb 9 (fun _ => true)).db
    (reachable_relayDb.tail (Step.deleteCategory relayDb 9 (fun _ => true)))).1.1

/-- Claim C15 fails as stated for the store: after `updateCategory` has renamed the system
row 8 from `Other` to `Misc` and `addCategory` has created a user category `Other` (id 9),
`deleteCategory` of 9 returns true and no category named `Other` is left. -/
theorem deleteCategory_other_deleted :
    (updateCategory seeded ⟨8, "Misc", false, false, ""⟩ true).ret = true ∧
    (addCategory (updateCategory seeded ⟨8, "Misc", false, false, ""⟩ true).db
      ⟨-1, "Other", false, false, ""⟩ true).ret = 9 ∧
    (deleteCategory
      (addCategory (updateCategory seeded ⟨8, "Misc", false, false, ""⟩ true).db
        ⟨-1, "Other", false, false, ""⟩ true).db 9 (fun _ => true)).ret = true ∧
    ∀ r ∈ (deleteCategory
      (addCategory (updateCategory seeded ⟨8, "Misc", false, false, ""⟩ true).db
        ⟨-1, "Other", false, false, ""⟩ true).db 9 (fun _ => true)).db.categories,
      r.name ≠ "Other" :=
  ⟨by decide, by decide, by decide, by decide⟩

/-! ### The category Other -/

theorem step_of_stepGuarded (db db1 : Database) (h : StepGuarded db db1) : Step db db1 := by
  cases h with
  | addCategory c ok => exact Step.addCategory db c ok
  | updateCategory c ok _ => exact Step.updateCategory db c ok
  | deleteCategory id ok => exact Step.deleteCategory db id ok
  | addComponent c ok => exact Step.addComponent db c ok
  | updateComponent c ok => exact Step.updateComponent db c ok
  | deleteComponent id ok => exact Step.deleteComponent db id ok

theorem reachable_of_reachableGuarded (db0 db : Database) (h : ReachableGuarded db0 db) :
    Reachable db0 db :=
  Relation.ReflTransGen.mono (fun a b hab => step_of_stepGuarded a b hab) h

/-- A system row stays as it is under every call that is not an `updateCategory` of its
id. -/
theorem stepGuarded_keeps_system_row (db db1 : Database) (h : StepGuarded db db1)
    (hU : db.KeysUnique) (X : CategoryRow) (hX : X ∈ db.categories) (hsys : X.is_system ≠ 0) :
    X ∈ db1.categories := by
  cases h with
  | addCategory c ok =>
    rcases addCategory_db_cases db c ok with ⟨h1, _⟩ | ⟨_, _, _, h1⟩
    · rw [h1]; exact hX
    · rw [h1]; exact List.mem_append_left _ hX
  | updateCategory c ok hg =>
    rcases updateCategory_db_cases db c ok with ⟨h1, _⟩ | ⟨_, _, _, _, h1⟩
    · rw [h1]; exact hX
    · rw [h1]
      have hne : X.id ≠ c.id := fun he => hsys (hg X hX he)
      refine List.mem_map.mpr ⟨X, hX, ?_⟩
      simp [hne]
  | deleteCategory id ok => exact deleteCategory_keeps_system_rows db id ok hU X hX hsys
  | addComponent c ok => rw [addComponent_categories]; exact hX
  | updateComponent c ok => rw [updateComponent_categories]; exact hX
  | deleteComponent id ok => rw [deleteComponent_categories]; exact hX

/-- The seeded row of `Other` is in every state reached without renaming a system row. -/
theorem reachableGuarded_otherRow (db : Database) (h : ReachableGuarded seeded db) :
    otherRow ∈ db.categories := by
  induction h with
  | refl => decide
  | tail hab hbc ih =>
    exact stepGuarded_keeps_system_row _ _ hbc
      (reachable_keysUnique seeded _ (reachable_of_reachableGuarded _ _ hab) seeded_keysUnique)
      otherRow ih (by decide)

/-- A system row is refused by `deleteCategory` whatever its statements do. -/
theorem deleteCategory_refuses_system (db : Database) (X : CategoryRow) (ok : Nat → Bool)
    (hU : db.KeysUnique) (hX : X ∈ db.categories) (hsys : X.is_system ≠ 0) :
    (deleteCategory db X.id ok).ret = false ∧ (deleteCategory db X.id ok).db = db := by
  have hc : canDeleteCategory db X.id (ok 0) = false := by
    cases h0 : ok 0 with
    | false => rfl
    | true =>
      rw [canDeleteCategory_of_mem db X hU hX]
      simpa using hsys
  simp [deleteCategory, hc]

/-- Claim C15, amended. In every state reached from the seeded database by calls of the store
among which no `updateCategory` is applied to the id of a system category, the seeded row of
`Other` (id 8) is present unchanged, every category named `Other` is that row, and
`deleteCategory` applied to its id returns false and leaves the database as it is, whatever
its statements do. In every state reached by any calls of the store, the row of id 8 is
still a system row, and `deleteCategory` refuses every system row. -/
theorem deleteCategory_other_refused (db : Database) :
    (ReachableGuarded seeded db →
      otherRow ∈ db.categories ∧
      ∀ r ∈ db.categories, r.name = "Other" →
        r = otherRow ∧
        ∀ ok, (deleteCategory db r.id ok).ret = false ∧ (deleteCategory db r.id ok).db = db) ∧
    (Reachable seeded db →
      (∃ r ∈ db.categories, r.id = 8 ∧ r.is_system = 1) ∧
      ∀ r ∈ db.categories, r.is_system ≠ 0 →
        ∀ ok, (deleteCategory db r.id ok).ret = false ∧ (deleteCategory db r.id ok).db = db) := by
  constructor
  · intro hg
    have hU := reachable_keysUnique seeded db (reachable_of_reachableGuarded _ _ hg)
      seeded_keysUnique
    have ho := reachableGuarded_otherRow db hg
    refine ⟨ho, fun r hr hn => ?_⟩
    have hro : r = otherRow := by
      have h1 := find?_byName db r "Other" hU hr hn
      have h2 := find?_byName db otherRow "Other" hU ho rfl
      rw [h1] at h2
      exact Option.some.inj h2
    refine ⟨hro, fun ok => ?_⟩
    exact deleteCategory_refuses_system db r ok hU hr (by rw [hro]; decide)
  · intro hr
    obtain ⟨hU, hS⟩ := reachable_systemSeeded seeded db hr seeded_keysUnique seeded_systemSeeded
    constructor
    · have h8 : (8 : Int) ∈ db.systemIds := by rw [hS.1]; decide
      unfold Database.systemIds at h8
      obtain ⟨r, hrf, hid⟩ := List.mem_map.mp h8
      have hrm := List.mem_filter.mp hrf
      have hsys : r.is_system ≠ 0 := by simpa using hrm.2
      refine ⟨r, hrm.1, hid, ?_⟩
      rcases hS.2 r hrm.1 with h0 | h1
      · exact absurd h0 hsys
      · exact h1
    · intro r hrm hsys ok
      exact deleteCategory_refuses_system db r ok hU hrm hsys

/-- The store with the relays is reached without an `updateCategory`. -/
theorem reachableGuarded_relayDb : ReachableGuarded seeded relayDb :=
  (((((Relation.ReflTransGen.single
    (StepGuarded.addComponent seeded (some (Component.passive sampleResistor)) true)).tail
    (StepGuarded.addComponent _ (some (Component.active sampleIC)) true)).tail
    (StepGuarded.addCategory stocked relayCategory true)).tail
    (StepGuarded.addComponent _
      (some (Component.active ⟨-1, "G5LE-1", "Omron", 20, "Relay", 5, 5, ""⟩)) true)).tail
    (StepGuarded.addComponent _
      (some (Component.active ⟨-1, "G2R-2", "Omron", 4, "Relay", 12, 8, ""⟩)) true)).tail
    (StepGuarded.addComponent _
      (some (Component.passive ⟨-1, "FUSE-1A", "Littelfuse", 30, "Other", 1, "A", "5x20"⟩))
      true)

/-- Witness of the amended claim C15: in the store with the relays the row of `Other` is
present and `deleteCategory` of its id 8 is refused; and after the rename of the
counterexample the row of id 8 is still a system row that `deleteCategory` refuses. -/
theorem deleteCategory_other_refused_witness :
    (otherRow ∈ relayDb.categories ∧
      ∀ r ∈ relayDb.categories, r.name = "Other" →
        r = otherRow ∧
        ∀ ok, (deleteCategory relayDb r.id ok).ret = false ∧
          (deleteCategory relayDb r.id ok).db = relayDb) ∧
    ((∃ r ∈ (updateCategory seeded ⟨8, "Misc", false, false, ""⟩ true).db.categories,
        r.id = 8 ∧ r.is_system = 1) ∧
      ∀ r ∈ (updateCategory seeded ⟨8, "Misc", false, false, ""⟩ true).db.categories,
        r.is_system ≠ 0 →
        ∀ ok, (deleteCategory (updateCategory seeded ⟨8, "Misc", false, false, ""⟩ true).db
            r.id ok).ret = false ∧
          (deleteCategory (updateCategory seeded ⟨8, "Misc", false, false, ""⟩ true).db
            r.id ok).db = (updateCategory seeded ⟨8, "Misc", false, false, ""⟩ true).db) :=
  ⟨(deleteCategory_other_refused relayDb).1 reachableGuarded_relayDb,
   (deleteCategory_other_refused _).2
     (Relation.ReflTransGen.single
       (Step.updateCategory seeded ⟨8, "Misc", false, false, ""⟩ true))⟩

/-- Claim C16 fails as stated: `addComponent` stores a component of the category `Relay` in
the seeded database, which has no category of that name. -/
theorem addComponent_unknown_category :
    Reachable seeded (addComponent seeded
      (some (Component.active ⟨-1, "G5LE-1", "Omron", 20, "Relay", 5, 5, ""⟩)) true).db ∧
    ¬ (addComponent seeded
      (some (Component.active ⟨-1, "G5LE-1", "Omron", 20, "Relay", 5, 5, ""⟩))
      true).db.TypesResolve :=
  ⟨Relation.ReflTransGen.single (Step.addComponent seeded _ true), by decide⟩

/-! ### Types of components and names of categories -/

theorem addCategory_typesResolve (db : Database) (c : CategoryInfo) (ok : Bool)
    (hT : db.TypesResolve) : (addCategory db c ok).db.TypesResolve := by
  rcases addCategory_db_cases db c ok with ⟨h, _⟩ | ⟨_, _, _, h⟩
  · rw [h]; exact hT
  · rw [h]
    intro r hr
    obtain ⟨cat, hcat, hn⟩ := hT r hr
    exact ⟨cat, List.mem_append_left _ hcat, hn⟩

theorem deleteComponent_typesResolve (db : Database) (id : Int) (ok : Bool)
    (hT : db.TypesResolve) : (deleteComponent db id ok).db.TypesResolve := by
  cases ok with
  | false => exact hT
  | true =>
    intro r hr
    exact hT r (List.mem_of_mem_filter hr)

theorem addComponent_typesResolve (db : Database) (comp : Component) (ok : Bool)
    (hT : db.TypesResolve) (hcat : ∃ cat ∈ db.categories, cat.name = comp.getType) :
    (addComponent db (some comp) ok).db.TypesResolve := by
  cases ok with
  | false => exact hT
  | true =>
    intro r hr
    have hr' : r ∈ db.inventory ++ [⟨nextRowId db.inventorySeq (db.inventory.map (fun r => r.id)),
        comp.getName, comp.getManufacturer, comp.getType, comp.getQuantity, comp.getParam1,
        comp.getParam2, extraData comp⟩] := hr
    rcases List.mem_append.mp hr' with h | h
    · exact hT r h
    · simp only [List.mem_singleton] at h
      rw [h]
      exact hcat

theorem updateComponent_typesResolve (db : Database) (comp : Component) (ok : Bool)
    (hT : db.TypesResolve) (hcat : ∃ cat ∈ db.categories, cat.name = comp.getType) :
    (updateComponent db (some comp) ok).db.TypesResolve := by
  by_cases hid : comp.getId < 0
  · have h : (updateComponent db (some comp) ok).db = db := by simp [updateComponent, hid]
    rw [h]; exact hT
  · cases ok with
    | false =>
      have h : (updateComponent db (some comp) false).db = db := by
        simp [updateComponent, hid]
      rw [h]; exact hT
    | true =>
      have h : (updateComponent db (some comp) true).db =
          { db with inventory := db.inventory.map (fun r =>
              if r.id = comp.getId then
                ⟨r.id, comp.getName, comp.getManufacturer, comp.getType, comp.getQuantity,
                  comp.getParam1, comp.getParam2, extraData comp⟩
              else r) } := by
        simp [updateComponent, hid]
      rw [h]
      intro r hr
      obtain ⟨x, hx, rfl⟩ := List.mem_map.mp hr
      split
      · exact hcat
      · exact hT x hx

theorem updateCategory_typesResolve (db : Database) (c : CategoryInfo) (ok : Bool)
    (hT : db.TypesResolve) (hkeep : ∀ r ∈ db.categories, r.id = c.id → r.name = c.name) :
    (updateCategory db c ok).db.TypesResolve := by
  rcases updateCategory_db_cases db c ok with ⟨h, _⟩ | ⟨_, _, _, _, h⟩
  · rw [h]; exact hT
  · rw [h]
    intro r hr
    obtain ⟨cat, hcat, hn⟩ := hT r hr
    refine ⟨_, List.mem_map_of_mem _ hcat, ?_⟩
    dsimp only
    split
    · rename_i hid
      exact (hkeep cat hcat hid).symm.trans hn
    · exact hn

theorem reassign_typesResolve (db : Database) (name : String) (hT : db.TypesResolve)
    (hother : ∃ o ∈ db.categories, o.name = "Other") :
    ({ db with inventory := reassignToOther db.inventory name } : Database).TypesResolve := by
  intro r hr
  obtain ⟨x, hx, rfl⟩ := List.mem_map.mp hr
  split
  · exact hother
  · exact hT x hx

theorem deleteCategory_typesResolve (db : Database) (id : Int) (ok : Nat → Bool)
    (hU : db.KeysUnique) (hT : db.TypesResolve)
    (hother : ∃ o ∈ db.categories, o.name = "Other" ∧ o.id ≠ id) :
    (deleteCategory db id ok).db.TypesResolve := by
  obtain ⟨o, ho, hon, hoid⟩ := hother
  rcases deleteCategory_db_cases db id ok with h | ⟨_, h⟩ | ⟨_, _, hv, h⟩
  · rw [h]; exact hT
  · rw [h]; exact reassign_typesResolve db _ hT ⟨o, ho, hon⟩
  · rw [h]
    have h1 : ok 1 = true := by
      cases h1 : ok 1 with
      | true => rfl
      | false =>
        rw [h1, fetchCategory_failed_isValid] at hv
        exact absurd hv (by decide)
    intro r hr
    obtain ⟨x, hx, rfl⟩ := List.mem_map.mp hr
    split
    · exact ⟨o, List.mem_filter.mpr ⟨ho, by simpa using hoid⟩, hon⟩
    · rename_i hne
      obtain ⟨cat, hcat, hn⟩ := hT x hx
      refine ⟨cat, List.mem_filter.mpr ⟨hcat, ?_⟩, hn⟩
      have hcid : cat.id ≠ id := by
        intro hid
        apply hne
        rw [h1, ← hid, fetchCategory_of_mem db cat hU hcat]
        exact hn.symm
      simpa using hcid

/-- Claim C16, as the code behaves. The store does not check the category of a component;
what it keeps is this: when every inventory row has as type the name of a category, this
still holds after `addCategory`, after `deleteComponent`, after `addComponent` or
`updateComponent` of a component whose category names an existing category, after
`updateCategory` that keeps the name of the row it updates, and after `deleteCategory`
while a category `Other` exists besides the deleted one. -/
theorem typesResolve_preserved (db : Database) (hU : db.KeysUnique) (hT : db.TypesResolve) :
    (∀ c ok, (addCategory db c ok).db.TypesResolve) ∧
    (∀ id ok, (deleteComponent db id ok).db.TypesResolve) ∧
    (∀ comp ok, (∃ cat ∈ db.categories, cat.name = comp.getType) →
      (addComponent db (some comp) ok).db.TypesResolve ∧
      (updateComponent db (some comp) ok).db.TypesResolve) ∧
    (∀ c ok, (∀ r ∈ db.categories, r.id = c.id → r.name = c.name) →
      (updateCategory db c ok).db.TypesResolve) ∧
    (∀ id ok, (∃ o ∈ db.categories, o.name = "Other" ∧ o.id ≠ id) →
      (deleteCategory db id ok).db.TypesResolve) :=
  ⟨fun c ok => addCategory_typesResolve db c ok hT,
    fun id ok => deleteComponent_typesResolve db id ok hT,
    fun comp ok hcat => ⟨addComponent_typesResolve db comp ok hT hcat,
      updateComponent_typesResolve db comp ok hT hcat⟩,
    fun c ok hkeep => updateCategory_typesResolve db c ok hT hkeep,
    fun id ok hother => deleteCategory_typesResolve db id ok hU hT hother⟩

/-- Witness of the amended claim C16: deleting the user category `Relay` (id 9), whose two
components go to `Other` (id 8), keeps every type resolved. -/
theorem typesResolve_preserved_witness :
    (deleteCategory relayDb 9 (fun _ => true)).db.TypesResolve :=
  (typesResolve_preserved relayDb (by decide) (by decide)).2.2.2.2 9 (fun _ => true)
    ⟨⟨8, "Other", 0, 0, "", 1⟩, by decide, by decide, by decide⟩

/-- Claim C17. Category names stay unique: in every state reachable from a database that
satisfies the key constraints no two categories have the same name, and `updateCategory`
that would give a category the name of a category of another id returns false and leaves
the database unchanged. -/
theorem category_names_unique (db0 db : Database) (hU : db0.KeysUnique)
    (hr : Reachable db0 db) :
    (db.categories.map (fun r => r.name)).Nodup ∧
    ∀ (c : CategoryInfo) (ok : Bool) (t o : CategoryRow), t ∈ db.categories → t.id = c.id →
      o ∈ db.categories → o.id ≠ c.id → o.name = c.name →
      (updateCategory db c ok).ret = false ∧ (updateCategory db c ok).db = db := by
  refine ⟨(reachable_keysUnique db0 db hr hU).2, ?_⟩
  intro c ok t o ht hti ho hoi hon
  rcases updateCategory_db_cases db c ok with ⟨h, hret⟩ | ⟨_, _, _, hname, _⟩
  · exact ⟨hret, h⟩
  · exact absurd hon (hname ⟨t, ht, hti⟩ o ho hoi)

/-- Witness of claim C17: in the state with the user category `Relay`, renaming `Relay`
(id 9) to `Diode` is refused. -/
theorem category_names_unique_witness :
    (relayDb.categories.map (fun r => r.name)).Nodup ∧
    (updateCategory relayDb ⟨9, "Diode", false, true, ""⟩ true).ret = false ∧
    (updateCategory relayDb ⟨9, "Diode", false, true, ""⟩ true).db = relayDb :=
  have h := category_names_unique seeded relayDb (by decide) reachable_relayDb
  ⟨h.1, h.2 ⟨9, "Diode", false, true, ""⟩ true ⟨9, "Relay", 0, 1, "", 0⟩
    ⟨6, "Diode", 0, 1, "", 1⟩ (by decide) rfl (by decide) (by decide) rfl⟩

/-! ### The operator `LIKE` on a literal search term -/

theorem like_nil (t : List Char) : like [] t = true ↔ t = [] := by
  cases t <;> simp [like]

theorem like_percent (ps t : List Char) :
    like ('%' :: ps) t = true ↔ ∃ pre rest, t = pre ++ rest ∧ like ps rest = true := by
  simp only [like, if_true, List.any_eq_true, List.mem_tails]
  constructor
  · rintro ⟨rest, ⟨pre, rfl⟩, h⟩
    exact ⟨pre, rest, rfl, h⟩
  · rintro ⟨pre, rest, rfl, h⟩
    exact ⟨rest, ⟨pre, rfl⟩, h⟩

theorem like_literal_cons (p : Char) (ps t : List Char) (h1 : p ≠ '%') (h2 : p ≠ '_') :
    like (p :: ps) t = true ↔
      ∃ c cs, t = c :: cs ∧ p.toLower = c.toLower ∧ like ps cs = true := by
  cases t with
  | nil => simp [like, h1]
  | cons c cs =>
    simp only [like, h1, h2, if_false, decide_False, Bool.false_or, Bool.and_eq_true,
      decide_eq_true_eq]
    constructor
    · rintro ⟨hc, h⟩
      exact ⟨c, cs, rfl, hc, h⟩
    · rintro ⟨c1, cs1, he, hc, h⟩
      obtain ⟨rfl, rfl⟩ := List.cons.inj he
      exact ⟨hc, h⟩

/-- A pattern that starts with literal characters matches a text exactly when the text
starts with these characters, up to the case of letters, and the rest of the pattern matches
the rest of the text. -/
theorem like_literal_append (q : List Char) :
    ∀ (s t : List Char), (∀ c ∈ s, c ≠ '%' ∧ c ≠ '_') →
      (like (s ++ q) t = true ↔
        ∃ mid rest, t = mid ++ rest ∧ mid.map Char.toLower = s.map Char.toLower ∧
          like q rest = true)
  | [], t, _ => by
    constructor
    · intro h
      exact ⟨[], t, rfl, rfl, h⟩
    · rintro ⟨mid, rest, rfl, hm, h⟩
      have : mid = [] := by simpa using hm
      subst this
      exact h
  | p :: ps, t, hs => by
    have hp := hs p (List.mem_cons_self _ _)
    have ih := like_literal_append q ps
    rw [List.cons_append, like_literal_cons p (ps ++ q) t hp.1 hp.2]
    constructor
    · rintro ⟨c, cs, rfl, hc, h⟩
      obtain ⟨mid, rest, rfl, hm, hq⟩ :=
        (ih cs (fun x hx => hs x (List.mem_cons_of_mem _ hx))).mp h
      exact ⟨c :: mid, rest, rfl, by simp [hm, hc], hq⟩
    · rintro ⟨mid, rest, rfl, hm, hq⟩
      cases mid with
      | nil => simp at hm
      | cons c mid =>
        simp only [List.map_cons, List.cons.injEq] at hm
        exact ⟨c, mid ++ rest, rfl, hm.1.symm,
          (ih (mid ++ rest) (fun x hx => hs x (List.mem_cons_of_mem _ hx))).mpr
            ⟨mid, rest, rfl, hm.2, hq⟩⟩

theorem like_percent_only (t : List Char) : like ['%'] t = true :=
  (like_percent [] t).mpr ⟨t, [], by simp, (like_nil []).mpr rfl⟩

/-- For a search term without `%` and `_`, the pattern of `searchByName` matches a name
exactly when the term occurs in the name, letters compared without regard to case. -/
theorem like_contains (s t : List Char) (hs : ∀ c ∈ s, c ≠ '%' ∧ c ≠ '_') :
    like ('%' :: (s ++ ['%'])) t = true ↔ s.map Char.toLower <:+: t.map Char.toLower := by
  rw [like_percent]
  constructor
  · rintro ⟨pre, rest, rfl, h⟩
    obtain ⟨mid, post, rfl, hm, _⟩ := (like_literal_append ['%'] s rest hs).mp h
    exact ⟨pre.map Char.toLower, post.map Char.toLower, by simp [hm]⟩
  · rintro ⟨a, b, hab⟩
    obtain ⟨l1, post, rfl, h1, hpost⟩ := List.map_eq_append_iff.mp hab.symm
    obtain ⟨pre, mid, rfl, hpre, hmid⟩ := List.map_eq_append_iff.mp h1
    exact ⟨pre, mid ++ post, by simp,
      (like_literal_append ['%'] s (mid ++ post) hs).mpr
        ⟨mid, post, rfl, hmid, like_percent_only post⟩⟩

theorem searchPattern_toList (s : String) :
    ("%" ++ s ++ "%").toList = '%' :: (s.toList ++ ['%']) := by
  simp [String.toList, String.data_append]

theorem like_searchPattern (s name : String) (hs : ∀ c ∈ s.toList, c ≠ '%' ∧ c ≠ '_') :
    like (("%" ++ s ++ "%").toList) name.toList = true ↔ containsIgnoreCase s name := by
  rw [searchPattern_toList, like_contains s.toList name.toList hs]
  rfl

/-! ### The list queries -/

theorem hydrateComponent_common (db : Database) (row : InventoryRow) (ok : Bool)
    (c : Component) (h : hydrateComponent db row ok = some c) : c.common = row.common := by
  unfold hydrateComponent at h
  dsimp only at h
  split at h
  · cases h; rfl
  · split at h <;> (cases h; rfl)

theorem hydrateRows_map {β : Type} (db : Database) (ok : Nat → Bool) (g : Component → β)
    (f : InventoryRow → β)
    (hgf : ∀ row b c, hydrateComponent db row b = some c → g c = f row) :
    ∀ (rows : List InventoryRow) (k : Nat), (hydrateRows db ok k rows).map g = rows.map f
  | [], _ => rfl
  | row :: rows, k => by
    obtain ⟨c, hc⟩ := hydrate_isSome db row (ok k)
    simp only [hydrateRows, hc, List.map_cons, hgf row (ok k) c hc,
      hydrateRows_map db ok g f hgf rows (k + 1)]

theorem hydrateRows_common (db : Database) (ok : Nat → Bool) (rows : List InventoryRow)
    (k : Nat) : (hydrateRows db ok k rows).map Component.common = rows.map InventoryRow.common :=
  hydrateRows_map db ok _ _ (fun row b c h => hydrateComponent_common db row b c h) rows k

theorem hydrateRows_quantity (db : Database) (ok : Nat → Bool) (rows : List InventoryRow)
    (k : Nat) :
    (hydrateRows db ok k rows).map Component.getQuantity = rows.map (fun r => r.quantity) :=
  hydrateRows_map db ok _ _
    (fun row b c h => congrArg (fun t => t.2.2.2.1) (hydrateComponent_common db row b c h))
    rows k

theorem hydrateRows_name (db : Database) (ok : Nat → Bool) (rows : List InventoryRow)
    (k : Nat) :
    (hydrateRows db ok k rows).map Component.getName = rows.map (fun r => r.name) :=
  hydrateRows_map db ok _ _
    (fun row b c h => congrArg (fun t => t.2.1) (hydrateComponent_common db row b c h))
    rows k

/-- Claim C18. When its query executes, `fetchLowStock` of a threshold T returns exactly the
components of the rows with quantity below T, each once (the common fields of the result
are a permutation of those of these rows), none with quantity T or more, in non-decreasing
order of quantity. -/
theorem fetchLowStock_exact (db : Database) (T : Int) (ok : Nat → Bool)
    (hsel : ok 0 = true) :
    ((fetchLowStock db T ok).map Component.common).Perm
      ((db.inventory.filter (fun r => r.quantity < T)).map InventoryRow.common) ∧
    (∀ c ∈ fetchLowStock db T ok, c.getQuantity < T) ∧
    ((fetchLowStock db T ok).map Component.getQuantity).Sorted (fun a b => a ≤ b) := by
  have hperm := List.perm_insertionSort (fun a b : InventoryRow => a.quantity ≤ b.quantity)
    (db.inventory.filter (fun r => r.quantity < T))
  have hsorted := @List.sorted_insertionSort InventoryRow
    (fun a b => a.quantity ≤ b.quantity) _
    ⟨fun a b => le_total a.quantity b.quantity⟩ ⟨fun _ _ _ h1 h2 => le_trans h1 h2⟩
    (db.inventory.filter (fun r => r.quantity < T))
  unfold fetchLowStock
  rw [hsel, if_pos rfl]
  refine ⟨?_, ?_, ?_⟩
  · rw [hydrateRows_common]
    exact hperm.map _
  · intro c hc
    have hq : c.getQuantity ∈ (hydrateRows db ok 1
        ((db.inventory.filter (fun r => r.quantity < T)).insertionSort
          (fun a b => a.quantity ≤ b.quantity))).map Component.getQuantity :=
      List.mem_map_of_mem _ hc
    rw [hydrateRows_quantity] at hq
    obtain ⟨r, hr, hrq⟩ := List.mem_map.mp hq
    have hr' := List.mem_filter.mp (hperm.mem_iff.mp hr)
    rw [← hrq]
    simpa using hr'.2
  · rw [hydrateRows_quantity]
    exact List.pairwise_map.mpr hsorted

/-- Witness of claim C18: with threshold 21 the database with the relays gives the parts
below 21 in stock, ordered by quantity. -/
theorem fetchLowStock_exact_witness :
    ((fetchLowStock relayDb 21 (fun _ => true)).map Component.common).Perm
      ((relayDb.inventory.filter (fun r => r.quantity < 21)).map InventoryRow.common) ∧
    ((fetchLowStock relayDb 21 (fun _ => true)).map Component.getQuantity).Sorted
      (fun a b => a ≤ b) :=
  have h := fetchLowStock_exact relayDb 21 (fun _ => true) rfl
  ⟨h.1, h.2.2⟩

/-- Claim C19 fails as stated, in two ways. On the database holding `RES-10R-0805` and
`CAP-100nF-0805` the search for the one character `_` returns both components although
neither name contains that character; and the search for `rés` does not return the
component `RÉS-10K`, whose name contains it under case-insensitive comparison. -/
theorem searchByName_wildcard :
    ((searchByName searchDb "_" (fun _ => true)).map Component.getName =
        ["CAP-100nF-0805", "RES-10R-0805"] ∧
      ¬ containsCaseInsensitive "_" "RES-10R-0805" ∧
      ¬ containsCaseInsensitive "_" "CAP-100nF-0805") ∧
    (accentDb.inventory.map (fun r => r.name) = ["RÉS-10K"] ∧
      searchByName accentDb "rés" (fun _ => true) = [] ∧
      containsCaseInsensitive "rés" "RÉS-10K") :=
  ⟨⟨by decide, by decide, by decide⟩, ⟨by decide, by decide, by decide⟩⟩

/-- Claim C19, as the code behaves. For every search term without the characters `%` and
`_`, when its query executes, `searchByName` returns exactly the components of the rows
whose name contains the term as a run of consecutive characters, the letters A to Z
compared without regard to case and every other character as it is, each once, ordered by
name ascending. -/
theorem searchByName_literal (db : Database) (s : String) (ok : Nat → Bool)
    (hsel : ok 0 = true) (hlit : ∀ c ∈ s.toList, c ≠ '%' ∧ c ≠ '_') :
    ((searchByName db s ok).map Component.common).Perm
      ((db.inventory.filter (fun r => containsIgnoreCase s r.name)).map
        InventoryRow.common) ∧
    (∀ c ∈ searchByName db s ok, containsIgnoreCase s c.getName) ∧
    ((searchByName db s ok).map (fun c => c.getName.toList)).Sorted (fun a b => a ≤ b) := by
  have hfilter : db.inventory.filter
      (fun r => like (("%" ++ s ++ "%").toList) r.name.toList) =
      db.inventory.filter (fun r => decide (containsIgnoreCase s r.name)) := by
    apply List.filter_congr
    intro r _
    by_cases h : containsIgnoreCase s r.name
    · rw [(like_searchPattern s r.name hlit).mpr h, decide_eq_true h]
    · have : like (("%" ++ s ++ "%").toList) r.name.toList = false := by
        cases hl : like (("%" ++ s ++ "%").toList) r.name.toList with
        | false => rfl
        | true => exact absurd ((like_searchPattern s r.name hlit).mp hl) h
      rw [this, decide_eq_false h]
  have hperm := List.perm_insertionSort
    (fun a b : InventoryRow => a.name.toList ≤ b.name.toList)
    (db.inventory.filter (fun r => decide (containsIgnoreCase s r.name)))
  have hsorted := @List.sorted_insertionSort InventoryRow
    (fun a b => a.name.toList ≤ b.name.toList) _
    ⟨fun a b => le_total a.name.toList b.name.toList⟩ ⟨fun _ _ _ h1 h2 => le_trans h1 h2⟩
    (db.inventory.filter (fun r => decide (containsIgnoreCase s r.name)))
  unfold searchByName
  rw [hsel, if_pos rfl, hfilter]
  refine ⟨?_, ?_, ?_⟩
  · rw [hydrateRows_common]
    exact hperm.map _
  · intro c hc
    have hn : c.getName ∈ (hydrateRows db ok 1
        ((db.inventory.filter (fun r => decide (containsIgnoreCase s r.name))).insertionSort
          (fun a b => a.name.toList ≤ b.name.toList))).map Component.getName :=
      List.mem_map_of_mem _ hc
    rw [hydrateRows_name] at hn
    obtain ⟨r, hr, hrn⟩ := List.mem_map.mp hn
    have hr' := List.mem_filter.mp (hperm.mem_iff.mp hr)
    rw [← hrn]
    simpa using hr'.2
  · have hmap : (hydrateRows db ok 1
        ((db.inventory.filter (fun r => decide (containsIgnoreCase s r.name))).insertionSort
          (fun a b => a.name.toList ≤ b.name.toList))).map (fun c => c.getName.toList) =
        ((db.inventory.filter (fun r => decide (containsIgnoreCase s r.name))).insertionSort
          (fun a b => a.name.toList ≤ b.name.toList)).map (fun r => r.name.toList) := by
      have := congrArg (List.map String.toList) (hydrateRows_name db ok
        ((db.inventory.filter (fun r => decide (containsIgnoreCase s r.name))).insertionSort
          (fun a b => a.name.toList ≤ b.name.toList)) 1)
      simpa [List.map_map, Function.comp] using this
    rw [hmap]
    exact List.pairwise_map.mpr hsorted

/-- Witness of the amended claim C19: the search for `res` returns `RES-10R-0805` only. -/
theorem searchByName_literal_witness :
    (searchByName searchDb "res" (fun _ => true)).map Component.getName = ["RES-10R-0805"] ∧
    ∀ c ∈ searchByName searchDb "res" (fun _ => true), containsIgnoreCase "res" c.getName :=
  ⟨by decide, (searchByName_literal searchDb "res" (fun _ => true) rfl (by decide)).2.1⟩

/-! ### Rounding to the nearest double -/

section FloatingPoint
open Double
set_option maxRecDepth 512

/-- A tie goes to the even neighbour: one half rounds to 0, three halves and five halves
round to 2. -/
theorem roundHalfEven_ties :
    roundHalfEven (1 / 2) = 0 ∧ roundHalfEven (3 / 2) = 2 ∧ roundHalfEven (5 / 2) = 2 := by
  have h1 : ⌊(1 / 2 : Rat)⌋ = 0 := by rw [Int.floor_eq_iff]; norm_num
  have h3 : ⌊(3 / 2 : Rat)⌋ = 1 := by rw [Int.floor_eq_iff]; norm_num
  have h5 : ⌊(5 / 2 : Rat)⌋ = 2 := by rw [Int.floor_eq_iff]; norm_num
  refine ⟨?_, ?_, ?_⟩
  · unfold roundHalfEven; rw [h1]; norm_num
  · unfold roundHalfEven; rw [h3]; norm_num
  · unfold roundHalfEven; rw [h5]; norm_num

/-- The rounded integer is at most one half below the number. -/
theorem roundHalfEven_ge (x : Rat) : x - 1 / 2 ≤ roundHalfEven x := by
  have h1 := Int.floor_le x
  have h2 := Int.lt_floor_add_one x
  unfold roundHalfEven
  split_ifs <;> push_cast <;> linarith

/-- The rounded integer is at most one half above the number. -/
theorem roundHalfEven_le (x : Rat) : (roundHalfEven x : Rat) ≤ x + 1 / 2 := by
  have h1 := Int.floor_le x
  have h2 := Int.lt_floor_add_one x
  unfold roundHalfEven
  split_ifs <;> push_cast <;> linarith

/-- A number above `n - 1/2` rounds to at least `n`. -/
theorem le_roundHalfEven (x : Rat) (n : Int) (h : (n : Rat) - 1 / 2 < x) :
    n ≤ roundHalfEven x := by
  have h1 := roundHalfEven_ge x
  have : (n : Rat) < roundHalfEven x + 1 := by linarith
  have : n < roundHalfEven x + 1 := by exact_mod_cast this
  omega

/-- A number below `n + 1/2` rounds to at most `n`. -/
theorem roundHalfEven_le_of (x : Rat) (n : Int) (h : x < (n : Rat) + 1 / 2) :
    roundHalfEven x ≤ n := by
  have h1 := roundHalfEven_le x
  have : (roundHalfEven x : Rat) < n + 1 := by linarith
  have : roundHalfEven x < n + 1 := by exact_mod_cast this
  omega

/-- The exponent of a number of the binade `e` of the normal range is `e`. -/
theorem exponent_eq (q : Rat) (e : Int) (he : -1022 ≤ e) (h1 : (2 : Rat) ^ e ≤ q)
    (h2 : q < (2 : Rat) ^ (e + 1)) : exponent q = e := by
  have hq : 0 < q := lt_of_lt_of_le (zpow_pos (by norm_num) e) h1
  have ha : |q| = q := abs_of_pos hq
  have hl : Int.log 2 q = e := by
    have a := (Int.zpow_le_iff_le_log (b := 2) (by norm_num) hq).mp (by exact_mod_cast h1)
    have b := (Int.lt_zpow_iff_log_lt (b := 2) (by norm_num) hq).mp (by exact_mod_cast h2)
    omega
  unfold exponent
  rw [ha, hl]
  exact max_eq_left he

/-- The nearest double of a number of the binade `e`: its quotient by the unit in the last
place `2 ^ (e - 52)`, rounded to an integer, times that unit. -/
theorem nearest_of_binade (q : Rat) (e : Int) (he : -1022 ≤ e) (h1 : (2 : Rat) ^ e ≤ q)
    (h2 : q < (2 : Rat) ^ (e + 1)) :
    nearest q = roundHalfEven (q / 2 ^ (e - 52)) * 2 ^ (e - 52) := by
  unfold nearest
  rw [exponent_eq q e he h1 h2]

/-- The nearest double of a number of the binade `e` that lies strictly within half a unit in
the last place of `m * 2 ^ (e - 52)` is that number. -/
theorem nearest_eq (q : Rat) (e m : Int) (he : -1022 ≤ e) (h1 : (2 : Rat) ^ e ≤ q)
    (h2 : q < (2 : Rat) ^ (e + 1))
    (h3 : ((2 * m - 1 : Int) : Rat) * 2 ^ (e - 52) < 2 * q)
    (h4 : 2 * q < ((2 * m + 1 : Int) : Rat) * 2 ^ (e - 52)) :
    nearest q = m * 2 ^ (e - 52) := by
  rw [nearest_of_binade q e he h1 h2]
  have hp : (0 : Rat) < 2 ^ (e - 52) := zpow_pos (by norm_num) _
  have hx3 : (m : Rat) - 1 / 2 < q / 2 ^ (e - 52) := by
    rw [lt_div_iff₀ hp]
    push_cast at h3
    linarith
  have hx4 : q / 2 ^ (e - 52) < (m : Rat) + 1 / 2 := by
    rw [div_lt_iff₀ hp]
    push_cast at h4
    linarith
  have := le_roundHalfEven _ m hx3
  have := roundHalfEven_le_of _ m hx4
  have : roundHalfEven (q / 2 ^ (e - 52)) = m := by omega
  rw [this]

/-- A positive number is below `2` to its exponent plus 1. -/
theorem exponent_lt (q : Rat) (hq : 0 < q) : q < (2 : Rat) ^ (exponent q + 1) := by
  have h := Int.lt_zpow_succ_log_self (b := 2) (by norm_num) q
  have hle : Int.log 2 q + 1 ≤ exponent q + 1 := by
    unfold exponent
    rw [abs_of_pos hq]
    have := le_max_left (Int.log 2 q) (-1022)
    omega
  calc q < ((2 : Nat) : Rat) ^ (Int.log 2 q + 1) := h
    _ = (2 : Rat) ^ (Int.log 2 q + 1) := by norm_num
    _ ≤ (2 : Rat) ^ (exponent q + 1) := zpow_le_zpow_right₀ (by norm_num) hle

/-- A positive number below `2 ^ (e + 1)` has an exponent of at most `e`. -/
theorem exponent_le_of_lt (q : Rat) (hq : 0 < q) (e : Int) (he : -1022 ≤ e)
    (h : q < (2 : Rat) ^ (e + 1)) : exponent q ≤ e := by
  have b := (Int.lt_zpow_iff_log_lt (b := 2) (by norm_num) hq).mp (by exact_mod_cast h)
  unfold exponent
  rw [abs_of_pos hq]
  exact max_le (by omega) he

/-- A number of at least `2 ^ e` has an exponent of at least `e`. -/
theorem exponent_ge_of_le (q : Rat) (e : Int) (h : (2 : Rat) ^ e ≤ q) : e ≤ exponent q := by
  have hq : 0 < q := lt_of_lt_of_le (zpow_pos (by norm_num) e) h
  have a := (Int.zpow_le_iff_le_log (b := 2) (by norm_num) hq).mp (by exact_mod_cast h)
  unfold exponent
  rw [abs_of_pos hq]
  exact le_trans a (le_max_left _ _)

/-- Rounding never crosses a power of two from above: a value of at least `2 ^ e` rounds to
at least `2 ^ e`. -/
theorem le_nearest_zpow (q : Rat) (e : Int) (he : -1022 ≤ e) (h : (2 : Rat) ^ e ≤ q) :
    (2 : Rat) ^ e ≤ nearest q := by
  have hq : 0 < q := lt_of_lt_of_le (zpow_pos (by norm_num) e) h
  have hE := exponent_ge_of_le q e h
  have hlow : (2 : Rat) ^ exponent q ≤ q := by
    have hl : (2 : Rat) ^ (Int.log 2 q) ≤ q := by
      have := Int.zpow_log_le_self (b := 2) (by norm_num) hq
      exact_mod_cast this
    unfold exponent
    rw [abs_of_pos hq]
    rcases le_total (Int.log 2 q) (-1022) with hc | hc
    · rw [max_eq_right hc]
      have : e ≤ -1022 := by
        have a := (Int.zpow_le_iff_le_log (b := 2) (by norm_num) hq).mp (by exact_mod_cast h)
        omega
      have : e = -1022 := by omega
      rw [← this]; exact h
    · rw [max_eq_left hc]; exact hl
  have hp : (0 : Rat) < 2 ^ (exponent q - 52) := zpow_pos (by norm_num) _
  have hx : (((2 : Int) ^ 52 : Int) : Rat) - 1 / 2 < q / 2 ^ (exponent q - 52) := by
    rw [lt_div_iff₀ hp]
    have : (2 : Rat) ^ exponent q = 2 ^ (52 : Int) * 2 ^ (exponent q - 52) := by
      rw [← zpow_add₀ (by norm_num)]; congr 1; omega
    rw [this] at hlow
    push_cast
    nlinarith
  have hr := le_roundHalfEven _ _ hx
  have hr' : ((2 : Rat) ^ (52 : Int)) ≤ roundHalfEven (q / 2 ^ (exponent q - 52)) := by
    have : (((2 : Int) ^ 52 : Int) : Rat) ≤ roundHalfEven (q / 2 ^ (exponent q - 52)) := by
      exact_mod_cast hr
    have e52 : (2 : Rat) ^ (52 : Int) = (((2 : Int) ^ 52 : Int) : Rat) := by norm_num
    rw [e52]; exact this
  unfold nearest
  calc (2 : Rat) ^ e ≤ 2 ^ exponent q := zpow_le_zpow_right₀ (by norm_num) hE
    _ = 2 ^ (52 : Int) * 2 ^ (exponent q - 52) := by
      rw [← zpow_add₀ (by norm_num)]; congr 1; omega
    _ ≤ _ := mul_le_mul_of_nonneg_right hr' (le_of_lt hp)

/-- A positive value below `2 ^ (e + 1)` rounds to at most `2 ^ (e + 1)`. -/
theorem nearest_le_zpow (q : Rat) (hq : 0 < q) (e : Int) (he : -1022 ≤ e)
    (h : q < (2 : Rat) ^ (e + 1)) : nearest q ≤ (2 : Rat) ^ (e + 1) := by
  have hE := exponent_le_of_lt q hq e he h
  have hlt := exponent_lt q hq
  have hp : (0 : Rat) < 2 ^ (exponent q - 52) := zpow_pos (by norm_num) _
  have hsplit : (2 : Rat) ^ (exponent q + 1) = 2 ^ (53 : Int) * 2 ^ (exponent q - 52) := by
    rw [← zpow_add₀ (by norm_num)]; congr 1; omega
  have hx : q / 2 ^ (exponent q - 52) < (((2 : Int) ^ 53 : Int) : Rat) + 1 / 2 := by
    rw [div_lt_iff₀ hp]
    rw [hsplit] at hlt
    push_cast
    nlinarith
  have hr := roundHalfEven_le_of _ _ hx
  have hr' : (roundHalfEven (q / 2 ^ (exponent q - 52)) : Rat) ≤ (2 : Rat) ^ (53 : Int) := by
    have : (roundHalfEven (q / 2 ^ (exponent q - 52)) : Rat) ≤ (((2 : Int) ^ 53 : Int) : Rat) := by
      exact_mod_cast hr
    have e53 : (2 : Rat) ^ (53 : Int) = (((2 : Int) ^ 53 : Int) : Rat) := by norm_num
    rw [e53]; exact this
  unfold nearest
  calc _ ≤ (2 : Rat) ^ (53 : Int) * 2 ^ (exponent q - 52) :=
        mul_le_mul_of_nonneg_right hr' (le_of_lt hp)
    _ = 2 ^ (exponent q + 1) := hsplit.symm
    _ ≤ 2 ^ (e + 1) := zpow_le_zpow_right₀ (by norm_num) (by omega)

/-- A value above the midpoint between 1 and the double before it rounds to at least 1. -/
theorem one_le_nearest (q : Rat) (h : 1 - 2 ^ (-54 : Int) < q) : 1 ≤ nearest q := by
  rcases le_or_lt 1 q with h1 | h1
  · have := le_nearest_zpow q 0 (by norm_num) (by simpa using h1)
    simpa using this
  · have hb : (2 : Rat) ^ (-1 : Int) ≤ q := by
      have : (2 : Rat) ^ (-1 : Int) ≤ 1 - 2 ^ (-54 : Int) := by norm_num
      linarith
    rw [nearest_of_binade q (-1) (by norm_num) hb (by simpa using h1)]
    have hp : (0 : Rat) < 2 ^ ((-1 : Int) - 52) := zpow_pos (by norm_num) _
    have hx : (((2 : Int) ^ 53 : Int) : Rat) - 1 / 2 < q / 2 ^ ((-1 : Int) - 52) := by
      rw [lt_div_iff₀ hp]
      norm_num at h ⊢
      linarith
    have hr := le_roundHalfEven _ _ hx
    have hr' : (((2 : Int) ^ 53 : Int) : Rat) ≤ roundHalfEven (q / 2 ^ ((-1 : Int) - 52)) := by
      exact_mod_cast hr
    have : (1 : Rat) = (((2 : Int) ^ 53 : Int) : Rat) * 2 ^ ((-1 : Int) - 52) := by norm_num
    rw [this]
    exact mul_le_mul_of_nonneg_right hr' (le_of_lt hp)

/-- A positive value below the midpoint between 1000 and the double before it rounds to less
than 1000. -/
theorem nearest_lt_1000 (q : Rat) (hq : 0 < q) (h : q < 1000 - 2 ^ (-44 : Int)) :
    nearest q < 1000 := by
  rcases le_or_lt ((2 : Rat) ^ (9 : Int)) q with h1 | h1
  · have h2 : q < (2 : Rat) ^ ((9 : Int) + 1) := by
      have : (1000 : Rat) - 2 ^ (-44 : Int) < 2 ^ ((9 : Int) + 1) := by norm_num
      linarith
    rw [nearest_of_binade q 9 (by norm_num) h1 h2]
    have hp : (0 : Rat) < 2 ^ ((9 : Int) - 52) := zpow_pos (by norm_num) _
    have hx : q / 2 ^ ((9 : Int) - 52) < ((1000 * 2 ^ 43 - 1 : Int) : Rat) + 1 / 2 := by
      rw [div_lt_iff₀ hp]
      norm_num at h ⊢
      linarith
    have hr := roundHalfEven_le_of _ _ hx
    have hr' : (roundHalfEven (q / 2 ^ ((9 : Int) - 52)) : Rat) ≤
        ((1000 * 2 ^ 43 - 1 : Int) : Rat) := by exact_mod_cast hr
    have h3 : (roundHalfEven (q / 2 ^ ((9 : Int) - 52)) : Rat) * 2 ^ ((9 : Int) - 52) ≤
        ((1000 * 2 ^ 43 - 1 : Int) : Rat) * 2 ^ ((9 : Int) - 52) :=
      mul_le_mul_of_nonneg_right hr' (le_of_lt hp)
    have h4 : ((1000 * 2 ^ 43 - 1 : Int) : Rat) * 2 ^ ((9 : Int) - 52) < 1000 := by norm_num
    linarith
  · have := nearest_le_zpow q hq 8 (by norm_num) (by simpa using h1)
    have h5 : (2 : Rat) ^ ((8 : Int) + 1) < 1000 := by norm_num
    linarith

/-- No double lies strictly between a double and the one before it: a positive double below
`m * 2 ^ t`, where `2 ^ 52 < m ≤ 2 ^ 53`, is at most `(m - 1) * 2 ^ t`. -/
theorem le_pred_of_lt (v : Rat) (m t : Int) (hd : nearest v = v)
    (hm1 : 2 ^ 52 < m) (hm2 : m ≤ 2 ^ 53) (ht : -1074 ≤ t)
    (h : v < (m : Rat) * 2 ^ t) : v ≤ ((m - 1 : Int) : Rat) * 2 ^ t := by
  have hp : (0 : Rat) < 2 ^ t := zpow_pos (by norm_num) _
  have hm1' : (((2 : Int) ^ 52 : Int) : Rat) ≤ ((m - 1 : Int) : Rat) := by
    have : (2 : Int) ^ 52 ≤ m - 1 := by omega
    exact_mod_cast this
  have hm2' : (m : Rat) ≤ (((2 : Int) ^ 53 : Int) : Rat) := by exact_mod_cast hm2
  have e1 : (2 : Rat) ^ (t + 52) = (((2 : Int) ^ 52 : Int) : Rat) * 2 ^ t := by
    rw [zpow_add₀ (by norm_num)]; norm_num; ring
  have e2 : (2 : Rat) ^ (t + 52 + 1) = (((2 : Int) ^ 53 : Int) : Rat) * 2 ^ t := by
    rw [show t + 52 + 1 = t + 53 by ring, zpow_add₀ (by norm_num)]; norm_num; ring
  rcases lt_or_le v ((2 : Rat) ^ (t + 52)) with h1 | h1
  · rw [e1] at h1
    have := mul_le_mul_of_nonneg_right hm1' (le_of_lt hp)
    linarith
  · have h2 : v < (2 : Rat) ^ (t + 52 + 1) := by
      rw [e2]
      have := mul_le_mul_of_nonneg_right hm2' (le_of_lt hp)
      linarith
    have hn := nearest_of_binade v (t + 52) (by omega) h1 h2
    rw [hd, show t + 52 - 52 = t by ring] at hn
    have hk : (roundHalfEven (v / 2 ^ t) : Rat) < m := by
      rw [hn] at h
      exact lt_of_mul_lt_mul_right h (le_of_lt hp)
    have hk' : roundHalfEven (v / 2 ^ t) ≤ m - 1 := by
      have : roundHalfEven (v / 2 ^ t) < m := by exact_mod_cast hk
      omega
    have hk'' : (roundHalfEven (v / 2 ^ t) : Rat) ≤ ((m - 1 : Int) : Rat) := by
      exact_mod_cast hk'
    rw [hn]
    exact mul_le_mul_of_nonneg_right hk'' (le_of_lt hp)

/-! ### The doubles that the literals of the source denote -/

/-- The double that the literal 1e12 denotes. -/
theorem ofLiteral_1e12 : Double.ofLiteral 1e12 = 1000000000000 := by
  have h := nearest_eq 1e12 (39) 8192000000000000 (by norm_num) (by norm_num) (by norm_num)
    (by norm_num) (by norm_num)
  rw [Double.ofLiteral, h]
  norm_num

/-- The double that the literal 1e9 denotes. -/
theorem ofLiteral_1e9 : Double.ofLiteral 1e9 = 1000000000 := by
  have h := nearest_eq 1e9 (29) 8388608000000000 (by norm_num) (by norm_num) (by norm_num)
    (by norm_num) (by norm_num)
  rw [Double.ofLiteral, h]
  norm_num

/-- The double that the literal 1e6 denotes. -/
theorem ofLiteral_1e6 : Double.ofLiteral 1e6 = 1000000 := by
  have h := nearest_eq 1e6 (19) 8589934592000000 (by norm_num) (by norm_num) (by norm_num)
    (by norm_num) (by norm_num)
  rw [Double.ofLiteral, h]
  norm_num

/-- The double that the literal 1e3 denotes. -/
theorem ofLiteral_1e3 : Double.ofLiteral 1e3 = 1000 := by
  have h := nearest_eq 1e3 (9) 8796093022208000 (by norm_num) (by norm_num) (by norm_num)
    (by norm_num) (by norm_num)
  rw [Double.ofLiteral, h]
  norm_num

/-- The double that the literal 1 denotes. -/
theorem ofLiteral_1 : Double.ofLiteral 1 = 1 := by
  have h := nearest_eq 1 (0) 4503599627370496 (by norm_num) (by norm_num) (by norm_num)
    (by norm_num) (by norm_num)
  rw [Double.ofLiteral, h]
  norm_num

/-- The double that the literal 1e-3 denotes. -/
theorem ofLiteral_1em3 : Double.ofLiteral 1e-3 = 4611686018427388 * 2 ^ (-62 : Int) := by
  have h := nearest_eq 1e-3 (-10) 4611686018427388 (by norm_num) (by norm_num) (by norm_num)
    (by norm_num) (by norm_num)
  rw [Double.ofLiteral, h]
  norm_num

/-- The double that the literal 1e-6 denotes. -/
theorem ofLiteral_1em6 : Double.ofLiteral 1e-6 = 4722366482869645 * 2 ^ (-72 : Int) := by
  have h := nearest_eq 1e-6 (-20) 4722366482869645 (by norm_num) (by norm_num) (by norm_num)
    (by norm_num) (by norm_num)
  rw [Double.ofLiteral, h]
  norm_num

/-- The double that the literal 1e-9 denotes. -/
theorem ofLiteral_1em9 : Double.ofLiteral 1e-9 = 4835703278458517 * 2 ^ (-82 : Int) := by
  have h := nearest_eq 1e-9 (-30) 4835703278458517 (by norm_num) (by norm_num) (by norm_num)
    (by norm_num) (by norm_num)
  rw [Double.ofLiteral, h]
  norm_num

/-- The double that the literal 1e-12 denotes. -/
theorem ofLiteral_1em12 : Double.ofLiteral 1e-12 = 4951760157141521 * 2 ^ (-92 : Int) := by
  have h := nearest_eq 1e-12 (-40) 4951760157141521 (by norm_num) (by norm_num) (by norm_num)
    (by norm_num) (by norm_num)
  rw [Double.ofLiteral, h]
  norm_num

/-- The double that the literal 10e-6 denotes. -/
theorem ofLiteral_10em6 : Double.ofLiteral 10e-6 = 5902958103587057 * 2 ^ (-69 : Int) := by
  have h := nearest_eq 10e-6 (-17) 5902958103587057 (by norm_num) (by norm_num) (by norm_num)
    (by norm_num) (by norm_num)
  rw [Double.ofLiteral, h]
  norm_num

/-- The double that the literal 100e-9 denotes. -/
theorem ofLiteral_100em9 : Double.ofLiteral 100e-9 = 7555786372591432 * 2 ^ (-76 : Int) := by
  have h := nearest_eq 100e-9 (-24) 7555786372591432 (by norm_num) (by norm_num) (by norm_num)
    (by norm_num) (by norm_num)
  rw [Double.ofLiteral, h]
  norm_num

/-- The double that the literal 0.5 denotes. -/
theorem ofLiteral_0_5 : Double.ofLiteral 0.5 = 1 / 2 := by
  have h := nearest_eq 0.5 (-1) 4503599627370496 (by norm_num) (by norm_num) (by norm_num)
    (by norm_num) (by norm_num)
  rw [Double.ofLiteral, h]
  norm_num

/-- The double that the literal 10000 denotes. -/
theorem ofLiteral_10000 : Double.ofLiteral 10000 = 10000 := by
  have h := nearest_eq 10000 (13) 5497558138880000 (by norm_num) (by norm_num) (by norm_num)
    (by norm_num) (by norm_num)
  rw [Double.ofLiteral, h]
  norm_num

/-! ### The magnitude that is formatted -/

/-- For a double from 1e-12 up to 1e12 the magnitude that is formatted is at least 1 and
below 1000. -/
theorem specMagnitude_range (v : Double) (hd : Double.nearest v = v)
    (hlo : Double.ofLiteral 1e-12 ≤ v) (hhi : v < Double.ofLiteral 1e12) :
    1 ≤ specMagnitude v ∧ specMagnitude v < 1000 := by
  rw [ofLiteral_1em12] at hlo
  rw [ofLiteral_1e12] at hhi
  have hpos : 0 < v := lt_of_lt_of_le (by norm_num) hlo
  unfold specMagnitude
  simp only [ofLiteral_1e12, ofLiteral_1e9, ofLiteral_1e6, ofLiteral_1e3, ofLiteral_1, ofLiteral_1em3,
    ofLiteral_1em6, ofLiteral_1em9, ofLiteral_1em12, Double.div, Double.mul, ge_iff_le]
  split_ifs with h9 h6 h3 h0 hm3 hm6 hm9
  · have hp := le_pred_of_lt v 8192000000000000 (-13) hd (by norm_num) (by norm_num)
      (by norm_num) (by norm_num at hhi ⊢; linarith)
    norm_num at hp
    constructor
    · apply one_le_nearest; norm_num; linarith
    · apply nearest_lt_1000
      · positivity
      · norm_num; linarith
  · have hp := le_pred_of_lt v 8388608000000000 (-23) hd (by norm_num) (by norm_num)
      (by norm_num) (by norm_num at h9 ⊢; linarith)
    norm_num at hp
    constructor
    · apply one_le_nearest; norm_num; linarith
    · apply nearest_lt_1000
      · positivity
      · norm_num; linarith
  · have hp := le_pred_of_lt v 8589934592000000 (-33) hd (by norm_num) (by norm_num)
      (by norm_num) (by norm_num at h6 ⊢; linarith)
    norm_num at hp
    constructor
    · apply one_le_nearest; norm_num; linarith
    · apply nearest_lt_1000
      · positivity
      · norm_num; linarith
  · exact ⟨h0, lt_of_not_ge h3⟩
  · have hp := le_pred_of_lt v 9007199254740992 (-53) hd (by norm_num) (by norm_num)
      (by norm_num) (by norm_num at h0 ⊢; linarith)
    norm_num at hp hm3
    constructor
    · apply one_le_nearest; norm_num; linarith
    · apply nearest_lt_1000
      · positivity
      · norm_num; linarith
  · have hp := le_pred_of_lt v 4611686018427388 (-62) hd (by norm_num) (by norm_num)
      (by norm_num) (by norm_num at hm3 ⊢; linarith)
    norm_num at hp hm6
    constructor
    · apply one_le_nearest; norm_num; linarith
    · apply nearest_lt_1000
      · positivity
      · norm_num; linarith
  · have hp := le_pred_of_lt v 4722366482869645 (-72) hd (by norm_num) (by norm_num)
      (by norm_num) (by norm_num at hm6 ⊢; linarith)
    norm_num at hp hm9
    constructor
    · apply one_le_nearest; norm_num; linarith
    · apply nearest_lt_1000
      · positivity
      · norm_num; linarith
  · have hp := le_pred_of_lt v 4835703278458517 (-82) hd (by norm_num) (by norm_num)
      (by norm_num) (by norm_num at hm9 ⊢; linarith)
    norm_num at hp hlo
    constructor
    · apply one_le_nearest; norm_num; linarith
    · apply nearest_lt_1000
      · positivity
      · norm_num; linarith

/-! ### The branches of the formatted value -/

/-- The branch of the kilo range: the value divided by 1e3, then the suffix k. -/
theorem getFormattedValue_kilo (number : Double → String) (v : Double)
    (h1 : v < Double.ofLiteral 1e6) (h2 : Double.ofLiteral 1e3 ≤ v) :
    (passiveOfValue v).getFormattedValue number = number (Double.div v (Double.ofLiteral 1e3)) ++ "k" := by
  have k1 := h1
  have k2 := h2
  simp only [ofLiteral_1e12, ofLiteral_1e9, ofLiteral_1e6, ofLiteral_1e3, ofLiteral_1, ofLiteral_1em3,
    ofLiteral_1em6, ofLiteral_1em9, ofLiteral_1em12] at k1 k2
  have e0 : ¬ v ≥ Double.ofLiteral 1e9 := by
    simp only [ofLiteral_1e12, ofLiteral_1e9, ofLiteral_1e6, ofLiteral_1e3, ofLiteral_1, ofLiteral_1em3,
    ofLiteral_1em6, ofLiteral_1em9, ofLiteral_1em12]
    norm_num at k1 ⊢; linarith
  have e1 : ¬ v ≥ Double.ofLiteral 1e6 := by
    simp only [ofLiteral_1e12, ofLiteral_1e9, ofLiteral_1e6, ofLiteral_1e3, ofLiteral_1, ofLiteral_1em3,
    ofLiteral_1em6, ofLiteral_1em9, ofLiteral_1em12]
    norm_num at k1 ⊢; linarith
  simp only [PassiveComponent.getFormattedValue, passiveOfValue, e0, e1, ge_iff_le, h2,
    if_true, if_false]

/-- The branch of the milli range: the value times 1e3, then the suffix m. -/
theorem getFormattedValue_milli (number : Double → String) (v : Double)
    (h1 : v < Double.ofLiteral 1) (h2 : Double.ofLiteral 1e-3 ≤ v) :
    (passiveOfValue v).getFormattedValue number = number (Double.mul v (Double.ofLiteral 1e3)) ++ "m" := by
  have k1 := h1
  have k2 := h2
  simp only [ofLiteral_1e12, ofLiteral_1e9, ofLiteral_1e6, ofLiteral_1e3, ofLiteral_1, ofLiteral_1em3,
    ofLiteral_1em6, ofLiteral_1em9, ofLiteral_1em12] at k1 k2
  have e0 : ¬ v ≥ Double.ofLiteral 1e9 := by
    simp only [ofLiteral_1e12, ofLiteral_1e9, ofLiteral_1e6, ofLiteral_1e3, ofLiteral_1, ofLiteral_1em3,
    ofLiteral_1em6, ofLiteral_1em9, ofLiteral_1em12]
    norm_num at k1 ⊢; linarith
  have e1 : ¬ v ≥ Double.ofLiteral 1e6 := by
    simp only [ofLiteral_1e12, ofLiteral_1e9, ofLiteral_1e6, ofLiteral_1e3, ofLiteral_1, ofLiteral_1em3,
    ofLiteral_1em6, ofLiteral_1em9, ofLiteral_1em12]
    norm_num at k1 ⊢; linarith
  have e2 : ¬ v ≥ Double.ofLiteral 1e3 := by
    simp only [ofLiteral_1e12, ofLiteral_1e9, ofLiteral_1e6, ofLiteral_1e3, ofLiteral_1, ofLiteral_1em3,
    ofLiteral_1em6, ofLiteral_1em9, ofLiteral_1em12]
    norm_num at k1 ⊢; linarith
  have e3 : ¬ v ≥ Double.ofLiteral 1 := by
    simp only [ofLiteral_1e12, ofLiteral_1e9, ofLiteral_1e6, ofLiteral_1e3, ofLiteral_1, ofLiteral_1em3,
    ofLiteral_1em6, ofLiteral_1em9, ofLiteral_1em12]
    norm_num at k1 ⊢; linarith
  simp only [PassiveComponent.getFormattedValue, passiveOfValue, e0, e1, e2, e3, ge_iff_le, h2,
    if_true, if_false]

/-- The branch of the micro range: the value times 1e6, then the two characters of the
literal in the source. -/
theorem getFormattedValue_micro (number : Double → String) (v : Double)
    (h1 : v < Double.ofLiteral 1e-3) (h2 : Double.ofLiteral 1e-6 ≤ v) :
    (passiveOfValue v).getFormattedValue number = number (Double.mul v (Double.ofLiteral 1e6)) ++ "Î¼" := by
  have k1 := h1
  have k2 := h2
  simp only [ofLiteral_1e12, ofLiteral_1e9, ofLiteral_1e6, ofLiteral_1e3, ofLiteral_1, ofLiteral_1em3,
    ofLiteral_1em6, ofLiteral_1em9, ofLiteral_1em12] at k1 k2
  have e0 : ¬ v ≥ Double.ofLiteral 1e9 := by
    simp only [ofLiteral_1e12, ofLiteral_1e9, ofLiteral_1e6, ofLiteral_1e3, ofLiteral_1, ofLiteral_1em3,
    ofLiteral_1em6, ofLiteral_1em9, ofLiteral_1em12]
    norm_num at k1 ⊢; linarith
  have e1 : ¬ v ≥ Double.ofLiteral 1e6 := by
    simp only [ofLiteral_1e12, ofLiteral_1e9, ofLiteral_1e6, ofLiteral_1e3, ofLiteral_1, ofLiteral_1em3,
    ofLiteral_1em6, ofLiteral_1em9, ofLiteral_1em12]
    norm_num at k1 ⊢; linarith
  have e2 : ¬ v ≥ Double.ofLiteral 1e3 := by
    simp only [ofLiteral_1e12, ofLiteral_1e9, ofLiteral_1e6, ofLiteral_1e3, ofLiteral_1, ofLiteral_1em3,
    ofLiteral_1em6, ofLiteral_1em9, ofLiteral_1em12]
    norm_num at k1 ⊢; linarith
  have e3 : ¬ v ≥ Double.ofLiteral 1 := by
    simp only [ofLiteral_1e12, ofLiteral_1e9, ofLiteral_1e6, ofLiteral_1e3, ofLiteral_1, ofLiteral_1em3,
    ofLiteral_1em6, ofLiteral_1em9, ofLiteral_1em12]
    norm_num at k1 ⊢; linarith
  have e4 : ¬ v ≥ Double.ofLiteral 1e-3 := by
    simp only [ofLiteral_1e12, ofLiteral_1e9, ofLiteral_1e6, ofLiteral_1e3, ofLiteral_1, ofLiteral_1em3,
    ofLiteral_1em6, ofLiteral_1em9, ofLiteral_1em12]
    norm_num at k1 ⊢; linarith
  simp only [PassiveComponent.getFormattedValue, passiveOfValue, e0, e1, e2, e3, e4, ge_iff_le, h2,
    if_true, if_false]

/-- The branch of the nano range: the value times 1e9, then the suffix n. -/
theorem getFormattedValue_nano (number : Double → String) (v : Double)
    (h1 : v < Double.ofLiteral 1e-6) (h2 : Double.ofLiteral 1e-9 ≤ v) :
    (passiveOfValue v).getFormattedValue number = number (Double.mul v (Double.ofLiteral 1e9)) ++ "n" := by
  have k1 := h1
  have k2 := h2
  simp only [ofLiteral_1e12, ofLiteral_1e9, ofLiteral_1e6, ofLiteral_1e3, ofLiteral_1, ofLiteral_1em3,
    ofLiteral_1em6, ofLiteral_1em9, ofLiteral_1em12] at k1 k2
  have e0 : ¬ v ≥ Double.ofLiteral 1e9 := by
    simp only [ofLiteral_1e12, ofLiteral_1e9, ofLiteral_1e6, ofLiteral_1e3, ofLiteral_1, ofLiteral_1em3,
    ofLiteral_1em6, ofLiteral_1em9, ofLiteral_1em12]
    norm_num at k1 ⊢; linarith
  have e1 : ¬ v ≥ Double.ofLiteral 1e6 := by
    simp only [ofLiteral_1e12, ofLiteral_1e9, ofLiteral_1e6, ofLiteral_1e3, ofLiteral_1, ofLiteral_1em3,
    ofLiteral_1em6, ofLiteral_1em9, ofLiteral_1em12]
    norm_num at k1 ⊢; linarith
  have e2 : ¬ v ≥ Double.ofLiteral 1e3 := by
    simp only [ofLiteral_1e12, ofLiteral_1e9, ofLiteral_1e6, ofLiteral_1e3, ofLiteral_1, ofLiteral_1em3,
    ofLiteral_1em6, ofLiteral_1em9, ofLiteral_1em12]
    norm_num at k1 ⊢; linarith
  have e3 : ¬ v ≥ Double.ofLiteral 1 := by
    simp only [ofLiteral_1e12, ofLiteral_1e9, ofLiteral_1e6, ofLiteral_1e3, ofLiteral_1, ofLiteral_1em3,
    ofLiteral_1em6, ofLiteral_1em9, ofLiteral_1em12]
    norm_num at k1 ⊢; linarith
  have e4 : ¬ v ≥ Double.ofLiteral 1e-3 := by
    simp only [ofLiteral_1e12, ofLiteral_1e9, ofLiteral_1e6, ofLiteral_1e3, ofLiteral_1, ofLiteral_1em3,
    ofLiteral_1em6, ofLiteral_1em9, ofLiteral_1em12]
    norm_num at k1 ⊢; linarith
  have e5 : ¬ v ≥ Double.ofLiteral 1e-6 := by
    simp only [ofLiteral_1e12, ofLiteral_1e9, ofLiteral_1e6, ofLiteral_1e3, ofLiteral_1, ofLiteral_1em3,
    ofLiteral_1em6, ofLiteral_1em9, ofLiteral_1em12]
    norm_num at k1 ⊢; linarith
  simp only [PassiveComponent.getFormattedValue, passiveOfValue, e0, e1, e2, e3, e4, e5, ge_iff_le, h2,
    if_true, if_false]

/-- The branch of the pico range: the value times 1e12, then the suffix p. -/
theorem getFormattedValue_pico (number : Double → String) (v : Double)
    (h1 : v < Double.ofLiteral 1e-9) (h2 : Double.ofLiteral 1e-12 ≤ v) :
    (passiveOfValue v).getFormattedValue number = number (Double.mul v (Double.ofLiteral 1e12)) ++ "p" := by
  have k1 := h1
  have k2 := h2
  simp only [ofLiteral_1e12, ofLiteral_1e9, ofLiteral_1e6, ofLiteral_1e3, ofLiteral_1, ofLiteral_1em3,
    ofLiteral_1em6, ofLiteral_1em9, ofLiteral_1em12] at k1 k2
  have e0 : ¬ v ≥ Double.ofLiteral 1e9 := by
    simp only [ofLiteral_1e12, ofLiteral_1e9, ofLiteral_1e6, ofLiteral_1e3, ofLiteral_1, ofLiteral_1em3,
    ofLiteral_1em6, ofLiteral_1em9, ofLiteral_1em12]
    norm_num at k1 ⊢; linarith
  have e1 : ¬ v ≥ Double.ofLiteral 1e6 := by
    simp only [ofLiteral_1e12, ofLiteral_1e9, ofLiteral_1e6, ofLiteral_1e3, ofLiteral_1, ofLiteral_1em3,
    ofLiteral_1em6, ofLiteral_1em9, ofLiteral_1em12]
    norm_num at k1 ⊢; linarith
  have e2 : ¬ v ≥ Double.ofLiteral 1e3 := by
    simp only [ofLiteral_1e12, ofLiteral_1e9, ofLiteral_1e6, ofLiteral_1e3, ofLiteral_1, ofLiteral_1em3,
    ofLiteral_1em6, ofLiteral_1em9, ofLiteral_1em12]
    norm_num at k1 ⊢; linarith
  have e3 : ¬ v ≥ Double.ofLiteral 1 := by
    simp only [ofLiteral_1e12, ofLiteral_1e9, ofLiteral_1e6, ofLiteral_1e3, ofLiteral_1, ofLiteral_1em3,
    ofLiteral_1em6, ofLiteral_1em9, ofLiteral_1em12]
    norm_num at k1 ⊢; linarith
  have e4 : ¬ v ≥ Double.ofLiteral 1e-3 := by
    simp only [ofLiteral_1e12, ofLiteral_1e9, ofLiteral_1e6, ofLiteral_1e3, ofLiteral_1, ofLiteral_1em3,
    ofLiteral_1em6, ofLiteral_1em9, ofLiteral_1em12]
    norm_num at k1 ⊢; linarith
  have e5 : ¬ v ≥ Double.ofLiteral 1e-6 := by
    simp only [ofLiteral_1e12, ofLiteral_1e9, ofLiteral_1e6, ofLiteral_1e3, ofLiteral_1, ofLiteral_1em3,
    ofLiteral_1em6, ofLiteral_1em9, ofLiteral_1em12]
    norm_num at k1 ⊢; linarith
  have e6 : ¬ v ≥ Double.ofLiteral 1e-9 := by
    simp only [ofLiteral_1e12, ofLiteral_1e9, ofLiteral_1e6, ofLiteral_1e3, ofLiteral_1, ofLiteral_1em3,
    ofLiteral_1em6, ofLiteral_1em9, ofLiteral_1em12]
    norm_num at k1 ⊢; linarith
  simp only [PassiveComponent.getFormattedValue, passiveOfValue, e0, e1, e2, e3, e4, e5, e6, ge_iff_le, h2,
    if_true, if_false]

/-! ### Scaled values of the examples -/

/-- The double 10e-6 times 1e6 is the double 10. -/
theorem mul_10em6 : Double.mul (Double.ofLiteral 10e-6) (Double.ofLiteral 1e6) = 10 := by
  rw [Double.mul, ofLiteral_10em6, ofLiteral_1e6]
  have h := nearest_eq ((5902958103587057 * 2 ^ (-69 : Int)) * 1000000) (3) 5629499534213120 (by norm_num) (by norm_num) (by norm_num)
    (by norm_num) (by norm_num)
  rw [h]
  norm_num

/-- The double 1e-6 times 1e6 is the double 1. -/
theorem mul_1em6 : Double.mul (Double.ofLiteral 1e-6) (Double.ofLiteral 1e6) = 1 := by
  rw [Double.mul, ofLiteral_1em6, ofLiteral_1e6]
  have h := nearest_eq ((4722366482869645 * 2 ^ (-72 : Int)) * 1000000) (-1) 9007199254740992 (by norm_num) (by norm_num) (by norm_num)
    (by norm_num) (by norm_num)
  rw [h]
  norm_num

/-- The double 100e-9 times 1e9 is the double 100. -/
theorem mul_100em9 : Double.mul (Double.ofLiteral 100e-9) (Double.ofLiteral 1e9) = 100 := by
  rw [Double.mul, ofLiteral_100em9, ofLiteral_1e9]
  have h := nearest_eq ((7555786372591432 * 2 ^ (-76 : Int)) * 1000000000) (6) 7036874417766400 (by norm_num) (by norm_num) (by norm_num)
    (by norm_num) (by norm_num)
  rw [h]
  norm_num

/-- The double 1e-12 times 1e12 is the double 1. -/
theorem mul_1em12 : Double.mul (Double.ofLiteral 1e-12) (Double.ofLiteral 1e12) = 1 := by
  rw [Double.mul, ofLiteral_1em12, ofLiteral_1e12]
  have h := nearest_eq ((4951760157141521 * 2 ^ (-92 : Int)) * 1000000000000) (-1) 9007199254740992 (by norm_num) (by norm_num) (by norm_num)
    (by norm_num) (by norm_num)
  rw [h]
  norm_num

/-- The double 0.5 times 1e3 is the double 500. -/
theorem mul_half : Double.mul (Double.ofLiteral 0.5) (Double.ofLiteral 1e3) = 500 := by
  rw [Double.mul, ofLiteral_0_5, ofLiteral_1e3]
  have h := nearest_eq ((1 / 2) * 1000) (8) 8796093022208000 (by norm_num) (by norm_num) (by norm_num)
    (by norm_num) (by norm_num)
  rw [h]
  norm_num

/-- The double 10000 divided by 1e3 is the double 10. -/
theorem div_10000 : Double.div (Double.ofLiteral 10000) (Double.ofLiteral 1e3) = 10 := by
  rw [Double.div, ofLiteral_10000, ofLiteral_1e3]
  have h := nearest_eq ((10000) / 1000) (3) 5629499534213120 (by norm_num) (by norm_num) (by norm_num)
    (by norm_num) (by norm_num)
  rw [h]
  norm_num

/-- The double that the literal 1e-6 denotes is a double. -/
theorem nearest_ofLiteral_1em6 :
    Double.nearest (Double.ofLiteral 1e-6) = Double.ofLiteral 1e-6 := by
  rw [ofLiteral_1em6]
  have h := nearest_eq (4722366482869645 * 2 ^ (-72 : Int)) (-20) 4722366482869645
    (by norm_num) (by norm_num) (by norm_num) (by norm_num) (by norm_num)
  rw [h]
  norm_num

/-- The bounds of the table around the double 1e-6. -/
theorem ofLiteral_1em6_bounds :
    Double.ofLiteral 1e-12 ≤ Double.ofLiteral 1e-6 ∧
    Double.ofLiteral 1e-6 < Double.ofLiteral 1e-3 ∧
    Double.ofLiteral 1e-6 < Double.ofLiteral 1e12 := by
  rw [ofLiteral_1em6, ofLiteral_1em12, ofLiteral_1em3, ofLiteral_1e12]
  norm_num

/-- The bounds of the table around the doubles of the examples. -/
theorem examples_bounds :
    Double.ofLiteral 10e-6 < Double.ofLiteral 1e-3 ∧
    Double.ofLiteral 1e-6 ≤ Double.ofLiteral 10e-6 ∧
    Double.ofLiteral 10000 < Double.ofLiteral 1e6 ∧
    Double.ofLiteral 1e3 ≤ Double.ofLiteral 10000 ∧
    Double.ofLiteral 100e-9 < Double.ofLiteral 1e-6 ∧
    Double.ofLiteral 1e-9 ≤ Double.ofLiteral 100e-9 ∧
    Double.ofLiteral 0.5 < Double.ofLiteral 1 ∧
    Double.ofLiteral 1e-3 ≤ Double.ofLiteral 0.5 ∧
    Double.ofLiteral 1e-12 < Double.ofLiteral 1e-9 ∧
    Double.ofLiteral 1e-12 ≤ Double.ofLiteral 1e-12 := by
  simp only [ofLiteral_10em6, ofLiteral_10000, ofLiteral_100em9, ofLiteral_0_5, ofLiteral_1e9,
    ofLiteral_1e6, ofLiteral_1e3, ofLiteral_1, ofLiteral_1em3, ofLiteral_1em6, ofLiteral_1em9,
    ofLiteral_1em12]
  norm_num

/-- The value 0 is formatted raw. -/
theorem getFormattedValue_zero (number : Double → String) :
    (passiveOfValue 0).getFormattedValue number = number 0 := by
  simp only [PassiveComponent.getFormattedValue, passiveOfValue, ofLiteral_1e12, ofLiteral_1e9, ofLiteral_1e6, ofLiteral_1e3, ofLiteral_1, ofLiteral_1em3,
    ofLiteral_1em6, ofLiteral_1em9, ofLiteral_1em12]
  norm_num

/-- The magnitude of the value 0 is 0. -/
theorem specMagnitude_zero : specMagnitude 0 = 0 := by
  simp only [specMagnitude, ofLiteral_1e12, ofLiteral_1e9, ofLiteral_1e6, ofLiteral_1e3, ofLiteral_1, ofLiteral_1em3,
    ofLiteral_1em6, ofLiteral_1em9, ofLiteral_1em12]
  norm_num

/-- The magnitude that is formatted is the magnitude of the table in exact arithmetic,
rounded to the nearest double. -/
theorem specMagnitude_eq_nearest (v : Double) (hd : Double.nearest v = v) :
    specMagnitude v = Double.nearest (specScaled v) := by
  unfold specMagnitude specScaled
  simp only [Double.div, Double.mul, ofLiteral_1e12, ofLiteral_1e9, ofLiteral_1e6, ofLiteral_1e3, ofLiteral_1, ofLiteral_1em3,
    ofLiteral_1em6, ofLiteral_1em9, ofLiteral_1em12]
  split_ifs <;> first | exact hd.symm | (congr 1; norm_num)

/-- The formatted value is the text of the magnitude followed by a suffix. -/
theorem getFormattedValue_eq_magnitude (p : PassiveComponent) (number : Double → String) :
    ∃ suffix : String,
      p.getFormattedValue number = number (specMagnitude p.value) ++ suffix := by
  unfold PassiveComponent.getFormattedValue specMagnitude
  split_ifs
  · exact ⟨"G", rfl⟩
  · exact ⟨"M", rfl⟩
  · exact ⟨"k", rfl⟩
  · exact ⟨"", (String.append_empty _).symm⟩
  · exact ⟨"m", rfl⟩
  · exact ⟨"Î¼", rfl⟩
  · exact ⟨"n", rfl⟩
  · exact ⟨"p", rfl⟩
  · exact ⟨"", (String.append_empty _).symm⟩

/-- Outside the range from 1e-6 to 1e-3 the code appends the suffix of the specification. -/
theorem getFormattedValue_specSuffix (number : Double → String) (p : PassiveComponent)
    (h : ¬ (Double.ofLiteral 1e-6 ≤ p.value ∧ p.value < Double.ofLiteral 1e-3)) :
    p.getFormattedValue number = number (specMagnitude p.value) ++ specSuffix p.value := by
  unfold PassiveComponent.getFormattedValue specMagnitude specSuffix
  split_ifs with h1 h2 h3 h4 h5 h6
  · rfl
  · rfl
  · rfl
  · exact (String.append_empty _).symm
  · rfl
  · exact absurd ⟨h6, lt_of_not_ge h5⟩ h
  · rfl
  · rfl
  · exact (String.append_empty _).symm

/-- Claim C20. For every passive value, `getFormattedValue` formats the magnitude the
specification names: the value divided by 1e9, 1e6 or 1e3, the value itself, or the value
times 1e3, 1e6, 1e9 or 1e12, according to the first bound from the top that the value
reaches, and the value itself below 1e-12, so that 0 is formatted raw. The quotient and the
product are those of doubles, that is, the exact magnitude rounded to the nearest double.
For every double from 1e-12 up to but not including 1e12 the magnitude is at least 1 and
below 1000. -/
theorem getFormattedValue_magnitude (p : PassiveComponent) :
    (∀ number : Double → String, ∃ suffix : String,
      p.getFormattedValue number = number (specMagnitude p.value) ++ suffix) ∧
    (∀ number : Double → String, (passiveOfValue 0).getFormattedValue number = number 0) ∧
    specMagnitude 0 = 0 ∧
    (Double.nearest p.value = p.value →
      specMagnitude p.value = Double.nearest (specScaled p.value)) ∧
    (Double.nearest p.value = p.value → Double.ofLiteral 1e-12 ≤ p.value →
      p.value < Double.ofLiteral 1e12 →
      1 ≤ specMagnitude p.value ∧ specMagnitude p.value < 1000) :=
  ⟨getFormattedValue_eq_magnitude p, getFormattedValue_zero, specMagnitude_zero,
    specMagnitude_eq_nearest p.value, specMagnitude_range p.value⟩

/-- Witness of claim C20: the value 1e-6 of the sample capacitor CAP-1uF-0805. The double
that the literal denotes lies below the real number 1e-6 and reaches the bound of the micro
range, which is the same double; its magnitude is the double 1, within the range, and the
formatted value is the text of 1 followed by the suffix of the micro branch. -/
theorem getFormattedValue_magnitude_witness :
    Double.ofLiteral 1e-6 < 1e-6 ∧
    (∃ suffix : String,
      (passiveOfValue (Double.ofLiteral 1e-6)).getFormattedValue (fun x => numberG x 3) =
        numberG (specMagnitude (passiveOfValue (Double.ofLiteral 1e-6)).value) 3 ++ suffix) ∧
    specMagnitude (passiveOfValue (Double.ofLiteral 1e-6)).value =
      Double.nearest (specScaled (passiveOfValue (Double.ofLiteral 1e-6)).value) ∧
    (1 ≤ specMagnitude (passiveOfValue (Double.ofLiteral 1e-6)).value ∧
      specMagnitude (passiveOfValue (Double.ofLiteral 1e-6)).value < 1000) ∧
    (passiveOfValue (Double.ofLiteral 1e-6)).getFormattedValue (fun x => numberG x 3) =
      "1Î¼" :=
  have h := getFormattedValue_magnitude (passiveOfValue (Double.ofLiteral 1e-6))
  ⟨by rw [ofLiteral_1em6]; norm_num,
   h.1 (fun x => numberG x 3),
   h.2.2.2.1 nearest_ofLiteral_1em6,
   h.2.2.2.2 nearest_ofLiteral_1em6 ofLiteral_1em6_bounds.1 ofLiteral_1em6_bounds.2.2,
   by rw [getFormattedValue_micro _ _ ofLiteral_1em6_bounds.2.1 (le_refl _), mul_1em6]
      decide⟩

/-- Claim C21, evaluated on the code: for the value 10e-6, inside the range from 1e-6 to 1e-3,
getFormattedValue returns the text of the scaled number followed by the two characters
U+00CE U+00BC, not by the micro sign U+00B5 of the specification; outside that range the
suffix is the one of the specification. -/
theorem getFormattedValue_micro_suffix :
    (∀ (number : Double → String) (p : PassiveComponent),
        ¬ (Double.ofLiteral 1e-6 ≤ p.value ∧ p.value < Double.ofLiteral 1e-3) →
        p.getFormattedValue number = number (specMagnitude p.value) ++ specSuffix p.value) ∧
    (∀ number : Double → String,
        (passiveOfValue (Double.ofLiteral 10e-6)).getFormattedValue number =
          number 10 ++ "Î¼") ∧
    (passiveOfValue (Double.ofLiteral 10e-6)).getFormattedValue (fun x => numberG x 3) =
      "10Î¼" ∧
    specSuffix (Double.ofLiteral 10e-6) = "µ" ∧
    "Î¼".toList = [Char.ofNat 0xCE, Char.ofNat 0xBC] ∧
    "µ".toList = [Char.ofNat 0xB5] ∧
    "10Î¼" ≠ "10µ" := by
  have h := fun number =>
    getFormattedValue_micro number (Double.ofLiteral 10e-6) examples_bounds.1
      examples_bounds.2.1
  simp only [mul_10em6] at h
  refine ⟨getFormattedValue_specSuffix, h, ?_, ?_, by decide, by decide, by decide⟩
  · rw [h]; decide
  · unfold specSuffix
    simp only [ofLiteral_10em6, ofLiteral_1e12, ofLiteral_1e9, ofLiteral_1e6, ofLiteral_1e3, ofLiteral_1, ofLiteral_1em3,
    ofLiteral_1em6, ofLiteral_1em9, ofLiteral_1em12]
    norm_num

/-- Claim C22 fails for 0.5: the value is at least 1e-3 and below 1, so getFormattedValue
returns the milli form "500m", not "0.5". -/
theorem getFormattedValue_half :
    (passiveOfValue (Double.ofLiteral 0.5)).getFormattedValue (fun x => numberG x 3) =
      "500m" ∧
    "500m" ≠ "0.5" := by
  have h := getFormattedValue_milli (fun x => numberG x 3) (Double.ofLiteral 0.5)
    examples_bounds.2.2.2.2.2.2.1 examples_bounds.2.2.2.2.2.2.2.1
  simp only [mul_half] at h
  refine ⟨?_, by decide⟩
  rw [h]; decide

/-- Claim C22, amended: with the number text given by the three-significant-digit general
format, getFormattedValue returns "10k" for 10000.0, "100n" for 100e-9, "500m" for 0.5 and
"1p" for 1e-12, each value being the double that the literal denotes. -/
theorem getFormattedValue_examples :
    (passiveOfValue (Double.ofLiteral 10000)).getFormattedValue (fun x => numberG x 3) =
      "10k" ∧
    (passiveOfValue (Double.ofLiteral 100e-9)).getFormattedValue (fun x => numberG x 3) =
      "100n" ∧
    (passiveOfValue (Double.ofLiteral 0.5)).getFormattedValue (fun x => numberG x 3) =
      "500m" ∧
    (passiveOfValue (Double.ofLiteral 1e-12)).getFormattedValue (fun x => numberG x 3) =
      "1p" := by
  have b := examples_bounds
  have h1 := getFormattedValue_kilo (fun x => numberG x 3) (Double.ofLiteral 10000)
    b.2.2.1 b.2.2.2.1
  have h2 := getFormattedValue_nano (fun x => numberG x 3) (Double.ofLiteral 100e-9)
    b.2.2.2.2.1 b.2.2.2.2.2.1
  have h3 := getFormattedValue_milli (fun x => numberG x 3) (Double.ofLiteral 0.5)
    b.2.2.2.2.2.2.1 b.2.2.2.2.2.2.2.1
  have h4 := getFormattedValue_pico (fun x => numberG x 3) (Double.ofLiteral 1e-12)
    b.2.2.2.2.2.2.2.2.1 b.2.2.2.2.2.2.2.2.2
  simp only [div_10000] at h1
  simp only [mul_100em9] at h2
  simp only [mul_half] at h3
  simp only [mul_1em12] at h4
  refine ⟨?_, ?_, ?_, ?_⟩
  · rw [h1]; decide
  · rw [h2]; decide
  · rw [h3]; decide
  · rw [h4]; decide

/-- The double that the literal 1005 denotes. -/
theorem ofLiteral_1005 : Double.ofLiteral 1005 = 1005 := by
  have h := nearest_eq 1005 9 8840073487319040 (by norm_num) (by norm_num) (by norm_num)
    (by norm_num) (by norm_num)
  rw [Double.ofLiteral, h]
  norm_num

/-- The double 1005 divided by 1e3 is the double just below the real number 1.005. -/
theorem div_1005 :
    Double.div (Double.ofLiteral 1005) (Double.ofLiteral 1e3) =
      (1131529406376837 : Rat) / 1125899906842624 := by
  rw [Double.div, ofLiteral_1005, ofLiteral_1e3]
  have h := nearest_eq ((1005 : Rat) / 1000) 0 4526117625507348 (by norm_num) (by norm_num)
    (by norm_num) (by norm_num) (by norm_num)
  rw [h]
  norm_num

/-- The numerator of the quotient of 1005 by 1e3. -/
theorem num_1005 : ((1131529406376837 : Rat) / 1125899906842624).num = 1131529406376837 := by
  have := Rat.num_div_eq_of_coprime (a := 1131529406376837) (b := 1125899906842624)
    (by norm_num) (by norm_num)
  simpa using this

/-- The denominator of the quotient of 1005 by 1e3. -/
theorem den_1005 : ((1131529406376837 : Rat) / 1125899906842624).den = 1125899906842624 := by
  have := Rat.den_div_eq_of_coprime (a := 1131529406376837) (b := 1125899906842624)
    (by norm_num) (by norm_num)
  have h2 : ((((1131529406376837 : Rat) / 1125899906842624).den : Nat) : Int) =
      ((1125899906842624 : Nat) : Int) := by simpa using this
  exact_mod_cast h2

/-- The value 1005 is formatted as 1k: its quotient by 1e3 is a double below 1.005, which
three significant digits round down. -/
theorem getFormattedValue_1005 :
    (passiveOfValue (Double.ofLiteral 1005)).getFormattedValue (fun x => numberG x 3) = "1k" ∧
    Double.div (Double.ofLiteral 1005) (Double.ofLiteral 1e3) < 1005 / 1000 := by
  have hb : Double.ofLiteral 1005 < Double.ofLiteral 1e6 ∧
      Double.ofLiteral 1e3 ≤ Double.ofLiteral 1005 := by
    rw [ofLiteral_1005, ofLiteral_1e6, ofLiteral_1e3]; norm_num
  constructor
  · rw [getFormattedValue_kilo _ _ hb.1 hb.2, div_1005]
    unfold numberG
    rw [num_1005, den_1005]
    decide
  · rw [div_1005]; norm_num

end FloatingPoint

/-- With every statement executing, the seeding loop appends one row per default whose name
is not stored yet, in the order of the vector. -/
theorem populateLoop_fresh (ok : Nat → Bool) (hok : ∀ j, ok j = true) :
    ∀ (ds : List DefaultCategory) (k : Nat) (db : Database),
      (ds.map (fun d => d.name)).Nodup →
      (∀ d ∈ ds, ∀ r ∈ db.categories, r.name ≠ d.name) →
      (populateLoop ok k ds db).categories.map
          (fun r => (r.name, r.is_passive, r.is_active, r.default_unit, r.is_system)) =
        db.categories.map
          (fun r => (r.name, r.is_passive, r.is_active, r.default_unit, r.is_system)) ++
        ds.map (fun d => (d.name, (if d.isPassive then (1 : Int) else 0),
          (if d.isActive then (1 : Int) else 0), d.defaultUnit,
          (if d.isSystem then (1 : Int) else 0))) ∧
      (populateLoop ok k ds db).inventory = db.inventory ∧
      (populateLoop ok k ds db).inventorySeq = db.inventorySeq := by
  intro ds
  induction ds with
  | nil => intro k db _ _; simp [populateLoop]
  | cons d rest ih =>
    intro k db hnd hfresh
    have hany : db.categories.any (fun r => r.name = d.name) = false := by
      rw [List.any_eq_false]
      intro r hr
      simpa using hfresh d (List.mem_cons_self _ _) r hr
    rw [List.map_cons, List.nodup_cons] at hnd
    obtain ⟨db1, hc1, hi1, hs1, hstep⟩ : ∃ db1 : Database,
        db1.categories = db.categories ++
          [⟨nextRowId db.categoriesSeq (db.categories.map (fun r => r.id)), d.name,
            (if d.isPassive then 1 else 0), (if d.isActive then 1 else 0), d.defaultUnit,
            (if d.isSystem then 1 else 0)⟩] ∧
        db1.inventory = db.inventory ∧ db1.inventorySeq = db.inventorySeq ∧
        populateLoop ok k (d :: rest) db = populateLoop ok (k + 1) rest db1 :=
      ⟨{ db with
          categories := db.categories ++
            [⟨nextRowId db.categoriesSeq (db.categories.map (fun r => r.id)), d.name,
              (if d.isPassive then 1 else 0), (if d.isActive then 1 else 0), d.defaultUnit,
              (if d.isSystem then 1 else 0)⟩]
          categoriesSeq := nextRowId db.categoriesSeq (db.categories.map (fun r => r.id)) },
        rfl, rfl, rfl, by simp [populateLoop, insertCategory, hok, hany]⟩
    rw [hstep]
    obtain ⟨h1, h2, h3⟩ := ih (k + 1) db1 hnd.2 (by
      intro e he r hr
      rw [hc1] at hr
      rcases List.mem_append.mp hr with hr | hr
      · exact hfresh e (List.mem_cons_of_mem _ he) r hr
      · rw [List.mem_singleton.mp hr]
        intro h
        exact hnd.1 (List.mem_map.mpr ⟨e, he, h.symm⟩))
    refine ⟨?_, h2.trans hi1, h3.trans hs1⟩
    rw [h1, hc1]
    simp

/-- Claim C23: when the categories table is empty and every statement executes,
createCategoriesTable leaves exactly the eight rows Resistor, Capacitor, Inductor (passive),
IC, Transistor, Diode (active), Connector, Other (neither), all with is_system = 1 and the
inventory untouched; when the table already holds a row, nothing is inserted or changed,
whichever statements execute. -/
theorem createCategoriesTable_seeds (db : Database) (ok : Nat → Bool) :
    (db.categories = [] → (∀ j, ok j = true) →
      (createCategoriesTable db ok).ret = true ∧
      (createCategoriesTable db ok).db.categories.map
          (fun r => (r.name, r.is_passive, r.is_active, r.default_unit, r.is_system)) =
        [("Resistor", 1, 0, "Ω", 1), ("Capacitor", 1, 0, "F", 1), ("Inductor", 1, 0, "H", 1),
         ("IC", 0, 1, "", 1), ("Transistor", 0, 1, "", 1), ("Diode", 0, 1, "", 1),
         ("Connector", 0, 0, "", 1), ("Other", 0, 0, "", 1)] ∧
      (createCategoriesTable db ok).db.inventory = db.inventory) ∧
    (db.categories ≠ [] → (createCategoriesTable db ok).db = db) := by
  constructor
  · intro hc hok
    have h := populateLoop_fresh (fun k => ok (k + 2)) (fun j => hok (j + 2)) defaults 0 db
      (by decide) (by intro d _ r hr; rw [hc] at hr; cases hr)
    have hrun : createCategoriesTable db ok = populateDefaultCategories db (fun k => ok (k + 2)) := by
      simp [createCategoriesTable, hok, hc]
    rw [hrun]
    refine ⟨rfl, ?_, h.2.1⟩
    show (populateLoop (fun k => ok (k + 2)) 0 defaults db).categories.map _ = _
    rw [h.1, hc]
    rfl
  · intro hc
    have hlen : (db.categories.length == 0) = false := by
      cases hcs : db.categories with
      | nil => exact absurd hcs hc
      | cons a l => rfl
    unfold createCategoriesTable
    by_cases h0 : ok 0 = true <;> simp [h0, hlen]

/-- Claim C23 at concrete stores: the empty store is seeded with the eight rows, and a store
holding the single category Relay is left as it is. -/
theorem createCategoriesTable_seeds_witness :
    ((createCategoriesTable Database.empty (fun _ => true)).ret = true ∧
      (createCategoriesTable Database.empty (fun _ => true)).db.categories.map
          (fun r => (r.name, r.is_passive, r.is_active, r.default_unit, r.is_system)) =
        [("Resistor", 1, 0, "Ω", 1), ("Capacitor", 1, 0, "F", 1), ("Inductor", 1, 0, "H", 1),
         ("IC", 0, 1, "", 1), ("Transistor", 0, 1, "", 1), ("Diode", 0, 1, "", 1),
         ("Connector", 0, 0, "", 1), ("Other", 0, 0, "", 1)] ∧
      (createCategoriesTable Database.empty (fun _ => true)).db.inventory =
        Database.empty.inventory) ∧
    (createCategoriesTable relayDb (fun _ => true)).db = relayDb :=
  ⟨(createCategoriesTable_seeds Database.empty (fun _ => true)).1 rfl (fun _ => rfl),
   (createCategoriesTable_seeds relayDb (fun _ => true)).2 (by decide)⟩

/-! ### The sample data -/

/-- An insert that executes returns a rowid that is not negative. -/
theorem addComponent_ret_nonneg (db : Database) (c : Component) :
    ¬ (addComponent db (some c) true).ret < 0 := by
  have h := nextRowId_pos db.inventorySeq (db.inventory.map (fun r => r.id))
  show ¬ nextRowId db.inventorySeq (db.inventory.map (fun r => r.id)) < 0
  omega

/-- With every insert executing, the loop of populateSampleData appends one row per sample,
in order, emits one dataChanged per row and returns true. -/
theorem addSamples_all (ok : Nat → Bool) :
    ∀ (cs : List Component) (k : Nat) (db : Database) (sigs : List Signal),
      (∀ j, k ≤ j → ok j = true) →
      (addSamples ok k cs db sigs).ret = true ∧
      (addSamples ok k cs db sigs).db.inventory.map InventoryRow.columns =
        db.inventory.map InventoryRow.columns ++
          cs.map (fun c => (c.getName, c.getManufacturer, c.getType, c.getQuantity,
            c.getParam1, c.getParam2, extraData c)) ∧
      (addSamples ok k cs db sigs).db.categories = db.categories ∧
      (addSamples ok k cs db sigs).signals = sigs ++ cs.map (fun _ => Signal.dataChanged) := by
  intro cs
  induction cs with
  | nil => intro k db sigs _; simp [addSamples]
  | cons c rest ih =>
    intro k db sigs hok
    have hk : ok k = true := hok k (le_refl k)
    have hstep : addSamples ok k (c :: rest) db sigs =
        addSamples ok (k + 1) rest (addComponent db (some c) true).db
          (sigs ++ (addComponent db (some c) true).signals) := by
      rw [addSamples, hk, if_neg (addComponent_ret_nonneg db c)]
    rw [hstep]
    obtain ⟨h1, h2, h3, h4⟩ := ih (k + 1) (addComponent db (some c) true).db
      (sigs ++ (addComponent db (some c) true).signals) (fun j hj => hok j (by omega))
    refine ⟨h1, ?_, ?_, ?_⟩
    · rw [h2]
      show List.map InventoryRow.columns (db.inventory ++ [_]) ++ _ = _
      simp [InventoryRow.columns]
    · rw [h3]; rfl
    · rw [h4]
      show (sigs ++ [Signal.dataChanged]) ++ _ = _
      simp

/-- When the loop of populateSampleData returns true it has inserted one row per sample. -/
theorem addSamples_length (ok : Nat → Bool) :
    ∀ (cs : List Component) (k : Nat) (db : Database) (sigs : List Signal),
      (addSamples ok k cs db sigs).ret = true →
      (addSamples ok k cs db sigs).db.inventory.length = db.inventory.length + cs.length := by
  intro cs
  induction cs with
  | nil => intro k db sigs _; simp [addSamples]
  | cons c rest ih =>
    intro k db sigs hret
    cases hk : ok k with
    | false =>
      have : (addSamples ok k (c :: rest) db sigs).ret = false := by
        rw [addSamples, hk]
        rw [if_pos (show (addComponent db (some c) false).ret < 0 from (by decide : (-1 : Int) < 0))]
      rw [this] at hret
      cases hret
    | true =>
      have hstep : addSamples ok k (c :: rest) db sigs =
          addSamples ok (k + 1) rest (addComponent db (some c) true).db
            (sigs ++ (addComponent db (some c) true).signals) := by
        rw [addSamples, hk, if_neg (addComponent_ret_nonneg db c)]
      rw [hstep] at hret ⊢
      rw [ih _ _ _ hret]
      show (db.inventory ++ [_]).length + _ = _
      simp
      omega

/-- A call of populateSampleData that finds a row in the inventory, its COUNT query
executing, changes nothing. -/
theorem populateSampleData_nonempty (db : Database) (ok : Nat → Bool)
    (hne : db.inventory ≠ []) (h0 : ok 0 = true) :
    populateSampleData db ok = { db := db, ret := true, signals := [] } := by
  have hlen : db.inventory.length > 0 := List.length_pos.mpr hne
  simp [populateSampleData, h0, hlen]

/-- After a call of populateSampleData that returned true the inventory holds a row. -/
theorem populateSampleData_inventory_ne (db : Database) (ok : Nat → Bool)
    (hret : (populateSampleData db ok).ret = true) :
    (populateSampleData db ok).db.inventory ≠ [] := by
  unfold populateSampleData at hret ⊢
  by_cases hc : (ok 0 && decide (db.inventory.length > 0)) = true
  · rw [if_pos hc]
    simp only [Bool.and_eq_true, decide_eq_true_eq] at hc
    exact List.length_pos.mp hc.2
  · rw [if_neg hc] at hret ⊢
    have h := addSamples_length ok samples 1 db [] hret
    intro hnil
    rw [hnil] at h
    have : samples.length = 23 := rfl
    simp at h
    omega

/-- The seven bound values of an insert are the serialization of the component. -/
theorem bound_values_eq_specSerialize (c : Component) :
    (c.getName, c.getManufacturer, c.getType, c.getQuantity, c.getParam1, c.getParam2,
      extraData c) = specSerialize c := by
  cases c <;> rfl

/-- The categories of the samples, in the order of insertion. -/
theorem samples_types :
    samples.map (fun c => (specSerialize c).2.2.1) =
      ["Resistor", "Resistor", "Resistor", "Resistor", "Resistor", "Resistor",
       "Capacitor", "Capacitor", "Capacitor", "Capacitor", "Inductor", "Inductor",
       "IC", "IC", "IC", "IC", "IC", "Transistor", "Transistor", "Transistor",
       "Diode", "Diode", "Diode"] := by
  rfl

/-- Claim C24 fails for the categories Connector and Other: on the seeded store with an empty
inventory populateSampleData returns true, both categories exist, and no inserted row has
either of them as its category. -/
theorem populateSampleData_misses_two :
    seeded.inventory = [] ∧
    (populateSampleData seeded (fun _ => true)).ret = true ∧
    "Connector" ∈ seeded.categories.map (fun r => r.name) ∧
    "Other" ∈ seeded.categories.map (fun r => r.name) ∧
    "Connector" ∉ (populateSampleData seeded (fun _ => true)).db.inventory.map
      (fun r => r.type) ∧
    "Other" ∉ (populateSampleData seeded (fun _ => true)).db.inventory.map
      (fun r => r.type) := by
  decide

/-- Claim C24, amended: on an empty inventory, with every insert executing, populateSampleData
returns true and inserts the 23 fixed samples in order; each of the six categories Resistor,
Capacitor, Inductor, IC, Transistor and Diode is the category of an inserted row, and every
inserted row has one of these six. -/
theorem populateSampleData_spans_six (db : Database) (ok : Nat → Bool)
    (hempty : db.inventory = []) (hok : ∀ j, 1 ≤ j → ok j = true) :
    (populateSampleData db ok).ret = true ∧
    (populateSampleData db ok).db.inventory.map InventoryRow.columns =
      samples.map specSerialize ∧
    (populateSampleData db ok).db.inventory.length = 23 ∧
    (∀ n ∈ ["Resistor", "Capacitor", "Inductor", "IC", "Transistor", "Diode"],
      ∃ r ∈ (populateSampleData db ok).db.inventory, r.type = n) ∧
    (∀ r ∈ (populateSampleData db ok).db.inventory,
      r.type ∈ ["Resistor", "Capacitor", "Inductor", "IC", "Transistor", "Diode"]) := by
  have hrun : populateSampleData db ok = addSamples ok 1 samples db [] := by
    simp [populateSampleData, hempty]
  obtain ⟨h1, h2, -, -⟩ := addSamples_all ok samples 1 db [] hok
  rw [hempty, List.map_nil, List.nil_append] at h2
  have hcols : (populateSampleData db ok).db.inventory.map InventoryRow.columns =
      samples.map specSerialize := by
    rw [hrun, h2]
    exact List.map_congr_left (fun c _ => bound_values_eq_specSerialize c)
  have htypes : (populateSampleData db ok).db.inventory.map (fun r => r.type) =
      samples.map (fun c => (specSerialize c).2.2.1) := by
    have := congrArg (List.map (fun v : String × String × String × Int × Double × String ×
      String => v.2.2.1)) hcols
    simpa [List.map_map, Function.comp, InventoryRow.columns] using this
  rw [samples_types] at htypes
  have hlen := congrArg List.length hcols
  rw [List.length_map, List.length_map] at hlen
  refine ⟨by rw [hrun]; exact h1, hcols, hlen, ?_, ?_⟩
  · intro n hn
    have : n ∈ (populateSampleData db ok).db.inventory.map (fun r => r.type) := by
      rw [htypes]
      revert n
      decide
    obtain ⟨r, hr, hrn⟩ := List.mem_map.mp this
    exact ⟨r, hr, hrn⟩
  · intro r hr
    have : r.type ∈ (populateSampleData db ok).db.inventory.map (fun r => r.type) :=
      List.mem_map.mpr ⟨r, hr, rfl⟩
    rw [htypes] at this
    revert this
    generalize r.type = t
    intro ht
    simp only [List.mem_cons, List.mem_singleton, List.not_mem_nil, or_false] at ht ⊢
    tauto

/-- Claim C24, amended, on the seeded store with an empty inventory. -/
theorem populateSampleData_spans_six_witness :
    seeded.inventory = [] ∧
    (populateSampleData seeded (fun _ => true)).ret = true ∧
    (populateSampleData seeded (fun _ => true)).db.inventory.map InventoryRow.columns =
      samples.map specSerialize ∧
    (populateSampleData seeded (fun _ => true)).db.inventory.length = 23 ∧
    (∀ n ∈ ["Resistor", "Capacitor", "Inductor", "IC", "Transistor", "Diode"],
      ∃ r ∈ (populateSampleData seeded (fun _ => true)).db.inventory, r.type = n) ∧
    (∀ r ∈ (populateSampleData seeded (fun _ => true)).db.inventory,
      r.type ∈ ["Resistor", "Capacitor", "Inductor", "IC", "Transistor", "Diode"]) :=
  ⟨rfl, populateSampleData_spans_six seeded (fun _ => true) rfl (fun _ _ => rfl)⟩

/-- Claim C25: when the inventory holds at least one row and the COUNT query executes,
populateSampleData returns true and changes nothing; and after any call that returned true,
a second call whose COUNT query executes returns true and leaves the store, hence the row
count, as the first call left it. -/
theorem populateSampleData_idempotent (db : Database) (ok ok2 : Nat → Bool) :
    (db.inventory ≠ [] → ok 0 = true →
      (populateSampleData db ok).ret = true ∧ (populateSampleData db ok).db = db ∧
      (populateSampleData db ok).signals = []) ∧
    ((populateSampleData db ok).ret = true → ok2 0 = true →
      (populateSampleData (populateSampleData db ok).db ok2).ret = true ∧
      (populateSampleData (populateSampleData db ok).db ok2).db = (populateSampleData db ok).db ∧
      (populateSampleData (populateSampleData db ok).db ok2).db.inventory.length =
        (populateSampleData db ok).db.inventory.length) := by
  constructor
  · intro hne h0
    rw [populateSampleData_nonempty db ok hne h0]
    exact ⟨rfl, rfl, rfl⟩
  · intro hret h0
    rw [populateSampleData_nonempty _ ok2 (populateSampleData_inventory_ne db ok hret) h0]
    exact ⟨rfl, rfl, rfl⟩

/-- Claim C25 on the stocked store, which holds two rows, and for two calls in a row on the
seeded store, whose inventory is empty. -/
theorem populateSampleData_idempotent_witness :
    ((populateSampleData stocked (fun _ => true)).ret = true ∧
      (populateSampleData stocked (fun _ => true)).db = stocked ∧
      (populateSampleData stocked (fun _ => true)).signals = []) ∧
    ((populateSampleData (populateSampleData seeded (fun _ => true)).db (fun _ => true)).ret
        = true ∧
      (populateSampleData (populateSampleData seeded (fun _ => true)).db (fun _ => true)).db =
        (populateSampleData seeded (fun _ => true)).db ∧
      (populateSampleData (populateSampleData seeded (fun _ => true)).db
          (fun _ => true)).db.inventory.length =
        (populateSampleData seeded (fun _ => true)).db.inventory.length) :=
  ⟨(populateSampleData_idempotent stocked (fun _ => true) (fun _ => true)).1 (by decide) rfl,
   (populateSampleData_idempotent seeded (fun _ => true) (fun _ => true)).2 (by decide) rfl⟩

/-! ### Deleting a category: counts, signals and the outcome -/

/-- A stored category with a non-negative id and a non-empty name is valid. -/
theorem isValid_toInfo (X : CategoryRow) (hid : 0 ≤ X.id) (hname : X.name ≠ "") :
    X.toInfo.isValid = true := by
  have : X.name.isEmpty = false := by
    cases h : X.name.isEmpty with
    | false => rfl
    | true => rw [String.isEmpty_iff] at h; exact absurd h hname
  simp [CategoryRow.toInfo, CategoryInfo.isValid, hid, this]

/-- A stored category with an empty name is not valid. -/
theorem isValid_toInfo_empty (X : CategoryRow) (hname : X.name = "") :
    X.toInfo.isValid = false := by
  have : X.name.isEmpty = true := by rw [hname]; rfl
  simp [CategoryRow.toInfo, CategoryInfo.isValid, this]

/-- The signals of deleteCategory: categoriesChanged and then dataChanged when a row was
reassigned if it returns true; at most one errorOccurred if it returns false. -/
theorem deleteCategory_signals (db : Database) (id : Int) (ok : Nat → Bool) :
    ((deleteCategory db id ok).ret = true ∧
      (deleteCategory db id ok).signals = Signal.categoriesChanged ::
        (if movedCount db.inventory (fetchCategory db id (ok 1)).name > 0
          then [Signal.dataChanged] else [])) ∨
    ((deleteCategory db id ok).ret = false ∧
      ((deleteCategory db id ok).signals = [] ∨
        ∃ m, (deleteCategory db id ok).signals = [Signal.errorOccurred m])) := by
  by_cases h0 : canDeleteCategory db id (ok 0) = true
  · by_cases h1 : (fetchCategory db id (ok 1)).isValid = true
    · by_cases h2 : ok 2 = true
      · by_cases h3 : ok 3 = true
        · left
          simp [deleteCategory, h0, h1, h2, h3]
        · right
          simp [deleteCategory, h0, h1, h2, h3]
      · right
        simp [deleteCategory, h0, h1, h2]
    · right
      simp [deleteCategory, h0, h1]
  · right
    simp [deleteCategory, h0]

/-- With every statement executing, deleteCategory of a stored user category of non-negative
id and non-empty name returns true. -/
theorem deleteCategory_succeeds (db : Database) (X : CategoryRow) (ok : Nat → Bool)
    (hU : db.KeysUnique) (hmem : X ∈ db.categories) (hsys : X.is_system = 0)
    (hid : 0 ≤ X.id) (hname : X.name ≠ "") (hok : ∀ k, ok k = true) :
    (deleteCategory db X.id ok).ret = true := by
  have h0 : canDeleteCategory db X.id true = true := by
    rw [canDeleteCategory_of_mem db X hU hmem, hsys]; rfl
  have h1 : (fetchCategory db X.id true).isValid = true := by
    rw [fetchCategory_of_mem db X hU hmem]; exact isValid_toInfo X hid hname
  simp [deleteCategory, hok, h0, h1]

/-- With the two queries executing, deleteCategory of a stored user category whose name is
empty returns false and changes nothing. -/
theorem deleteCategory_empty_name (db : Database) (X : CategoryRow) (ok : Nat → Bool)
    (hU : db.KeysUnique) (hmem : X ∈ db.categories) (hsys : X.is_system = 0)
    (hname : X.name = "") (h0 : ok 0 = true) (h1 : ok 1 = true) :
    (deleteCategory db X.id ok).ret = false ∧ (deleteCategory db X.id ok).db = db ∧
    (deleteCategory db X.id ok).signals = [] := by
  have hc : canDeleteCategory db X.id true = true := by
    rw [canDeleteCategory_of_mem db X hU hmem, hsys]; rfl
  have hv : (fetchCategory db X.id true).isValid = false := by
    rw [fetchCategory_of_mem db X hU hmem]; exact isValid_toInfo_empty X hname
  simp [deleteCategory, h0, h1, hc, hv]

/-- The count by id of an id that no stored category has is 0. -/
theorem getComponentCountForCategoryId_unknown (db : Database) (id : Int) (ok : Nat → Bool)
    (hno : ∀ r ∈ db.categories, r.id ≠ id) :
    getComponentCountForCategoryId db id ok = 0 := by
  have hfind : db.categories.find? (fun r => decide (r.id = id)) = none := by
    rw [List.find?_eq_none]
    intro r hr
    simpa using hno r hr
  have hv : (fetchCategory db id (ok 0)).isValid = false := by
    unfold fetchCategory
    cases ok 0 <;> simp [hfind, CategoryInfo.isValid, CategoryInfo.empty]
  simp [getComponentCountForCategoryId, hv]

/-- Claim C26 fails for a stored category whose name is empty: in the store where category 9
has the empty name and one component carries it, the count by id is 0 while the count by
name is 1. -/
theorem getComponentCountForCategory_empty_name :
    (⟨9, "", 0, 1, "", 0⟩ : CategoryRow) ∈ emptyNameDb.categories ∧
    getComponentCountForCategoryId emptyNameDb 9 (fun _ => true) = 0 ∧
    getComponentCountForCategory emptyNameDb "" true = 1 := by
  decide

/-- Claim C26, amended: for a stored category of non-negative id i and non-empty name n, the
queries executing, getComponentCountForCategory(i) equals getComponentCountForCategory(n),
which is the number of inventory rows of type n; a deleteCategory(i) that returns true has
reassigned exactly these rows; and the count by an id that no category has is 0. -/
theorem getComponentCountForCategory_agree (db : Database) (X : CategoryRow)
    (ok okD : Nat → Bool) (hU : db.KeysUnique) (hmem : X ∈ db.categories)
    (hid : 0 ≤ X.id) (hname : X.name ≠ "") (h0 : ok 0 = true) (h1 : ok 1 = true) :
    getComponentCountForCategoryId db X.id ok = getComponentCountForCategory db X.name true ∧
    getComponentCountForCategory db X.name true =
      ((db.inventory.filter (fun r => r.type = X.name)).length : Int) ∧
    ((deleteCategory db X.id okD).ret = true →
      (deleteCategory db X.id okD).db.inventory = reassignToOther db.inventory X.name ∧
      ((movedCount db.inventory X.name : Nat) : Int) =
        getComponentCountForCategoryId db X.id ok) ∧
    (∀ (id : Int) (okU : Nat → Bool), (∀ r ∈ db.categories, r.id ≠ id) →
      getComponentCountForCategoryId db id okU = 0) := by
  have hv : (fetchCategory db X.id true).isValid = true := by
    rw [fetchCategory_of_mem db X hU hmem]; exact isValid_toInfo X hid hname
  have hn : (fetchCategory db X.id true).name = X.name := by
    rw [fetchCategory_of_mem db X hU hmem]; rfl
  have hcount : getComponentCountForCategoryId db X.id ok =
      getComponentCountForCategory db X.name true := by
    simp [getComponentCountForCategoryId, h0, h1, hv, hn]
  refine ⟨hcount, rfl, ?_, fun id okU hno => getComponentCountForCategoryId_unknown db id okU hno⟩
  intro hdel
  constructor
  · rw [deleteCategory_true db X okD hU hmem hdel]
  · rw [hcount]; rfl

/-- Claim C26, amended, for the category Relay (id 9) of the sample store, which two
components carry. -/
theorem getComponentCountForCategory_agree_witness :
    getComponentCountForCategoryId relayDb 9 (fun _ => true) =
      getComponentCountForCategory relayDb "Relay" true ∧
    getComponentCountForCategory relayDb "Relay" true =
      ((relayDb.inventory.filter (fun r => r.type = "Relay")).length : Int) ∧
    ((deleteCategory relayDb 9 (fun _ => true)).ret = true →
      (deleteCategory relayDb 9 (fun _ => true)).db.inventory =
        reassignToOther relayDb.inventory "Relay" ∧
      ((movedCount relayDb.inventory "Relay" : Nat) : Int) =
        getComponentCountForCategoryId relayDb 9 (fun _ => true)) ∧
    (∀ (id : Int) (okU : Nat → Bool), (∀ r ∈ relayDb.categories, r.id ≠ id) →
      getComponentCountForCategoryId relayDb id okU = 0) :=
  getComponentCountForCategory_agree relayDb ⟨9, "Relay", 0, 1, "", 0⟩ (fun _ => true)
    (fun _ => true) (by decide) (by decide) (by decide) (by decide) rfl rfl

/-- The reassignment statement affects a row exactly when the inventory holds a row of the
given type. -/
theorem movedCount_pos_iff (inventory : List InventoryRow) (type : String) :
    0 < movedCount inventory type ↔ ∃ r ∈ inventory, r.type = type := by
  unfold movedCount
  rw [List.length_pos, ne_eq, List.filter_eq_nil_iff]
  simp

/-- Claim C27. Let X be a stored category, the keys of the schema holding. A
`deleteCategory` of X that returns true has given the type `Other` to every inventory row
whose type was the name of X and left every other row as it was; it emits
`categoriesChanged` exactly once, and `dataChanged` (once, after it) if and only if the
inventory held at least one row whose type was the name of X, that is, if and only if the
reassignment affected a row; it emits nothing else. A `deleteCategory` of any id that
returns false emits neither `categoriesChanged` nor `dataChanged`. -/
theorem deleteCategory_signals_exact (db : Database) (X : CategoryRow) (ok : Nat → Bool)
    (hU : db.KeysUnique) (hmem : X ∈ db.categories) :
    ((deleteCategory db X.id ok).ret = true →
      (deleteCategory db X.id ok).db.inventory =
        db.inventory.map (fun r => if r.type = X.name then { r with type := "Other" } else r) ∧
      ((∃ r ∈ db.inventory, r.type = X.name) →
        (deleteCategory db X.id ok).signals =
          [Signal.categoriesChanged, Signal.dataChanged]) ∧
      ((∀ r ∈ db.inventory, r.type ≠ X.name) →
        (deleteCategory db X.id ok).signals = [Signal.categoriesChanged]) ∧
      (deleteCategory db X.id ok).signals.count Signal.categoriesChanged = 1 ∧
      (Signal.dataChanged ∈ (deleteCategory db X.id ok).signals ↔
        ∃ r ∈ db.inventory, r.type = X.name)) ∧
    (∀ (id : Int) (okF : Nat → Bool), (deleteCategory db id okF).ret = false →
      Signal.categoriesChanged ∉ (deleteCategory db id okF).signals ∧
      Signal.dataChanged ∉ (deleteCategory db id okF).signals) := by
  constructor
  · intro hret
    have hdb := deleteCategory_true db X ok hU hmem hret
    have hok1 : ok 1 = true := by
      rcases deleteCategory_db_cases db X.id ok with h | ⟨h, _⟩ | ⟨_, _, hv, _⟩
      · cases h1 : ok 1 with
        | true => rfl
        | false =>
          exfalso
          have : (deleteCategory db X.id ok).ret = false := by
            by_cases h0 : canDeleteCategory db X.id (ok 0) = true
            · simp [deleteCategory, h0, h1, fetchCategory_failed_isValid]
            · simp [deleteCategory, h0]
          rw [this] at hret
          cases hret
      · rw [h] at hret; cases hret
      · cases h1 : ok 1 with
        | true => rfl
        | false => rw [h1, fetchCategory_failed_isValid] at hv; cases hv
    have hname : (fetchCategory db X.id (ok 1)).name = X.name := by
      rw [hok1, fetchCategory_of_mem db X hU hmem]; rfl
    have hsig : (deleteCategory db X.id ok).signals = Signal.categoriesChanged ::
        (if movedCount db.inventory X.name > 0 then [Signal.dataChanged] else []) := by
      rcases deleteCategory_signals db X.id ok with ⟨_, hs⟩ | ⟨hf, _⟩
      · rw [hs, hname]
      · rw [hf] at hret; cases hret
    have hyes : (∃ r ∈ db.inventory, r.type = X.name) →
        (deleteCategory db X.id ok).signals =
          [Signal.categoriesChanged, Signal.dataChanged] := by
      intro hex
      rw [hsig, if_pos ((movedCount_pos_iff db.inventory X.name).mpr hex)]
    have hno : (∀ r ∈ db.inventory, r.type ≠ X.name) →
        (deleteCategory db X.id ok).signals = [Signal.categoriesChanged] := by
      intro hall
      have : ¬ movedCount db.inventory X.name > 0 := by
        intro hpos
        obtain ⟨r, hr, ht⟩ := (movedCount_pos_iff db.inventory X.name).mp hpos
        exact hall r hr ht
      rw [hsig, if_neg this]
    refine ⟨?_, hyes, hno, ?_, ?_⟩
    · rw [hdb]; rfl
    · by_cases hex : ∃ r ∈ db.inventory, r.type = X.name
      · rw [hyes hex]; decide
      · rw [hno (fun r hr ht => hex ⟨r, hr, ht⟩)]; decide
    · by_cases hex : ∃ r ∈ db.inventory, r.type = X.name
      · rw [hyes hex]; simp [hex]
      · rw [hno (fun r hr ht => hex ⟨r, hr, ht⟩)]; simp [hex]
  · intro id okF hret
    rcases deleteCategory_signals db id okF with ⟨ht, _⟩ | ⟨_, hs⟩
    · rw [ht] at hret; cases hret
    · rcases hs with hs | ⟨m, hs⟩
      · rw [hs]; simp
      · rw [hs]; simp

/-- Witness of claim C27. On the store with the relays, deleting `Relay` (id 9), which the
rows 3 and 4 carry, emits `categoriesChanged` and then `dataChanged`, and the two rows have
the type `Other` afterwards. On the stocked store with the user category `Relay` added and
no relay stored, deleting it emits `categoriesChanged` only. Deleting the system category
of id 1 is refused and emits neither. -/
theorem deleteCategory_signals_exact_witness :
    (deleteCategory relayDb 9 (fun _ => true)).signals =
      [Signal.categoriesChanged, Signal.dataChanged] ∧
    (deleteCategory relayDb 9 (fun _ => true)).db.inventory.map (fun r => (r.id, r.type)) =
      [(1, "Resistor"), (2, "IC"), (3, "Other"), (4, "Other"), (5, "Other")] ∧
    (deleteCategory (addCategory stocked relayCategory true).db 9 (fun _ => true)).signals =
      [Signal.categoriesChanged] ∧
    (Signal.categoriesChanged ∉ (deleteCategory relayDb 1 (fun _ => true)).signals ∧
      Signal.dataChanged ∉ (deleteCategory relayDb 1 (fun _ => true)).signals) :=
  ⟨((deleteCategory_signals_exact relayDb ⟨9, "Relay", 0, 1, "", 0⟩ (fun _ => true)
      (by decide) (by decide)).1 (by decide)).2.1 (by decide),
   by decide,
   ((deleteCategory_signals_exact (addCategory stocked relayCategory true).db
      ⟨9, "Relay", 0, 1, "", 0⟩ (fun _ => true) (by decide) (by decide)).1 (by decide)).2.2.1
      (by decide),
   (deleteCategory_signals_exact relayDb ⟨9, "Relay", 0, 1, "", 0⟩ (fun _ => true)
      (by decide) (by decide)).2 1 (fun _ => true) (by decide)⟩

/-- Claim C29 fails for a category whose stored name is empty: in the store where the user
category 9 has the empty name, canDeleteCategory(9) is true and every statement executes,
yet deleteCategory(9) returns false and the category is still there. -/
theorem deleteCategory_empty_name_refused :
    canDeleteCategory emptyNameDb 9 true = true ∧
    (deleteCategory emptyNameDb 9 (fun _ => true)).ret = false ∧
    (⟨9, "", 0, 1, "", 0⟩ : CategoryRow) ∈
      (deleteCategory emptyNameDb 9 (fun _ => true)).db.categories := by
  decide

/-- Claim C29, amended: if canDeleteCategory(id) is true for a stored category and every
statement executes, then deleteCategory(id) returns true and no category of that id remains,
provided the id is not negative and the stored name is not empty; when the stored name is
empty it returns false and changes nothing. -/
theorem deleteCategory_total (db : Database) (X : CategoryRow) (ok : Nat → Bool)
    (hU : db.KeysUnique) (hmem : X ∈ db.categories) (hok : ∀ k, ok k = true)
    (hcan : canDeleteCategory db X.id (ok 0) = true) :
    (0 ≤ X.id → X.name ≠ "" →
      (deleteCategory db X.id ok).ret = true ∧
      ∀ r ∈ (deleteCategory db X.id ok).db.categories, r.id ≠ X.id) ∧
    (X.name = "" →
      (deleteCategory db X.id ok).ret = false ∧ (deleteCategory db X.id ok).db = db) := by
  have hsys : X.is_system = 0 := by
    rw [hok 0, canDeleteCategory_of_mem db X hU hmem] at hcan
    simpa using hcan
  constructor
  · intro hid hname
    have hret := deleteCategory_succeeds db X ok hU hmem hsys hid hname hok
    refine ⟨hret, ?_⟩
    rw [deleteCategory_true db X ok hU hmem hret]
    intro r hr
    simpa using (List.mem_filter.mp hr).2
  · intro hname
    have h := deleteCategory_empty_name db X ok hU hmem hsys hname (hok 0) (hok 1)
    exact ⟨h.1, h.2.1⟩

/-- Claim C29, amended, for the category Relay (id 9) of the sample store. -/
theorem deleteCategory_total_witness :
    canDeleteCategory relayDb 9 true = true ∧
    (deleteCategory relayDb 9 (fun _ => true)).ret = true ∧
    ∀ r ∈ (deleteCategory relayDb 9 (fun _ => true)).db.categories, r.id ≠ 9 :=
  ⟨by decide,
   (deleteCategory_total relayDb ⟨9, "Relay", 0, 1, "", 0⟩ (fun _ => true) (by decide)
     (by decide) (fun _ => rfl) (by decide)).1 (by decide) (by decide)⟩

/-! ### Components of a deleted category -/

/-- When every stored category of the given name has neither flag, the lookup by that name
yields a category that is not flagged active. -/
theorem fetchCategoryByName_not_active (db : Database) (name : String) (ok : Bool)
    (h : ∀ o ∈ db.categories, o.name = name → o.is_passive = 0 ∧ o.is_active = 0) :
    (fetchCategoryByName db name ok).isActive = false := by
  unfold fetchCategoryByName
  cases ok with
  | false => rfl
  | true =>
    cases hf : db.categories.find? (fun r => decide (r.name = name)) with
    | none => simp [hf, CategoryInfo.empty]
    | some r =>
      have hn : r.name = name := by simpa using List.find?_some hf
      have hr := (h r (List.mem_of_find?_eq_some hf) hn).2
      simp [hf, CategoryRow.toInfo, toBool, hr]

/-- The reassignment statement keeps the id of every row, so a row is found at its id after
it as before, with the statement applied to it. -/
theorem find?_reassignToOther (inventory : List InventoryRow) (type : String) (id : Int) :
    (reassignToOther inventory type).find? (fun r => decide (r.id = id)) =
      Option.map (fun r => if r.type = type then { r with type := "Other" } else r)
        (inventory.find? (fun r => decide (r.id = id))) := by
  induction inventory with
  | nil => rfl
  | cons r rest ih =>
    have hid : (if r.type = type then { r with type := "Other" } else r).id = r.id := by
      split <;> rfl
    unfold reassignToOther at ih ⊢
    rw [List.map_cons, List.find?_cons, List.find?_cons, hid]
    by_cases h : r.id = id
    · simp [h]
    · simp only [h, decide_False]
      exact ih

/-- Claim C28: let X be a stored category flagged active and not passive, other than Other,
let every stored category named Other have neither flag, and let a be a component that is
stored under X and read back as the active component a. After a deleteCategory of X that
returns true, reading the same id back yields a passive component of category Other whose
value is the former operating voltage, whose package is the decimal text of the former pin
count and whose unit is the former datasheet link. -/
theorem deleteCategory_active_to_passive (db : Database) (X : CategoryRow)
    (a : ActiveComponent) (ok okF : Nat → Bool)
    (hU : db.KeysUnique) (hkeys : (db.inventory.map (fun r => r.id)).Nodup)
    (hmem : X ∈ db.categories) (hp : X.is_passive = 0) (ha : X.is_active ≠ 0)
    (hOther : ∀ o ∈ db.categories, o.name = "Other" → o.is_passive = 0 ∧ o.is_active = 0)
    (hcat : a.category = X.name)
    (hrow : (⟨a.id, a.name, a.manufacturer, a.category, a.quantity, a.operatingVoltage,
      QString.number a.pinCount, a.datasheetLink⟩ : InventoryRow) ∈ db.inventory)
    (hlo : INT_MIN ≤ a.pinCount) (hhi : a.pinCount ≤ INT_MAX)
    (hF0 : okF 0 = true) (hF1 : okF 1 = true)
    (hdel : (deleteCategory db X.id ok).ret = true) :
    fetchComponent db a.id okF = some (Component.active a) ∧
    fetchComponent (deleteCategory db X.id ok).db a.id okF =
      some (Component.passive ⟨a.id, a.name, a.manufacturer, a.quantity, "Other",
        a.operatingVoltage, a.datasheetLink, QString.number a.pinCount⟩) := by
  have hfind := find?_key (fun r : InventoryRow => r.id) db.inventory _ hkeys hrow
  constructor
  · unfold fetchComponent
    rw [hF0, hF1]
    simp only [if_true]
    rw [hfind]
    show hydrateComponent db _ true = _
    rw [hydrate_active_of_mem db _ X hU hmem hcat.symm hp ha]
    simp only [toInt_number a.pinCount hlo hhi]
  · rw [deleteCategory_true db X ok hU hmem hdel]
    unfold fetchComponent
    rw [hF0]
    simp only [if_true]
    rw [find?_reassignToOther, hfind]
    simp only [Option.map_some', hcat, if_true]
    apply hydrateComponent_passive_of_flag
    right
    apply fetchCategoryByName_not_active
    intro o ho hn
    exact hOther o (List.mem_filter.mp ho).1 hn

/-- Claim C28 for the relay G5LE-1 (id 3) of the sample store and the deletion of its
category Relay (id 9). -/
theorem deleteCategory_active_to_passive_witness :
    fetchComponent relayDb 3 (fun _ => true) =
      some (Component.active ⟨3, "G5LE-1", "Omron", 20, "Relay", 5, 5, ""⟩) ∧
    fetchComponent (deleteCategory relayDb 9 (fun _ => true)).db 3 (fun _ => true) =
      some (Component.passive ⟨3, "G5LE-1", "Omron", 20, "Other", 5, "", "5"⟩) :=
  deleteCategory_active_to_passive relayDb ⟨9, "Relay", 0, 1, "", 0⟩
    ⟨3, "G5LE-1", "Omron", 20, "Relay", 5, 5, ""⟩ (fun _ => true) (fun _ => true)
    (by decide) (by decide) (by decide) (by decide) (by decide) (by decide) rfl (by decide)
    (by decide) (by decide) rfl rfl (by decide)

/-! ### The low-stock list and the configured threshold -/

/-- Every component `fetchLowStock` returns has a quantity below the threshold passed. -/
theorem fetchLowStock_below (db : Database) (T : Int) (ok : Nat → Bool) (c : Component)
    (hc : c ∈ fetchLowStock db T ok) : c.getQuantity < T := by
  unfold fetchLowStock at hc
  cases h0 : ok 0 with
  | false => rw [h0] at hc; cases hc
  | true =>
    rw [h0, if_pos rfl] at hc
    have hq := List.mem_map_of_mem Component.getQuantity hc
    rw [hydrateRows_quantity] at hq
    obtain ⟨r, hr, hrq⟩ := List.mem_map.mp hq
    have hr' := List.mem_filter.mp
      ((List.perm_insertionSort (fun a b : InventoryRow => a.quantity ≤ b.quantity)
        (db.inventory.filter (fun r => r.quantity < T))).mem_iff.mp hr)
    rw [← hrq]
    simpa using hr'.2

/-- Claim C30, evaluated on the code: the call fetchLowStock() always uses the threshold 10
of its default argument, so every component it returns is low on stock for a configured
threshold of 10; with a configured threshold of 20, the stored component STM32F103C8T6 of
quantity 15 is low on stock by Component::isLowStock, yet fetchLowStock() returns only the
relay G2R-2 of quantity 4. -/
theorem fetchLowStockDefault_ignores_config :
    (∀ (db : Database) (ok : Nat → Bool) (c : Component),
      c ∈ fetchLowStockDefault db ok → c.isLowStock 10 = true) ∧
    Option.map Component.getName (fetchComponent relayDb 2 (fun _ => true)) =
      some "STM32F103C8T6" ∧
    Option.map Component.getQuantity (fetchComponent relayDb 2 (fun _ => true)) = some 15 ∧
    Option.map (Component.isLowStock 20) (fetchComponent relayDb 2 (fun _ => true)) =
      some true ∧
    (fetchLowStockDefault relayDb (fun _ => true)).map Component.getName = ["G2R-2"] ∧
    (fetchLowStock relayDb 20 (fun _ => true)).map Component.getName =
      ["G2R-2", "STM32F103C8T6"] := by
  refine ⟨?_, by decide, by decide, by decide, by decide, by decide⟩
  intro db ok c hc
  have := fetchLowStock_below db 10 ok c hc
  simpa [Component.isLowStock] using this

end ElectraBase
